import Mathlib

/-!
# Game Link shared-memory bridge (classic99, `RemoteControl/`)

A shallow embedding of `Gamelink.cpp` and `RemoteControlManager.cpp`.

Conventions of the embedding

* C arrays and pointers to bytes are total functions `Nat → Nat` (index to value);
  what such a function says at an index beyond the capacity of the array it stands
  for has no meaning. A memory image `p_sysmem` is such a function as well: it tells
  which byte a read through the pointer yields at each offset.
* The image buffers of `reverseScanlines` are functions `Int → Nat` of the byte offset
  from the pointer passed in, since the line pointer `hiln` ends below the buffer.
* Fixed-width unsigned integers are `Nat`; a reduction modulo `2 ^ w` is written
  wherever the C code does arithmetic that can leave the range.
* A finite `double` is the rational it stands for; the product and the quotient of
  doubles are rounded to the nearest `double` (`roundDouble`).
* File-level statics are fields of an explicit state record that every operation
  receives and returns.
* Calls into the window system (`PostMessageW`, `SetSoundVolumes`) are recorded, in
  order, in a list of `HostEvent`s returned by the operation.
* Results of operating-system calls (`WaitForSingleObject`, `GetFocus`,
  `GetTickCount`, `CreateFileMappingA`, `MapViewOfFile`) are arguments of the operation
  that makes the call; the sizes that `create_shared_memory` asks of the operating
  system are returned with its result, as a list of `MappingCall`s.
-/

namespace GameLink

/-- Constants declared in `Gamelink.h`, `resource.h` and `RemoteControlManager.h`.
Those headers are not among the sources at hand, so their values are parameters. The
last field is the width in bits of `size_t` and `SIZE_T`, fixed by the build target. -/
structure Consts where
  PEEK_LIMIT : Nat
  MAX_WIDTH : Nat
  MAX_HEIGHT : Nat
  MAX_PAYLOAD : Nat
  SYSTEM_MAXLEN : Nat
  PROGRAM_MAXLEN : Nat
  FLAG_WANT_KEYB : Nat
  FLAG_WANT_MOUSE : Nat
  FLAG_NO_FRAME : Nat
  FLAG_PAUSED : Nat
  MEMORY_MAP_CORE_SIZE : Nat
  SEQ_BITS : Nat
  ID_FILE_RESET : Nat
  ID_OPTIONS_PAUSEINACTIVE : Nat
  kMinRepeatInterval : Nat
  SIZE_T_BITS : Nat

/-- Value of `PROTOCOL_VER`. -/
def PROTOCOL_VER : Nat := 4

/-- Frame descriptor `sSharedMMapFrame_R1`. -/
structure sSharedMMapFrame_R1 where
  seq : Nat
  width : Nat
  height : Nat
  image_fmt : Nat
  par_x : Nat
  par_y : Nat
  buffer : Nat → Nat

/-- Input state `sSharedMMapInput_R2`. -/
structure sSharedMMapInput_R2 where
  mouse_dx : Int
  mouse_dy : Int
  ready : Nat
  mouse_btn : Nat
  keyb_state : Nat → Nat

/-- Peek request and response `sSharedMMapPeek_R2`. -/
structure sSharedMMapPeek_R2 where
  addr_count : Nat
  addr : Nat → Nat
  data : Nat → Nat

/-- Command mailbox `sSharedMMapBuffer_R1`. -/
structure sSharedMMapBuffer_R1 where
  payload : Nat
  data : Nat → Nat

/-- Audio state `sSharedMMapAudio_R1`. -/
structure sSharedMMapAudio_R1 where
  master_vol_l : Nat
  master_vol_r : Nat

/-- The shared region `sSharedMemoryMap_R4` (its fixed header). -/
structure sSharedMemoryMap_R4 where
  version : Nat
  flags : Nat
  system : Nat → Nat
  program : Nat → Nat
  program_hash : Nat → Nat
  frame : sSharedMMapFrame_R1
  input : sSharedMMapInput_R2
  peek : sSharedMMapPeek_R2
  buf_recv : sSharedMMapBuffer_R1
  buf_tohost : sSharedMMapBuffer_R1
  audio : sSharedMMapAudio_R1
  ram_size : Nat

/-- Window messages used by the two files. -/
inductive WinMsg where
  | WM_COMMAND
  | WM_DESTROY
  | WM_KEYDOWN
  | WM_KEYUP
  deriving DecidableEq, Repr

/-- An externally visible call made by the code, in program order. -/
inductive HostEvent where
  | PostMessageW (msg : WinMsg) (wParam : Nat) (lParam : Nat)
  | SetSoundVolumes
  deriving DecidableEq, Repr

/-- The file-level statics of `Gamelink.cpp`. A handle is a number, `0` being `NULL`.
The pointer `g_p_shared_memory` is the flag of the same name (non-`NULL` or not)
together with `shm`, the bytes it points to; `g_p_outbuf` only records whether the
pointer has been set. -/
structure Statics where
  g_mutex_handle : Nat
  g_mmap_handle : Nat
  g_mmapcomp_handle : Nat
  g_bEnableGamelink : Bool
  g_bEnableTrackOnly : Bool
  g_membase_size : Nat
  g_p_shared_memory : Bool
  shm : sSharedMemoryMap_R4
  g_p_outbuf : Bool

/-! ## `UpdatePeekInfo` -/

/-- The loop header shared by both loops of `UpdatePeekInfo`:
`for (pindex = ..; pindex < peek->addr_count && pindex < PEEK_LIMIT; ++pindex) body`.
The guard is evaluated again before every iteration; `fuel` bounds the number of
iterations and `PEEK_LIMIT` is always enough when starting from `0`. -/
def peekLoop (C : Consts) (body : Nat → sSharedMMapPeek_R2 → sSharedMMapPeek_R2) :
    Nat → Nat → sSharedMMapPeek_R2 → sSharedMMapPeek_R2
  | 0, _, peek => peek
  | fuel + 1, pindex, peek =>
    if pindex < peek.addr_count ∧ pindex < C.PEEK_LIMIT then
      peekLoop C body fuel (pindex + 1) (body pindex peek)
    else peek

/-- Body of the first loop: read the address, fetch the byte if the address is valid,
else `0`, and write it to `data[pindex]`. -/
def peekReadBody (g_membase_size : Nat) (p_sysmem : Nat → Nat)
    (pindex : Nat) (peek : sSharedMMapPeek_R2) : sSharedMMapPeek_R2 :=
  let address := peek.addr pindex
  let data := if address < g_membase_size then p_sysmem address else 0
  { peek with data := Function.update peek.data pindex data }

/-- Body of the second loop: replace the value where `xpos` is asked for. -/
def peekPatchBody (xpos : Nat) (pindex : Nat) (peek : sSharedMMapPeek_R2) :
    sSharedMMapPeek_R2 :=
  if peek.addr pindex = 0x1a009 then
    { peek with data := Function.update peek.data pindex xpos }
  else peek

/-- The `switch (slant)` of the Realms of Antiquity patch; the operands are promoted to
`int` and the result is stored back into a `UINT8`. -/
def slantXpos (xpos ypos slant rows : Nat) : Nat :=
  match slant with
  | 0 => ((((xpos : Int) - (ypos : Int) + ((rows : Int) - 1)) % 256)).toNat
  | 2 => xpos
  | 4 => (xpos + ypos) % 256
  | _ => xpos

/-- `GameLink::UpdatePeekInfo(peek, p_sysmem)`; the statics it reads, `g_membase_size`
and `g_p_shared_memory->program_hash`, are arguments. -/
def UpdatePeekInfo (C : Consts) (g_membase_size : Nat) (program_hash : Nat → Nat)
    (peek : sSharedMMapPeek_R2) (p_sysmem : Nat → Nat) : sSharedMMapPeek_R2 :=
  let peek1 := peekLoop C (peekReadBody g_membase_size p_sysmem) C.PEEK_LIMIT 0 peek
  if program_hash 3 = 0x503359be then
    let xpos := slantXpos (p_sysmem 0x1a009) (p_sysmem 0x1a007) (p_sysmem 0x1a833)
      (p_sysmem 0x1a82d)
    peekLoop C (peekPatchBody xpos) C.PEEK_LIMIT 0 peek1
  else peek1

/-! ## Byte-block helpers -/

/-- The call `memcpy(dst, src, n)` on byte arrays. -/
def memcpy (dst src : Nat → Nat) (n : Nat) : Nat → Nat :=
  fun i => if i < n then src i else dst i

/-- The call `memset(dst, v, n)` on a byte array. -/
def memset (dst : Nat → Nat) (v n : Nat) : Nat → Nat :=
  fun i => if i < n then v else dst i

/-- The bytes of a string literal. -/
def cstr (s : String) : List Nat := s.toList.map Char.toNat

/-- The test `strcmp(com, lit) == 0` against a string literal `lit` (which holds no NUL):
every byte of the literal has to be matched and then the terminator. The scan starts
at index `i` of `com`. -/
def strcmpEq (com : Nat → Nat) : Nat → List Nat → Bool
  | i, [] => com i == 0
  | i, c :: cs => com i == c && strcmpEq com (i + 1) cs

/-- The call `strcpy_s(dest, src)` on a `char dest[cap]`: the string and its terminator
are written when they fit; otherwise the invalid-parameter handler runs and there is
no result. -/
def strcpy_s (cap : Nat) (dest : Nat → Nat) (src : List Nat) : Option (Nat → Nat) :=
  if src.length < cap then
    some (fun i => if i < src.length then src.getD i 0 else if i = src.length then 0
      else dest i)
  else none

/-! ## Terminal command sub-protocol -/

/-- Host action posted for `:reset`. -/
def resetAction (C : Consts) : HostEvent :=
  HostEvent.PostMessageW WinMsg.WM_COMMAND C.ID_FILE_RESET 0

/-- Host action posted for `:pause`. -/
def pauseAction (C : Consts) : HostEvent :=
  HostEvent.PostMessageW WinMsg.WM_COMMAND C.ID_OPTIONS_PAUSEINACTIVE 1

/-- Host action posted for `:shutdown`. -/
def shutdownAction : HostEvent :=
  HostEvent.PostMessageW WinMsg.WM_DESTROY 0 0

/-- The function `proc_mech(cmd, payload)`: the buffer after the call and the messages
posted. -/
def proc_mech (C : Consts) (cmd : sSharedMMapBuffer_R1) (payload : Nat) :
    sSharedMMapBuffer_R1 × List HostEvent :=
  if payload ≤ 1 ∨ payload > 128 then (cmd, [])
  else
    let cmd1 : sSharedMMapBuffer_R1 :=
      { payload := 0, data := Function.update cmd.data payload 0 }
    let com := cmd1.data
    if strcmpEq com 0 (cstr ":reset") then (cmd1, [resetAction C])
    else if strcmpEq com 0 (cstr ":pause") then (cmd1, [pauseAction C])
    else if strcmpEq com 0 (cstr ":shutdown") then (cmd1, [shutdownAction])
    else (cmd1, [])

/-- The function `GameLink::ExecTerminalMech(p_procbuf)`. -/
def ExecTerminalMech (C : Consts) (p_procbuf : sSharedMMapBuffer_R1) :
    sSharedMMapBuffer_R1 × List HostEvent :=
  proc_mech C p_procbuf p_procbuf.payload

/-- What `ExecTerminal` can read and write: the static `g_p_outbuf` and the three
buffers its arguments point to (pairwise distinct objects). -/
structure Terminal where
  g_p_outbuf : Bool
  inbuf : sSharedMMapBuffer_R1
  outbuf : sSharedMMapBuffer_R1
  procbuf : sSharedMMapBuffer_R1

/-- The function `GameLink::ExecTerminal(p_inbuf, p_outbuf, p_procbuf)`. -/
def ExecTerminal (t : Terminal) : Terminal :=
  if t.inbuf.payload = 0 then t
  else if t.outbuf.payload > 0 then t
  else
    let t1 := { t with g_p_outbuf := true }
    if t1.inbuf.data 0 = ':'.toNat then
      let payload := t1.inbuf.payload
      let inbuf1 := { t1.inbuf with payload := 0 }
      { t1 with
        inbuf := inbuf1
        procbuf := { payload := payload, data := memcpy t1.procbuf.data inbuf1.data payload } }
    else t1

/-- The function `GameLink::InitTerminal()`. -/
def InitTerminal (g : Statics) : Statics :=
  { g with g_p_outbuf := false }

/-! ## Region life cycle -/

/-- The string `SYSTEM_NAME`. -/
def SYSTEM_NAME : List Nat := cstr "Gamelink99"

/-- The function `shared_memory_init()`, run on a mapped region. There is no result when
`strcpy_s` rejects the system name. -/
def shared_memory_init (C : Consts) (g : Statics) : Option Statics :=
  match strcpy_s C.SYSTEM_MAXLEN (memset g.shm.system 0 C.SYSTEM_MAXLEN) SYSTEM_NAME with
  | none => none
  | some system =>
    let m := g.shm
    some { g with shm :=
      { m with
        version := PROTOCOL_VER
        flags := 0
        system := system
        program := memset m.program 0 C.PROGRAM_MAXLEN
        program_hash := Function.update (Function.update (Function.update
          (Function.update m.program_hash 0 0) 1 0) 2 0) 3 0
        input :=
          { m.input with
            mouse_dx := 0
            mouse_dy := 0
            mouse_btn := 0
            keyb_state := fun i => if i < 8 then 0 else m.input.keyb_state i }
        peek :=
          { addr_count := 0
            addr := memset m.peek.addr 0 C.PEEK_LIMIT
            data := memset m.peek.data 0 C.PEEK_LIMIT }
        frame :=
          { seq := 0
            image_fmt := 0
            width := 0
            height := 0
            par_x := 1
            par_y := 1
            buffer := memset m.frame.buffer 0 C.MAX_PAYLOAD }
        audio := { master_vol_l := 100, master_vol_r := 100 }
        ram_size := g.g_membase_size } }

/-- The function `destroy_mutex`. -/
def destroy_mutex (g : Statics) : Statics :=
  if g.g_mutex_handle ≠ 0 then { g with g_mutex_handle := 0 } else g

/-- A request for memory that `create_shared_memory()` makes of the operating system,
with the size it asks for: the `DWORD dwMaximumSizeLow` of `CreateFileMappingA` (the
high part of the size is 0) or the `SIZE_T dwNumberOfBytesToMap` of `MapViewOfFile`. -/
inductive MappingCall where
  | CreateFileMappingA (dwMaximumSizeLow : Nat)
  | MapViewOfFile (dwNumberOfBytesToMap : Nat)
  deriving DecidableEq

/-- The local `const int memory_map_size = MEMORY_MAP_CORE_SIZE + g_membase_size` of
`create_shared_memory`: `MEMORY_MAP_CORE_SIZE` is a `sizeof`, so the sum is taken in
`size_t`; the `int` keeps its low 32 bits, read as a signed value. -/
def memory_map_size (C : Consts) (g : Statics) : Int :=
  let sum := (C.MEMORY_MAP_CORE_SIZE + g.g_membase_size) % 2 ^ C.SIZE_T_BITS
  (((sum + 2 ^ 31) % 2 ^ 32 : Nat) : Int) - 2 ^ 31

/-- The function `create_shared_memory()`. `os_mmap` is the handle `CreateFileMappingA`
returns (`0` on failure) and `os_view` what `MapViewOfFile` returns: `none` for `NULL`,
else the present content of the view. The result carries the return value and the
requests made, in order: the `int memory_map_size` is converted to the `DWORD` and to
the `SIZE_T` that the two calls take. -/
def create_shared_memory (C : Consts) (os_mmap : Nat)
    (os_view : Option sSharedMemoryMap_R4) (g : Statics) :
    Statics × Nat × List MappingCall :=
  let c1 := MappingCall.CreateFileMappingA (memory_map_size C g % 2 ^ 32).toNat
  let g1 := { g with g_mmap_handle := os_mmap }
  if g1.g_mmap_handle ≠ 0 then
    let c2 := MappingCall.MapViewOfFile (memory_map_size C g % 2 ^ C.SIZE_T_BITS).toNat
    match os_view with
    | some m => ({ g1 with g_p_shared_memory := true, shm := m }, 1, [c1, c2])
    | none => ({ g1 with g_p_shared_memory := false, g_mmap_handle := 0 }, 0, [c1, c2])
  else (g1, 0, [c1])

/-- The function `GameLink::AllocRAM(size)`. The pointer returned is given as its offset
from the base of the region (`none` for the null pointer); there is no result at all
when `shared_memory_init` has none. -/
def AllocRAM (C : Consts) (os_mmap : Nat) (os_view : Option sSharedMemoryMap_R4)
    (size : Nat) (g : Statics) : Option (Statics × Option Nat) :=
  let g1 := { g with g_membase_size := size }
  let r := create_shared_memory C os_mmap os_view g1
  if r.2.1 ≠ 1 then some (destroy_mutex r.1, none)
  else
    match shared_memory_init C r.1 with
    | none => none
    | some g2 => some (InitTerminal g2, some C.MEMORY_MAP_CORE_SIZE)

/-! ## `In` -/

/-- An input structure after `memset(p_input, 0, sizeof(sSharedMMapInput_R2))`. -/
def zeroInput : sSharedMMapInput_R2 :=
  { mouse_dx := 0, mouse_dy := 0, ready := 0, mouse_btn := 0, keyb_state := fun _ => 0 }

/-- Everything a call of `In` leaves behind. -/
structure InResult where
  g : Statics
  p_input : sSharedMMapInput_R2
  p_audio : sSharedMMapAudio_R1
  ready : Nat

/-- The function `GameLink::In(p_input, p_audio)`. -/
def In (g : Statics) (p_input : sSharedMMapInput_R2) (p_audio : sSharedMMapAudio_R1) :
    InResult :=
  if g.g_p_shared_memory then
    if g.g_bEnableTrackOnly then
      { g := g, p_input := zeroInput, p_audio := p_audio, ready := 0 }
    else
      let r : InResult :=
        if g.shm.input.ready ≠ 0 then
          { g := { g with shm := { g.shm with input :=
              { g.shm.input with mouse_dx := 0, mouse_dy := 0, ready := 0 } } }
            p_input := g.shm.input
            p_audio := p_audio
            ready := 1 }
        else { g := g, p_input := p_input, p_audio := p_audio, ready := 0 }
      let a1 : sSharedMMapAudio_R1 :=
        if r.g.shm.audio.master_vol_l ≤ 100 then
          { r.p_audio with master_vol_l := r.g.shm.audio.master_vol_l }
        else r.p_audio
      let a2 : sSharedMMapAudio_R1 :=
        if r.g.shm.audio.master_vol_r ≤ 100 then
          { a1 with master_vol_r := r.g.shm.audio.master_vol_r }
        else a1
      { r with p_audio := a2 }
  else { g := g, p_input := p_input, p_audio := p_audio, ready := 0 }

/-! ## `Out` -/

/-- Rounding of a rational to the nearest integer, a tie going to the even one. -/
def roundHalfEven (q : ℚ) : Int :=
  let f := Rat.floor q
  if q - f < 1 / 2 then f
  else if 1 / 2 < q - f then f + 1
  else if f % 2 = 0 then f else f + 1

/-- The `double` nearest to `x`: IEEE 754 binary64, round to nearest, ties to even, the
rounding of the `double` product and quotient of `Out`. The doubles around `x` are
`2 ^ (e - 52)` apart, where `2 ^ e ≤ |x| < 2 ^ (e + 1)`, and `2 ^ (-1074)` apart below
the normal range. A result beyond the largest double is infinite in the code; the model
has no infinity and keeps the rounded value. -/
def roundDouble (x : ℚ) : ℚ :=
  if x = 0 then 0
  else
    let e : Int := max (Int.log 2 |x|) (-1022)
    roundHalfEven (x / 2 ^ (e - 52)) * 2 ^ (e - 52)

/-- The conversion `static_cast<UINT16>(x)` of a `double`: the value is truncated toward
zero. C++ defines the result only when the truncated value is one of `0 .. 65535`; for
the others the model takes what the compiled x86 code leaves, a conversion to a 32-bit
`int` (with the value `0x80000000` beyond its range) of which the low 16 bits are
kept. -/
def toUINT16 (x : ℚ) : Nat :=
  let t : Int := if 0 ≤ x then Rat.floor x else -Rat.floor (-x)
  if -2 ^ 31 ≤ t ∧ t < 2 ^ 31 then (t % 2 ^ 16).toNat else 0

/-- The integer ratio `(par_x, par_y)` built at the start of `Out` from the `double`
`source_ratio`, a finite value given as the rational it stands for. -/
def integerRatio (source_ratio : ℚ) : Nat × Nat :=
  if source_ratio ≥ 1 then (4096, toUINT16 (roundDouble (source_ratio * 4096)))
  else (toUINT16 (roundDouble (4096 / source_ratio)), 4096)

/-- The flags byte built by `Out`. -/
def buildFlags (C : Consts) (g_bEnableTrackOnly want_mouse : Bool) (max_cpf : Int) : Nat :=
  let flags :=
    if g_bEnableTrackOnly then C.FLAG_NO_FRAME
    else
      let flags := C.FLAG_WANT_KEYB
      if want_mouse then flags ||| C.FLAG_WANT_MOUSE else flags
  if 0 = max_cpf then flags ||| C.FLAG_PAUSED else flags

/-- The frame block of `Out`, run when track-only is off and `p_frame` is not null. -/
def publishFrame (C : Consts) (frame_width frame_height par_x par_y : Nat)
    (p_frame : Nat → Nat) (f : sSharedMMapFrame_R1) : sSharedMMapFrame_R1 :=
  let f1 : sSharedMMapFrame_R1 :=
    { f with
      seq := (f.seq + 1) % 2 ^ C.SEQ_BITS
      image_fmt := 1
      width := frame_width
      height := frame_height
      par_x := par_x
      par_y := par_y }
  let payload := (frame_width * frame_height * 4) % 2 ^ 32
  if frame_width ≤ C.MAX_WIDTH ∧ frame_height ≤ C.MAX_HEIGHT then
    { f1 with buffer := memcpy f1.buffer p_frame payload }
  else f1

/-- The test `(g_bEnableTrackOnly == false) && p_frame` of `Out` and the block it guards.
A null `p_frame` is `none`. -/
def outFrame (C : Consts) (g_bEnableTrackOnly : Bool) (frame_width frame_height : Nat)
    (par_x par_y : Nat) (p_frame : Option (Nat → Nat)) (f : sSharedMMapFrame_R1) :
    sSharedMMapFrame_R1 :=
  match g_bEnableTrackOnly, p_frame with
  | false, some px => publishFrame C frame_width frame_height par_x par_y px f
  | _, _ => f

/-- The block of `Out` that runs while the mutex is held. `stack` is what the
uninitialised `proc_mech_buffer.data` happens to hold. The result is the statics and the
local `proc_mech_buffer` as `ExecTerminal` leaves it. -/
def outLocked (C : Consts) (flags par_x par_y : Nat) (stack : Nat → Nat)
    (frame_width frame_height : Nat) (p_frame : Option (Nat → Nat)) (p_sysmem : Nat → Nat)
    (g : Statics) : Statics × sSharedMMapBuffer_R1 :=
  let m1 := { g.shm with version := PROTOCOL_VER, flags := flags }
  let m2 := { m1 with
    frame := outFrame C g.g_bEnableTrackOnly frame_width frame_height par_x par_y p_frame
      m1.frame }
  let m3 := { m2 with
    peek := UpdatePeekInfo C g.g_membase_size m2.program_hash m2.peek p_sysmem }
  let t := ExecTerminal
    { g_p_outbuf := g.g_p_outbuf
      inbuf := m3.buf_recv
      outbuf := m3.buf_tohost
      procbuf := { payload := 0, data := stack } }
  ({ g with
      shm := { m3 with buf_recv := t.inbuf, buf_tohost := t.outbuf }
      g_p_outbuf := t.g_p_outbuf },
    t.procbuf)

/-- The full version of `GameLink::Out`. Besides the C arguments it receives `max_cpf`
(an `extern int`), `wait_ok` (whether `WaitForSingleObject` returned `WAIT_OBJECT_0`)
and `stack` (see `outLocked`). It returns the statics and the messages posted. -/
def Out (C : Consts) (max_cpf : Int) (wait_ok : Bool) (stack : Nat → Nat)
    (frame_width frame_height : Nat) (source_ratio : ℚ) (want_mouse : Bool)
    (p_frame : Option (Nat → Nat)) (p_sysmem : Nat → Nat) (g : Statics) :
    Statics × List HostEvent :=
  if g.g_p_shared_memory = false then (g, [])
  else
    let par := integerRatio source_ratio
    let flags := buildFlags C g.g_bEnableTrackOnly want_mouse max_cpf
    if wait_ok then
      let r := outLocked C flags par.1 par.2 stack frame_width frame_height p_frame p_sysmem g
      if r.2.payload ≠ 0 then (r.1, (ExecTerminalMech C r.2).2)
      else (r.1, [])
    else (g, [])

/-- The version of `GameLink::Out` with memory only, used for out-of-band commands. -/
def OutMem (C : Consts) (max_cpf : Int) (wait_ok : Bool) (stack : Nat → Nat)
    (p_sysmem : Nat → Nat) (g : Statics) : Statics × List HostEvent :=
  Out C max_cpf wait_ok stack 0 0 1 false none p_sysmem g

end GameLink

namespace RemoteControlManager

open GameLink

/-- The I/O structure `Gamelink_Block`. -/
structure Gamelink_Block where
  input_prev : sSharedMMapInput_R2
  input : sSharedMMapInput_R2
  audio : sSharedMMapAudio_R1
  repeat_last_tick : Nat → Nat
  want_mouse : Bool

/-- The structure `Info_HDV`; the volume name is kept as its bytes. -/
structure Info_HDV where
  VolumeName : List Nat
  sig : Nat

/-- The globals of `RemoteControlManager.cpp` and of the emulator that it uses, on top
of the statics of `Gamelink.cpp`. The unordered set `exclusionSet` is the list of its
members. -/
structure Globals where
  gl : Statics
  g_gamelink : Gamelink_Block
  g_infoHdv : Info_HDV
  exclusionSet : List Nat
  max_volume : Int
  iCurrentTicks : Nat
  bHardDiskIsLoaded : Bool
  bFloppyIsLoaded : Bool

/-- The table `aDIKtoVK` of `getInput`. -/
def aDIKtoVK : List Nat :=
  [0x00, 0x1B, 0x31, 0x32, 0x33, 0x34, 0x35, 0x36, 0x37, 0x38, 0x39, 0x30, 0xBD, 0xBB, 0x08, 0x09,
   0x51, 0x57, 0x45, 0x52, 0x54, 0x59, 0x55, 0x49, 0x4F, 0x50, 0xDB, 0xDD, 0x0D, 0xA2, 0x41, 0x53,
   0x44, 0x46, 0x47, 0x48, 0x4A, 0x4B, 0x4C, 0xBA, 0xDE, 0xC0, 0xA0, 0xDC, 0x5A, 0x58, 0x43, 0x56,
   0x42, 0x4E, 0x4D, 0xBC, 0xBE, 0xBF, 0xA1, 0x6A, 0xA4, 0x20, 0x14, 0x70, 0x71, 0x72, 0x73, 0x74,
   0x75, 0x76, 0x77, 0x78, 0x79, 0x13, 0x91, 0x24, 0x26, 0x21, 0x6D, 0x25, 0x0C, 0x27, 0x6B, 0x23,
   0x28, 0x22, 0x2D, 0x2E, 0x2C, 0x00, 0xE2, 0x7A, 0x7B, 0x0C, 0xEE, 0xF1, 0xEA, 0xF9, 0xF5, 0xF3,
   0x00, 0x00, 0xFB, 0x2F, 0x7C, 0x7D, 0x7E, 0x7F, 0x80, 0x81, 0x82, 0x83, 0x84, 0x85, 0x86, 0xED,
   0x00, 0xE9, 0x00, 0xC1, 0x00, 0x00, 0x87, 0x00, 0x00, 0x00, 0x00, 0xEB, 0x09, 0x00, 0xC2, 0x00,
   0x00, 0x00, 0x00, 0x00, 0x00, 0x00, 0x00, 0x00, 0x00, 0x00, 0x00, 0x00, 0x00, 0x00, 0x00, 0x00,
   0xB1, 0x00, 0x00, 0x00, 0x00, 0x00, 0x00, 0x00, 0x00, 0xB0, 0x00, 0x00, 0x0D, 0xA3, 0x00, 0x00,
   0xAD, 0xB6, 0xB3, 0x00, 0xB2, 0x00, 0x00, 0x00, 0x00, 0x00, 0x00, 0x00, 0x00, 0x00, 0xAE, 0x00,
   0xAF, 0x00, 0xB7, 0x00, 0x00, 0xBF, 0x00, 0x2A, 0xA5, 0x00, 0x00, 0x00, 0x00, 0x00, 0x00, 0x00,
   0x00, 0x00, 0x00, 0x00, 0x00, 0x90, 0x00, 0x24, 0x26, 0x21, 0x00, 0x25, 0x00, 0x27, 0x00, 0x23,
   0x28, 0x22, 0x2D, 0x2E, 0x00, 0x00, 0x00, 0x00, 0x00, 0x00, 0x00, 0x5B, 0x5C, 0x5D, 0x00, 0x5F,
   0x00, 0x00, 0x00, 0x00, 0x00, 0xAA, 0xAB, 0xA8, 0xA9, 0xA7, 0xA6, 0xAC, 0xB4, 0xB5, 0x00, 0x00,
   0x00, 0x00, 0x00, 0x00, 0x00, 0x00, 0x00, 0x00, 0x00, 0x00, 0x00, 0x00, 0x00, 0x00, 0x00, 0x00]

/-- What the key loops of `getInput` carry along: the repeat time stamps and the
messages posted so far. -/
structure KeyLoop where
  repeat_last_tick : Nat → Nat
  posted : List HostEvent

/-- One pass of the inner loop body of `getInput`, for key group `blk` and bit `bit`;
`old` and `key` are the previous and the current word of the group. -/
def keyBody (C : Consts) (exclusionSet : List Nat) (iCurrentTicks old key blk bit : Nat)
    (k : KeyLoop) : KeyLoop :=
  let scancode := (blk * 32 + bit) % 256
  let mask := (1 <<< bit) % 2 ^ 32
  let bCD : Bool := (key &&& mask) != 0
  let bPD : Bool := (old &&& mask) != 0
  if !bCD && !bPD then k
  else if bCD && bPD &&
      decide ((((iCurrentTicks : Int) - (k.repeat_last_tick scancode : Int)) % 2 ^ 64).toNat
        < C.kMinRepeatInterval) then k
  else
    let ticks :=
      if !bPD then Function.update k.repeat_last_tick scancode (iCurrentTicks % 2 ^ 32)
      else Function.update k.repeat_last_tick scancode 0
    let iKeyState := if bCD then WinMsg.WM_KEYDOWN else WinMsg.WM_KEYUP
    let iVK_Code := aDIKtoVK.getD scancode 0
    let repeat_count := 1
    let lparam := repeat_count
    let lparam := lparam ||| (scancode <<< 16)
    let lparam := lparam ||| ((if scancode > 0x7F then 1 else 0) <<< 24)
    let lparam := lparam ||| ((if bPD then 1 else 0) <<< 30)
    let lparam := lparam ||| ((if !bCD then 1 else 0) <<< 31)
    if exclusionSet.contains iVK_Code then { k with repeat_last_tick := ticks }
    else
      { repeat_last_tick := ticks
        posted := k.posted ++ [HostEvent.PostMessageW iKeyState iVK_Code lparam] }

/-- The two nested key loops of `getInput`: `blk` from 0 to 7, `bit` from 0 to 31. -/
def keyLoops (C : Consts) (exclusionSet : List Nat) (iCurrentTicks : Nat)
    (input_prev input : sSharedMMapInput_R2) (k : KeyLoop) : KeyLoop :=
  (List.range 8).foldl (fun k blk =>
    let old := input_prev.keyb_state blk
    let key := input.keyb_state blk
    (List.range 32).foldl (fun k bit =>
      keyBody C exclusionSet iCurrentTicks old key blk bit k) k) k

/-- The function `RemoteControlManager::getInput()`. `hasFocus` tells whether
`myWnd == GetFocus()` and `tick` is the value `GetTickCount()` returns when called. -/
def getInput (C : Consts) (hasFocus : Bool) (tick : Nat) (s : Globals) :
    Globals × List HostEvent :=
  if s.gl.g_bEnableGamelink = false then (s, [])
  else if hasFocus then (s, [])
  else
    let r := In s.gl s.g_gamelink.input s.g_gamelink.audio
    let s1 := { s with
      gl := r.g
      g_gamelink := { s.g_gamelink with input := r.p_input, audio := r.p_audio } }
    if r.ready = 0 then (s1, [])
    else
      let vol : Int := s1.g_gamelink.audio.master_vol_l
      let s2 := if s1.max_volume ≠ vol then { s1 with max_volume := vol } else s1
      let ev : List HostEvent :=
        if s1.max_volume ≠ vol then [HostEvent.SetSoundVolumes] else []
      let s3 := { s2 with iCurrentTicks := tick }
      let k := keyLoops C s3.exclusionSet s3.iCurrentTicks s3.g_gamelink.input_prev
        s3.g_gamelink.input { repeat_last_tick := s3.g_gamelink.repeat_last_tick, posted := ev }
      ({ s3 with g_gamelink :=
          { s3.g_gamelink with
            repeat_last_tick := k.repeat_last_tick
            input_prev := s3.g_gamelink.input } },
        k.posted)

end RemoteControlManager

namespace GameLink

/-! ## Notions used to state the properties -/

/-- The bytes before the first NUL among the `n` bytes of `data` that start at index `i`
(all `n` bytes when none of them is NUL). -/
def cstringOf (data : Nat → Nat) : Nat → Nat → List Nat
  | _, 0 => []
  | i, n + 1 => if data i = 0 then [] else data i :: cstringOf data (i + 1) n

/-- The `payload` bytes a mailbox holds. -/
def payloadBytes (b : sSharedMMapBuffer_R1) : List Nat := (List.range b.payload).map b.data

/-- A mailbox holding the given bytes, zero elsewhere. -/
def mailboxOf (bytes : List Nat) : sSharedMMapBuffer_R1 :=
  { payload := bytes.length, data := fun i => bytes.getD i 0 }

/-! ## Sample values -/

/-- Sample values for the header constants, to run the model on concrete inputs. -/
def demoConsts : Consts :=
  { PEEK_LIMIT := 16384, MAX_WIDTH := 1280, MAX_HEIGHT := 1024,
    MAX_PAYLOAD := 1280 * 1024 * 4, SYSTEM_MAXLEN := 64, PROGRAM_MAXLEN := 260,
    FLAG_WANT_KEYB := 1, FLAG_WANT_MOUSE := 2, FLAG_NO_FRAME := 4, FLAG_PAUSED := 8,
    MEMORY_MAP_CORE_SIZE := 5456000, SEQ_BITS := 16, ID_FILE_RESET := 40001,
    ID_OPTIONS_PAUSEINACTIVE := 40002, kMinRepeatInterval := 400, SIZE_T_BITS := 64 }

/-- A peek request for the single address `0x1a009`. -/
def xposPeek : sSharedMMapPeek_R2 :=
  { addr_count := 1, addr := fun _ => 0x1a009, data := fun _ => 0 }

/-- A program identity whose fourth word is the Realms of Antiquity hash. -/
def roaHash : Nat → Nat := fun i => if i = 3 then 0x503359be else 0

/-- A peek request for two addresses. -/
def twoPeeks : sSharedMMapPeek_R2 :=
  { addr_count := 2, addr := fun i => if i = 0 then 0x1a009 else 0x8300, data := fun _ => 0 }

/-- A memory image with a few nonzero bytes. -/
def demoMemory : Nat → Nat :=
  fun a => if a = 0x8300 then 0x42 else if a = 0x1a009 then 5 else 0

/-- A terminal whose outbound mailbox still holds an unacknowledged message while a
command waits in the inbound mailbox. -/
def busyTerminal : Terminal :=
  { g_p_outbuf := false
    inbuf := mailboxOf (cstr ":reset")
    outbuf := mailboxOf (cstr "ok")
    procbuf := mailboxOf [] }

/-- A terminal with `:pause` waiting in the inbound mailbox and nothing outbound. -/
def pauseTerminal : Terminal :=
  { g_p_outbuf := false
    inbuf := mailboxOf (cstr ":pause")
    outbuf := mailboxOf []
    procbuf := mailboxOf [] }

/-- A region holding zeros only. -/
def blankMap : sSharedMemoryMap_R4 :=
  { version := 0, flags := 0, system := fun _ => 0, program := fun _ => 0
    program_hash := fun _ => 0
    frame := { seq := 0, width := 0, height := 0, image_fmt := 0, par_x := 0, par_y := 0
               buffer := fun _ => 0 }
    input := zeroInput
    peek := { addr_count := 0, addr := fun _ => 0, data := fun _ => 0 }
    buf_recv := mailboxOf []
    buf_tohost := mailboxOf []
    audio := { master_vol_l := 0, master_vol_r := 0 }
    ram_size := 0 }

/-- The statics as the program starts: zero-initialised, `g_bEnableGamelink` set. -/
def startStatics : Statics :=
  { g_mutex_handle := 0, g_mmap_handle := 0, g_mmapcomp_handle := 0
    g_bEnableGamelink := true, g_bEnableTrackOnly := false, g_membase_size := 0
    g_p_shared_memory := false, shm := blankMap, g_p_outbuf := false }

/-- The remote side writes both command mailboxes of the mapped region. -/
def remoteWritesMailboxes (inbound outbound : sSharedMMapBuffer_R1) (g : Statics) : Statics :=
  { g with shm := { g.shm with buf_recv := inbound, buf_tohost := outbound } }

/-- The remote side writes the input and audio blocks of the mapped region. -/
def remoteWritesInput (input : sSharedMMapInput_R2) (audio : sSharedMMapAudio_R1)
    (g : Statics) : Statics :=
  { g with shm := { g.shm with input := input, audio := audio } }

/-- Statics with a mapped region, external input mode. -/
def mappedStatics : Statics :=
  { startStatics with
    g_mutex_handle := 1
    g_mmap_handle := 2
    g_membase_size := 65536
    g_p_shared_memory := true }

/-- An input block with `ready` set, a mouse delta and the key of scancode 1 down. -/
def readyInput : sSharedMMapInput_R2 :=
  { mouse_dx := 3, mouse_dy := -2, ready := 1, mouse_btn := 1
    keyb_state := fun i => if i = 0 then 2 else 0 }

/-- The terminal as `Out` hands it to `ExecTerminal`: the two mailboxes of the region and
the fresh local relay buffer. -/
def outTerminal (stack : Nat → Nat) (g : Statics) : Terminal :=
  { g_p_outbuf := g.g_p_outbuf
    inbuf := g.shm.buf_recv
    outbuf := g.shm.buf_tohost
    procbuf := { payload := 0, data := stack } }

end GameLink

namespace RemoteControlManager

open GameLink

/-- Globals of a session in track-only mode whose shared input has `ready` set and a key
down. -/
def trackOnlyGlobals : Globals :=
  { gl := { remoteWritesInput readyInput ⟨100, 100⟩ mappedStatics with
            g_bEnableTrackOnly := true }
    g_gamelink :=
      { input_prev := zeroInput, input := zeroInput, audio := ⟨100, 100⟩
        repeat_last_tick := fun _ => 0, want_mouse := false }
    g_infoHdv := { VolumeName := [], sig := 0 }
    exclusionSet := []
    max_volume := 100
    iCurrentTicks := 0
    bHardDiskIsLoaded := false
    bFloppyIsLoaded := false }

end RemoteControlManager

namespace GameLink

/-! ## Teardown -/

/-- The function `destroy_shared_memory()`. Unmapping clears the pointer; the bytes of
the region stay what they were for whoever still has the mapping open. -/
def destroy_shared_memory (g : Statics) : Statics :=
  let g1 := if g.g_p_shared_memory then { g with g_p_shared_memory := false } else g
  let g2 := if g1.g_mmap_handle ≠ 0 then { g1 with g_mmap_handle := 0 } else g1
  if g2.g_mmapcomp_handle ≠ 0 then { g2 with g_mmapcomp_handle := 0 } else g2

/-- The function `GameLink::Term()`. -/
def Term (g : Statics) : Statics :=
  let g1 := if g.g_p_shared_memory then { g with shm := { g.shm with version := 0 } } else g
  let g2 := destroy_shared_memory g1
  let g3 := destroy_mutex g2
  { g3 with g_membase_size := 0 }

/-! ## More sample values -/

/-- A region as a peer may have left it: a `:pause` command waiting in the inbound
mailbox, `ready` set in the input block, a frame on display. -/
def staleMap : sSharedMemoryMap_R4 :=
  { blankMap with
    version := 4
    input := readyInput
    buf_recv := mailboxOf (cstr ":pause")
    frame := { seq := 7, width := 256, height := 192, image_fmt := 1, par_x := 4096
               par_y := 4096, buffer := fun _ => 0xAA } }

/-- Statics of a session with every handle in use. -/
def liveStatics : Statics :=
  { mappedStatics with g_mmapcomp_handle := 3, shm := staleMap }

/-- Whether a rational is the value of a `double`. -/
def isDouble (x : ℚ) : Prop := roundDouble x = x

/-- The `double` that the literal `0.8` denotes. -/
def double_0_8 : ℚ := 3602879701896397 / 4503599627370496

end GameLink

namespace RemoteControlManager

open GameLink

/-- The function `setKeypressExclusionList(_exclusionList, length)`: the set is cleared,
then the entries `0 .. length - 1` of the array are inserted. -/
def setKeypressExclusionList (_exclusionList : Nat → Nat) (length : Nat) (s : Globals) :
    Globals :=
  { s with exclusionSet :=
      (List.range length).foldl (fun set i => set.insert (_exclusionList i)) [] }

/-! ## Notions used to state the properties of `getInput` -/

/-- Bit `s mod 32` of word `s div 32` of the key bitmap of an input block: whether the
key of scancode `s` is down. -/
def keyBit (inp : sSharedMMapInput_R2) (s : Nat) : Bool :=
  (inp.keyb_state (s / 32)).testBit (s % 32)

/-- The value of `iCurrentTicks - repeat_last_tick[scancode]`, a 64-bit unsigned
difference. -/
def elapsedTicks (iCurrentTicks last : Nat) : Nat :=
  (((iCurrentTicks : Int) - (last : Int)) % 2 ^ 64).toNat

/-- Whether the loop body of `getInput` lets a key through, that is takes neither
`continue`: the key is down now or was down before, and it is not a repeat that comes
less than `kMinRepeatInterval` after the time stamp `last` of the key. -/
def keyAccepted (C : Consts) (iCurrentTicks : Nat) (bPD bCD : Bool) (last : Nat) : Bool :=
  (bCD || bPD) &&
    !(bCD && bPD && decide (elapsedTicks iCurrentTicks last < C.kMinRepeatInterval))

/-- The message the loop body of `getInput` sets up for scancode `s`, given whether the
key was down before (`bPD`) and is down now (`bCD`). -/
def keyMessage (s : Nat) (bPD bCD : Bool) : HostEvent :=
  HostEvent.PostMessageW (if bCD then WinMsg.WM_KEYDOWN else WinMsg.WM_KEYUP)
    (aDIKtoVK.getD s 0)
    (1 ||| (s <<< 16) ||| ((if s > 0x7F then 1 else 0) <<< 24) |||
      ((if bPD then 1 else 0) <<< 30) ||| ((if !bCD then 1 else 0) <<< 31))

/-- The scancode a posted message carries in bits 16 to 23 of its `lParam`. -/
def scancodeOf : HostEvent → Option Nat
  | HostEvent.PostMessageW _ _ lParam => some ((lParam >>> 16) % 256)
  | HostEvent.SetSoundVolumes => none

/-- The messages among `posted` that carry scancode `s`, in the order posted. -/
def eventsOfKey (s : Nat) (posted : List HostEvent) : List HostEvent :=
  posted.filter (fun e => scancodeOf e == some s)

/-- The time stamp of a key after the loop body has handled it. -/
def keyTick (C : Consts) (iCurrentTicks : Nat) (bPD bCD : Bool) (last : Nat) : Nat :=
  if keyAccepted C iCurrentTicks bPD bCD last then
    if !bPD then iCurrentTicks % 2 ^ 32 else 0
  else last

/-- The messages the loop body posts for a key. -/
def keyPosted (C : Consts) (exclusionSet : List Nat) (iCurrentTicks s : Nat)
    (bPD bCD : Bool) (last : Nat) : List HostEvent :=
  if keyAccepted C iCurrentTicks bPD bCD last && !exclusionSet.contains (aDIKtoVK.getD s 0)
  then [keyMessage s bPD bCD] else []

/-- One host tick with new remote input: the remote side stores `inp` in the shared
input block, then the host, which does not have the focus, calls `getInput` when the
tick count is `t`. -/
def poll (C : Consts) (t : Nat) (inp : sSharedMMapInput_R2) (s : Globals) :
    Globals × List HostEvent :=
  getInput C false t { s with gl := { s.gl with shm := { s.gl.shm with input := inp } } }

/-- A run of host ticks, each with new remote input. -/
def polls (C : Consts) : List (Nat × sSharedMMapInput_R2) → Globals → Globals
  | [], s => s
  | p :: rest, s => polls C rest (poll C p.1 p.2 s).1

/-- Globals of a session in external input mode in which the remote side has just
pressed the key of scancode 1 (translated code `0x1B`) while that code is on the
exclusion list. -/
def escapeGlobals : Globals :=
  { gl := remoteWritesInput readyInput ⟨100, 100⟩ mappedStatics
    g_gamelink :=
      { input_prev := zeroInput, input := zeroInput, audio := ⟨100, 100⟩
        repeat_last_tick := fun _ => 0, want_mouse := false }
    g_infoHdv := { VolumeName := [], sig := 0 }
    exclusionSet := [0x1B]
    max_volume := 100
    iCurrentTicks := 0
    bHardDiskIsLoaded := false
    bFloppyIsLoaded := false }

/-- The same session with an empty exclusion list. -/
def pressGlobals : Globals :=
  { escapeGlobals with exclusionSet := [] }

/-- Remote input is being applied: remote control is enabled, the region is mapped and
track-only mode is off. -/
def remoteControlActive (s : Globals) : Prop :=
  s.gl.g_bEnableGamelink = true ∧ s.gl.g_p_shared_memory = true ∧
    s.gl.g_bEnableTrackOnly = false

/-- An input block with `ready` set and no key down. -/
def releasedInput : sSharedMMapInput_R2 :=
  { zeroInput with ready := 1 }

end RemoteControlManager

namespace GameLink

/-! ## Program identity -/

/-- The C string that `std::string::c_str()` hands to a C function: the bytes of the
string up to its first NUL. -/
def c_str (s : List Nat) : List Nat := s.takeWhile (fun b => b != 0)

/-- The function `GameLink::SetProgramInfo(name, i1, i2, i3, i4)`; `name` is the bytes
of the `std::string`. There is no result when `strcpy_s` rejects the string. -/
def SetProgramInfo (C : Consts) (name : List Nat) (i1 i2 i3 i4 : Nat) (g : Statics) :
    Option Statics :=
  if g.g_p_shared_memory then
    let szTmp := name.take C.PROGRAM_MAXLEN
    match strcpy_s C.PROGRAM_MAXLEN g.shm.program (c_str szTmp) with
    | none => none
    | some program =>
      some { g with shm :=
        { g.shm with
          program := program
          program_hash := Function.update (Function.update (Function.update
            (Function.update g.shm.program_hash 0 i1) 1 i2) 2 i3) 3 i4 } }
  else some g

/-- The `n` bytes of a buffer from index 0 on. -/
def bytesOf (data : Nat → Nat) (n : Nat) : List Nat := (List.range n).map data


/-- A memory image of a map slanted to the right: `x = 5`, `y = 3`, `slant = 4`. -/
def slantMemory : Nat → Nat :=
  fun a => if a = 0x1a009 then 5 else if a = 0x1a007 then 3 else if a = 0x1a833 then 4 else 0


/-- The arguments of one call of `Out`, together with what the environment decides
during the call. -/
structure OutCall where
  max_cpf : Int
  wait_ok : Bool
  stack : Nat → Nat
  frame_width : Nat
  frame_height : Nat
  source_ratio : ℚ
  want_mouse : Bool
  p_frame : Option (Nat → Nat)
  p_sysmem : Nat → Nat

/-- The call of `Out` that `a` describes. -/
def outCall (C : Consts) (a : OutCall) (g : Statics) : Statics × List HostEvent :=
  Out C a.max_cpf a.wait_ok a.stack a.frame_width a.frame_height a.source_ratio a.want_mouse
    a.p_frame a.p_sysmem g

/-- A run of exchange cycles with no remote write in between: the statics at the end and
all the messages posted, in order. -/
def outCycles (C : Consts) : List OutCall → Statics → Statics × List HostEvent
  | [], g => (g, [])
  | a :: rest, g =>
    ((outCycles C rest (outCall C a g).1).1,
      (outCall C a g).2 ++ (outCycles C rest (outCall C a g).1).2)

/-- A terminal whose inbound mailbox holds a message that is not a command. -/
def chatTerminal : Terminal :=
  { g_p_outbuf := false
    inbuf := mailboxOf (cstr "hello")
    outbuf := mailboxOf []
    procbuf := mailboxOf [] }

/-- A commands-only exchange cycle. -/
def plainCall : OutCall :=
  { max_cpf := 1, wait_ok := true, stack := fun _ => 0, frame_width := 0, frame_height := 0,
    source_ratio := 1, want_mouse := false, p_frame := none, p_sysmem := fun _ => 0 }

end GameLink

namespace RemoteControlManager

open GameLink

/-! ## Scanline reversal -/

/-- The call `memcpy(dst + d, src + s, n)`; an image buffer is read and written at byte
offsets relative to the pointer handed to `reverseScanlines`. -/
def memcpyAt (dst : Int → Nat) (d : Int) (src : Int → Nat) (s : Int) (n : Nat) : Int → Nat :=
  fun a => if d ≤ a ∧ a < d + n then src (s + (a - d)) else dst a

/-- One pass of the loop body of `reverseScanlines`; the state is the destination image
followed by the offsets of `loln` into the source and of `hiln` into the destination. -/
def scanlineBody (source : Int → Nat) (linesize : Nat) (st : (Int → Nat) × Int × Int)
    (_ : Nat) : (Int → Nat) × Int × Int :=
  (memcpyAt st.1 st.2.2 source st.2.1 linesize, st.2.1 + linesize, st.2.2 - linesize)

/-- The function `reverseScanlines(destination, source, width, height, depth)`; the result
is the destination image. `linesize` is a `uint32_t` product, `height - 1` a `uint32_t`
difference, and the offset of the last line is their 64-bit product. -/
def reverseScanlines (destination source : Int → Nat) (width height depth : Nat) :
    Int → Nat :=
  let linesize := (width * depth) % 2 ^ 32
  let hiln : Int := ((((height + 2 ^ 32 - 1) % 2 ^ 32) * linesize) % 2 ^ 64 : Nat)
  ((List.range height).foldl (scanlineBody source linesize) (destination, 0, hiln)).1


/-! ## CRC-32 and the identity of the loaded program -/

/-- The table `crc_32_tab` (CRC polynomial `0xedb88320`). -/
def crc_32_tab : List Nat :=
  [0x00000000, 0x77073096, 0xee0e612c, 0x990951ba, 0x076dc419, 0x706af48f,
   0xe963a535, 0x9e6495a3, 0x0edb8832, 0x79dcb8a4, 0xe0d5e91e, 0x97d2d988,
   0x09b64c2b, 0x7eb17cbd, 0xe7b82d07, 0x90bf1d91, 0x1db71064, 0x6ab020f2,
   0xf3b97148, 0x84be41de, 0x1adad47d, 0x6ddde4eb, 0xf4d4b551, 0x83d385c7,
   0x136c9856, 0x646ba8c0, 0xfd62f97a, 0x8a65c9ec, 0x14015c4f, 0x63066cd9,
   0xfa0f3d63, 0x8d080df5, 0x3b6e20c8, 0x4c69105e, 0xd56041e4, 0xa2677172,
   0x3c03e4d1, 0x4b04d447, 0xd20d85fd, 0xa50ab56b, 0x35b5a8fa, 0x42b2986c,
   0xdbbbc9d6, 0xacbcf940, 0x32d86ce3, 0x45df5c75, 0xdcd60dcf, 0xabd13d59,
   0x26d930ac, 0x51de003a, 0xc8d75180, 0xbfd06116, 0x21b4f4b5, 0x56b3c423,
   0xcfba9599, 0xb8bda50f, 0x2802b89e, 0x5f058808, 0xc60cd9b2, 0xb10be924,
   0x2f6f7c87, 0x58684c11, 0xc1611dab, 0xb6662d3d, 0x76dc4190, 0x01db7106,
   0x98d220bc, 0xefd5102a, 0x71b18589, 0x06b6b51f, 0x9fbfe4a5, 0xe8b8d433,
   0x7807c9a2, 0x0f00f934, 0x9609a88e, 0xe10e9818, 0x7f6a0dbb, 0x086d3d2d,
   0x91646c97, 0xe6635c01, 0x6b6b51f4, 0x1c6c6162, 0x856530d8, 0xf262004e,
   0x6c0695ed, 0x1b01a57b, 0x8208f4c1, 0xf50fc457, 0x65b0d9c6, 0x12b7e950,
   0x8bbeb8ea, 0xfcb9887c, 0x62dd1ddf, 0x15da2d49, 0x8cd37cf3, 0xfbd44c65,
   0x4db26158, 0x3ab551ce, 0xa3bc0074, 0xd4bb30e2, 0x4adfa541, 0x3dd895d7,
   0xa4d1c46d, 0xd3d6f4fb, 0x4369e96a, 0x346ed9fc, 0xad678846, 0xda60b8d0,
   0x44042d73, 0x33031de5, 0xaa0a4c5f, 0xdd0d7cc9, 0x5005713c, 0x270241aa,
   0xbe0b1010, 0xc90c2086, 0x5768b525, 0x206f85b3, 0xb966d409, 0xce61e49f,
   0x5edef90e, 0x29d9c998, 0xb0d09822, 0xc7d7a8b4, 0x59b33d17, 0x2eb40d81,
   0xb7bd5c3b, 0xc0ba6cad, 0xedb88320, 0x9abfb3b6, 0x03b6e20c, 0x74b1d29a,
   0xead54739, 0x9dd277af, 0x04db2615, 0x73dc1683, 0xe3630b12, 0x94643b84,
   0x0d6d6a3e, 0x7a6a5aa8, 0xe40ecf0b, 0x9309ff9d, 0x0a00ae27, 0x7d079eb1,
   0xf00f9344, 0x8708a3d2, 0x1e01f268, 0x6906c2fe, 0xf762575d, 0x806567cb,
   0x196c3671, 0x6e6b06e7, 0xfed41b76, 0x89d32be0, 0x10da7a5a, 0x67dd4acc,
   0xf9b9df6f, 0x8ebeeff9, 0x17b7be43, 0x60b08ed5, 0xd6d6a3e8, 0xa1d1937e,
   0x38d8c2c4, 0x4fdff252, 0xd1bb67f1, 0xa6bc5767, 0x3fb506dd, 0x48b2364b,
   0xd80d2bda, 0xaf0a1b4c, 0x36034af6, 0x41047a60, 0xdf60efc3, 0xa867df55,
   0x316e8eef, 0x4669be79, 0xcb61b38c, 0xbc66831a, 0x256fd2a0, 0x5268e236,
   0xcc0c7795, 0xbb0b4703, 0x220216b9, 0x5505262f, 0xc5ba3bbe, 0xb2bd0b28,
   0x2bb45a92, 0x5cb36a04, 0xc2d7ffa7, 0xb5d0cf31, 0x2cd99e8b, 0x5bdeae1d,
   0x9b64c2b0, 0xec63f226, 0x756aa39c, 0x026d930a, 0x9c0906a9, 0xeb0e363f,
   0x72076785, 0x05005713, 0x95bf4a82, 0xe2b87a14, 0x7bb12bae, 0x0cb61b38,
   0x92d28e9b, 0xe5d5be0d, 0x7cdcefb7, 0x0bdbdf21, 0x86d3d2d4, 0xf1d4e242,
   0x68ddb3f8, 0x1fda836e, 0x81be16cd, 0xf6b9265b, 0x6fb077e1, 0x18b74777,
   0x88085ae6, 0xff0f6a70, 0x66063bca, 0x11010b5c, 0x8f659eff, 0xf862ae69,
   0x616bffd3, 0x166ccf45, 0xa00ae278, 0xd70dd2ee, 0x4e048354, 0x3903b3c2,
   0xa7672661, 0xd06016f7, 0x4969474d, 0x3e6e77db, 0xaed16a4a, 0xd9d65adc,
   0x40df0b66, 0x37d83bf0, 0xa9bcae53, 0xdebb9ec5, 0x47b2cf7f, 0x30b5ffe9,
   0xbdbdf21c, 0xcabac28a, 0x53b39330, 0x24b4a3a6, 0xbad03605, 0xcdd70693,
   0x54de5729, 0x23d967bf, 0xb3667a2e, 0xc4614ab8, 0x5d681b02, 0x2a6f2b94,
   0xb40bbe37, 0xc30c8ea1, 0x5a05df1b, 0x2d02ef8d]

/-- The statement macro `UPDC32(octet, crc)`; `(uint8_t)octet` is the byte of `octet`. -/
def UPDC32 (octet crc : Nat) : Nat :=
  crc_32_tab.getD ((crc ^^^ (octet % 256)) &&& 0xff) 0 ^^^ (crc >>> 8)

/-- The function `crc32buf(buf, len)`. The running value is a `uint32_t`; every operation
on it keeps it below `2^32`, where `~x` is `x ^ 0xFFFFFFFF`. -/
def crc32buf (buf : Nat → Nat) (len : Nat) : Nat :=
  ((List.range len).foldl (fun oldcrc32 i => UPDC32 (buf i) oldcrc32) 0xFFFFFFFF)
    ^^^ 0xFFFFFFFF

/-- The function `updateRunningProgramInfo()`; there is no result when `strcpy_s` in
`SetProgramInfo` rejects the name. -/
def updateRunningProgramInfo (C : Consts) (s : Globals) : Option Globals :=
  if s.bHardDiskIsLoaded then
    (SetProgramInfo C s.g_infoHdv.VolumeName 0 0 0 s.g_infoHdv.sig s.gl).map
      (fun g => { s with gl := g })
  else
    (SetProgramInfo C [] 0 0 0 0 s.gl).map
      (fun g => { s with gl := g, g_infoHdv := { s.g_infoHdv with VolumeName := [] } })

/-- The function `setLoadedProgram(name, length)`; `std::string(name, length)` is the
first `length` bytes of the buffer. -/
def setLoadedProgram (C : Consts) (name : Nat → Nat) (length : Nat) (s : Globals) :
    Option Globals :=
  if length > 0 then
    updateRunningProgramInfo C
      { s with
        bHardDiskIsLoaded := true
        g_infoHdv := { VolumeName := bytesOf name length, sig := crc32buf name length } }
  else
    updateRunningProgramInfo C
      { s with
        bHardDiskIsLoaded := false
        g_infoHdv := { VolumeName := [], sig := 0 } }

/-- One step of the specification's bit-by-bit reflected CRC-32: shift right by one bit
and, when the bit shifted out is set, xor with the polynomial `0xEDB88320`. -/
def bitwiseCrcStep (c : Nat) : Nat :=
  if c % 2 = 1 then (c >>> 1) ^^^ 0xEDB88320 else c >>> 1

/-- The specification's bit-by-bit CRC-32 taking in one byte: xor it into the low byte,
then eight shift/xor steps. -/
def bitwiseCrcByte (c b : Nat) : Nat := bitwiseCrcStep^[8] (c ^^^ b)

/-- The specification's bit-by-bit reflected CRC-32 of a byte sequence: initial value
`0xFFFFFFFF`, one `bitwiseCrcByte` per byte, final complement. -/
def bitwiseCrc32 (bytes : List Nat) : Nat :=
  (bytes.foldl bitwiseCrcByte 0xFFFFFFFF) ^^^ 0xFFFFFFFF

/-- A buffer holding the volume name `ROA`. -/
def volumeBuffer : Nat → Nat := fun i => (cstr "ROA").getD i 0

/-- A buffer holding the ASCII digits `123456789`. -/
def checkBuffer : Nat → Nat := fun i => (cstr "123456789").getD i 0

end RemoteControlManager

/-! # Properties -/

namespace GameLink

/-! ## Peek -/

/-- What a loop of `UpdatePeekInfo` computes when its body writes `data[j]` from
`addr[j]` and the old `data[j]`: started at `pindex` with `fuel` iterations allowed, it
rewrites exactly the indices from `pindex` on that pass the guard. -/
theorem peekLoop_spec (C : Consts) (body : Nat → sSharedMMapPeek_R2 → sSharedMMapPeek_R2)
    (val : Nat → Nat → Nat)
    (hbody : ∀ j pk, body j pk =
      { pk with data := Function.update pk.data j (val (pk.addr j) (pk.data j)) }) :
    ∀ (fuel pindex : Nat) (peek : sSharedMMapPeek_R2),
      (peekLoop C body fuel pindex peek).addr_count = peek.addr_count ∧
      (peekLoop C body fuel pindex peek).addr = peek.addr ∧
      ∀ i, (peekLoop C body fuel pindex peek).data i =
        if pindex ≤ i ∧ i < pindex + fuel ∧ i < peek.addr_count ∧ i < C.PEEK_LIMIT then
          val (peek.addr i) (peek.data i)
        else peek.data i := by
  intro fuel
  induction fuel with
  | zero =>
    intro pindex peek
    refine ⟨rfl, rfl, fun i => ?_⟩
    have hn : ¬ (pindex ≤ i ∧ i < pindex + 0 ∧ i < peek.addr_count ∧ i < C.PEEK_LIMIT) := by
      omega
    rw [if_neg hn]
    rfl
  | succ fuel ih =>
    intro pindex peek
    by_cases hg : pindex < peek.addr_count ∧ pindex < C.PEEK_LIMIT
    · have hstep : peekLoop C body (fuel + 1) pindex peek
          = peekLoop C body fuel (pindex + 1) (body pindex peek) := by
        simp [peekLoop, hg]
      obtain ⟨h1, h2, h3⟩ := ih (pindex + 1) (body pindex peek)
      rw [hstep, h1, h2]
      refine ⟨by rw [hbody], by rw [hbody], fun i => ?_⟩
      rw [h3 i, hbody]
      simp only []
      by_cases hi : i = pindex
      · subst hi
        have hn : ¬ (i + 1 ≤ i ∧ i < i + 1 + fuel ∧ i < peek.addr_count ∧ i < C.PEEK_LIMIT) := by
          omega
        have hp : (i ≤ i ∧ i < i + (fuel + 1) ∧ i < peek.addr_count ∧ i < C.PEEK_LIMIT) := by
          omega
        rw [if_neg hn, if_pos hp, Function.update_same]
      · rw [Function.update_noteq hi]
        by_cases hc : pindex + 1 ≤ i ∧ i < pindex + 1 + fuel ∧ i < peek.addr_count ∧ i < C.PEEK_LIMIT
        · have hp : (pindex ≤ i ∧ i < pindex + (fuel + 1) ∧ i < peek.addr_count ∧ i < C.PEEK_LIMIT) := by
            omega
          rw [if_pos hc, if_pos hp]
        · have hp : ¬ (pindex ≤ i ∧ i < pindex + (fuel + 1) ∧ i < peek.addr_count ∧ i < C.PEEK_LIMIT) := by
            omega
          rw [if_neg hc, if_neg hp]
    · have hstep : peekLoop C body (fuel + 1) pindex peek = peek := by
        simp [peekLoop, hg]
      rw [hstep]
      refine ⟨rfl, rfl, fun i => ?_⟩
      have hp : ¬ (pindex ≤ i ∧ i < pindex + (fuel + 1) ∧ i < peek.addr_count ∧ i < C.PEEK_LIMIT) := by
        omega
      rw [if_neg hp]

/-- Complete description of the result of `UpdatePeekInfo`. -/
theorem UpdatePeekInfo_spec (C : Consts) (ram : Nat) (hash : Nat → Nat)
    (peek : sSharedMMapPeek_R2) (mem : Nat → Nat) :
    (UpdatePeekInfo C ram hash peek mem).addr_count = peek.addr_count ∧
    (UpdatePeekInfo C ram hash peek mem).addr = peek.addr ∧
    ∀ i, (UpdatePeekInfo C ram hash peek mem).data i =
      if i < peek.addr_count ∧ i < C.PEEK_LIMIT then
        if hash 3 = 0x503359be ∧ peek.addr i = 0x1a009 then
          slantXpos (mem 0x1a009) (mem 0x1a007) (mem 0x1a833) (mem 0x1a82d)
        else if peek.addr i < ram then mem (peek.addr i) else 0
      else peek.data i := by
  have hread := peekLoop_spec C (peekReadBody ram mem)
    (fun a _ => if a < ram then mem a else 0) (fun j pk => rfl) C.PEEK_LIMIT 0 peek
  obtain ⟨r1, r2, r3⟩ := hread
  by_cases hh : hash 3 = 0x503359be
  · have hpatch := peekLoop_spec C
      (peekPatchBody (slantXpos (mem 0x1a009) (mem 0x1a007) (mem 0x1a833) (mem 0x1a82d)))
      (fun a old => if a = 0x1a009 then
        slantXpos (mem 0x1a009) (mem 0x1a007) (mem 0x1a833) (mem 0x1a82d) else old)
      (fun j pk => by
        unfold peekPatchBody
        by_cases ha : pk.addr j = 0x1a009
        · simp [ha]
        · simp [ha])
      C.PEEK_LIMIT 0 (peekLoop C (peekReadBody ram mem) C.PEEK_LIMIT 0 peek)
    obtain ⟨p1, p2, p3⟩ := hpatch
    have hU : UpdatePeekInfo C ram hash peek mem =
        peekLoop C (peekPatchBody (slantXpos (mem 0x1a009) (mem 0x1a007) (mem 0x1a833)
          (mem 0x1a82d))) C.PEEK_LIMIT 0
          (peekLoop C (peekReadBody ram mem) C.PEEK_LIMIT 0 peek) := by
      simp [UpdatePeekInfo, hh]
    rw [hU]
    refine ⟨by rw [p1, r1], by rw [p2, r2], fun i => ?_⟩
    rw [p3 i, r1, r2, r3 i]
    by_cases hi : i < peek.addr_count ∧ i < C.PEEK_LIMIT
    · have h0 : (0 ≤ i ∧ i < 0 + C.PEEK_LIMIT ∧ i < peek.addr_count ∧ i < C.PEEK_LIMIT) := by
        omega
      rw [if_pos h0, if_pos h0, if_pos hi]
      by_cases ha : peek.addr i = 0x1a009
      · simp [ha, hh]
      · simp [ha]
    · have h0 : ¬ (0 ≤ i ∧ i < 0 + C.PEEK_LIMIT ∧ i < peek.addr_count ∧ i < C.PEEK_LIMIT) := by
        omega
      rw [if_neg h0, if_neg h0, if_neg hi]
  · have hU : UpdatePeekInfo C ram hash peek mem =
        peekLoop C (peekReadBody ram mem) C.PEEK_LIMIT 0 peek := by
      simp [UpdatePeekInfo, hh]
    rw [hU]
    refine ⟨r1, r2, fun i => ?_⟩
    rw [r3 i]
    by_cases hi : i < peek.addr_count ∧ i < C.PEEK_LIMIT
    · have h0 : (0 ≤ i ∧ i < 0 + C.PEEK_LIMIT ∧ i < peek.addr_count ∧ i < C.PEEK_LIMIT) := by
        omega
      rw [if_pos h0, if_pos hi]
      simp [hh]
    · have h0 : ¬ (0 ≤ i ∧ i < 0 + C.PEEK_LIMIT ∧ i < peek.addr_count ∧ i < C.PEEK_LIMIT) := by
        omega
      rw [if_neg h0, if_neg hi]

/-- C1, evaluated at a failing input: RAM size 65536, an all-zero memory image, the
Realms of Antiquity hash and one request for address `0x1a009`, which lies beyond the
RAM size. The patch reads the four bytes without a bounds check and stores 255, not 0. -/
theorem UpdatePeekInfo_patch_out_of_range (C : Consts) (h : 0 < C.PEEK_LIMIT) :
    xposPeek.addr 0 ≥ 65536 ∧ 0 < min xposPeek.addr_count C.PEEK_LIMIT ∧
      (UpdatePeekInfo C 65536 roaHash xposPeek (fun _ => 0)).data 0 = 255 := by
  refine ⟨by decide, ?_, ?_⟩
  · have h1 : xposPeek.addr_count = 1 := rfl
    rw [h1]
    exact Nat.lt_min.mpr ⟨Nat.one_pos, h⟩
  · have hs := (UpdatePeekInfo_spec C 65536 roaHash xposPeek (fun _ => 0)).2.2 0
    rw [hs]
    have hc : 0 < xposPeek.addr_count ∧ 0 < C.PEEK_LIMIT := ⟨Nat.one_pos, h⟩
    rw [if_pos hc]
    decide

theorem UpdatePeekInfo_patch_out_of_range_witness :
    xposPeek.addr 0 ≥ 65536 ∧ 0 < min xposPeek.addr_count demoConsts.PEEK_LIMIT ∧
      (UpdatePeekInfo demoConsts 65536 roaHash xposPeek (fun _ => 0)).data 0 = 255 :=
  UpdatePeekInfo_patch_out_of_range demoConsts (by decide)

/-- C2: when the program-specific patch does not apply to a request (the fourth hash
word is not `0x503359be`, or the address is not `0x1a009`), `UpdatePeekInfo` answers
every request `i < min(addr_count, PEEK_LIMIT)` whose address is below the RAM size with
the memory byte at `addr[i]`, at the same index; the address list, `addr_count` and the
data entries from `min(addr_count, PEEK_LIMIT)` on are unchanged. -/
theorem UpdatePeekInfo_reads_memory (C : Consts) (g_membase_size : Nat)
    (program_hash : Nat → Nat) (peek : sSharedMMapPeek_R2) (p_sysmem : Nat → Nat) :
    (∀ i, i < min peek.addr_count C.PEEK_LIMIT →
        (program_hash 3 ≠ 0x503359be ∨ peek.addr i ≠ 0x1a009) →
        peek.addr i < g_membase_size →
        (UpdatePeekInfo C g_membase_size program_hash peek p_sysmem).data i
          = p_sysmem (peek.addr i)) ∧
      (UpdatePeekInfo C g_membase_size program_hash peek p_sysmem).addr = peek.addr ∧
      (UpdatePeekInfo C g_membase_size program_hash peek p_sysmem).addr_count
        = peek.addr_count ∧
      (∀ i, min peek.addr_count C.PEEK_LIMIT ≤ i →
        (UpdatePeekInfo C g_membase_size program_hash peek p_sysmem).data i = peek.data i) := by
  obtain ⟨h1, h2, h3⟩ := UpdatePeekInfo_spec C g_membase_size program_hash peek p_sysmem
  refine ⟨fun i hi hov hlt => ?_, h2, h1, fun i hi => ?_⟩
  · rw [h3 i, if_pos (Nat.lt_min.mp hi)]
    have hno : ¬ (program_hash 3 = 0x503359be ∧ peek.addr i = 0x1a009) := by
      intro hc
      cases hov with
      | inl hh => exact hh hc.1
      | inr ha => exact ha hc.2
    rw [if_neg hno, if_pos hlt]
  · rw [h3 i]
    have hno : ¬ (i < peek.addr_count ∧ i < C.PEEK_LIMIT) := by
      intro hc
      exact absurd (Nat.lt_min.mpr hc) (Nat.not_lt.mpr hi)
    rw [if_neg hno]

theorem UpdatePeekInfo_reads_memory_witness :
    (UpdatePeekInfo demoConsts 65536 roaHash twoPeeks demoMemory).data 1
      = demoMemory (twoPeeks.addr 1) :=
  (UpdatePeekInfo_reads_memory demoConsts 65536 roaHash twoPeeks demoMemory).1 1
    (by decide) (Or.inr (by decide)) (by decide)

/-! ## Terminal commands -/

/-- The two early returns of `ExecTerminal`. -/
theorem ExecTerminal_idle (t : Terminal)
    (h : t.outbuf.payload ≠ 0 ∨ t.inbuf.payload = 0) : ExecTerminal t = t := by
  unfold ExecTerminal
  by_cases hi : t.inbuf.payload = 0
  · rw [if_pos hi]
  · have ho : t.outbuf.payload > 0 := by
      cases h with
      | inl ho => exact Nat.pos_of_ne_zero ho
      | inr hi0 => exact absurd hi0 hi
    rw [if_neg hi, if_pos ho]

/-- The command branch of `ExecTerminal`. -/
theorem ExecTerminal_command (t : Terminal) (hi : t.inbuf.payload ≠ 0)
    (hc : t.inbuf.data 0 = ':'.toNat) (ho : t.outbuf.payload = 0) :
    ExecTerminal t =
      { g_p_outbuf := true
        inbuf := { t.inbuf with payload := 0 }
        outbuf := t.outbuf
        procbuf := { payload := t.inbuf.payload
                     data := memcpy t.procbuf.data t.inbuf.data t.inbuf.payload } } := by
  have ho2 : ¬ t.outbuf.payload > 0 := by omega
  unfold ExecTerminal
  rw [if_neg hi, if_neg ho2]
  simp only [hc, if_true]

/-- C3: when the outbound payload length is nonzero, or the inbound payload length is
0, `ExecTerminal` changes none of the outbound, inbound and relay buffers. -/
theorem ExecTerminal_single_flight (t : Terminal)
    (h : t.outbuf.payload ≠ 0 ∨ t.inbuf.payload = 0) :
    (ExecTerminal t).outbuf = t.outbuf ∧ (ExecTerminal t).inbuf = t.inbuf ∧
      (ExecTerminal t).procbuf = t.procbuf := by
  rw [ExecTerminal_idle t h]
  exact ⟨rfl, rfl, rfl⟩

theorem ExecTerminal_single_flight_witness :
    (ExecTerminal busyTerminal).outbuf = busyTerminal.outbuf ∧
      (ExecTerminal busyTerminal).inbuf = busyTerminal.inbuf ∧
      (ExecTerminal busyTerminal).procbuf = busyTerminal.procbuf :=
  ExecTerminal_single_flight busyTerminal (Or.inl (by decide))

/-- C4: with an inbound payload of length `n > 0` whose first byte is `':'` and an empty
outbound mailbox, `ExecTerminal` zeroes the inbound payload length, sets the relay
payload length to `n`, makes the first `n` relay bytes equal to the first `n` inbound
bytes and leaves the outbound buffer unchanged. -/
theorem ExecTerminal_relays_command (t : Terminal) (n : Nat) (hn : t.inbuf.payload = n)
    (hpos : 0 < n) (hc : t.inbuf.data 0 = ':'.toNat) (ho : t.outbuf.payload = 0) :
    (ExecTerminal t).inbuf.payload = 0 ∧ (ExecTerminal t).procbuf.payload = n ∧
      (∀ i, i < n → (ExecTerminal t).procbuf.data i = t.inbuf.data i) ∧
      (ExecTerminal t).outbuf = t.outbuf := by
  have hi : t.inbuf.payload ≠ 0 := by omega
  rw [ExecTerminal_command t hi hc ho]
  refine ⟨rfl, hn, fun i hlt => ?_, rfl⟩
  have hlt2 : i < t.inbuf.payload := by omega
  simp only [memcpy, if_pos hlt2]

theorem ExecTerminal_relays_command_witness :
    (ExecTerminal pauseTerminal).inbuf.payload = 0 ∧
      (ExecTerminal pauseTerminal).procbuf.payload = 6 ∧
      (∀ i, i < 6 → (ExecTerminal pauseTerminal).procbuf.data i = pauseTerminal.inbuf.data i) ∧
      (ExecTerminal pauseTerminal).outbuf = pauseTerminal.outbuf :=
  ExecTerminal_relays_command pauseTerminal 6 (by decide) (by decide) (by decide) (by decide)

/-- After `com[i + n] = 0`, the comparison of the string at `com + i` with a literal that
holds no NUL succeeds exactly when the literal is the `n` bytes from `i` on, cut at
their first NUL. -/
theorem strcmpEq_update_iff (data : Nat → Nat) :
    ∀ (lit : List Nat), (∀ c ∈ lit, c ≠ 0) → ∀ (i n : Nat),
      (strcmpEq (Function.update data (i + n) 0) i lit = true ↔ cstringOf data i n = lit) := by
  intro lit
  induction lit with
  | nil =>
    intro _ i n
    cases n with
    | zero => simp [strcmpEq, cstringOf]
    | succ k =>
      have hne : i ≠ i + (k + 1) := by omega
      simp only [strcmpEq, cstringOf, Function.update_noteq hne]
      by_cases h0 : data i = 0
      · simp [h0]
      · simp [h0]
  | cons c cs ih =>
    intro hlit i n
    have hc : c ≠ 0 := hlit c (List.mem_cons_self c cs)
    have hcs : ∀ x ∈ cs, x ≠ 0 := fun x hx => hlit x (List.mem_cons_of_mem c hx)
    cases n with
    | zero =>
      simp [strcmpEq, cstringOf, Ne.symm hc]
    | succ k =>
      have hne : i ≠ i + (k + 1) := by omega
      have hidx : i + (k + 1) = (i + 1) + k := by omega
      simp only [strcmpEq, cstringOf, Function.update_noteq hne, Bool.and_eq_true, beq_iff_eq]
      rw [hidx, ih hcs (i + 1) k]
      by_cases h0 : data i = 0
      · simp only [h0, if_true]
        constructor
        · intro h; exact absurd h.1.symm hc
        · intro h; exact absurd h (by simp)
      · simp only [h0, if_false, List.cons.injEq]

/-- The messages `ExecTerminalMech` posts, in terms of the NUL-cut payload. -/
theorem proc_mech_posted (C : Consts) (b : sSharedMMapBuffer_R1) :
    (ExecTerminalMech C b).2 =
      if 1 < b.payload ∧ b.payload ≤ 128 then
        if cstringOf b.data 0 b.payload = cstr ":reset" then [resetAction C]
        else if cstringOf b.data 0 b.payload = cstr ":pause" then [pauseAction C]
        else if cstringOf b.data 0 b.payload = cstr ":shutdown" then [shutdownAction]
        else []
      else [] := by
  have key : ∀ lit : List Nat, (∀ c ∈ lit, c ≠ 0) →
      (strcmpEq (Function.update b.data b.payload 0) 0 lit = true
        ↔ cstringOf b.data 0 b.payload = lit) := by
    intro lit hlit
    have h := strcmpEq_update_iff b.data lit hlit 0 b.payload
    rwa [Nat.zero_add] at h
  have k1 := key (cstr ":reset") (by decide)
  have k2 := key (cstr ":pause") (by decide)
  have k3 := key (cstr ":shutdown") (by decide)
  unfold ExecTerminalMech proc_mech
  by_cases hg : 1 < b.payload ∧ b.payload ≤ 128
  · have hg2 : ¬ (b.payload ≤ 1 ∨ b.payload > 128) := by omega
    rw [if_neg hg2, if_pos hg]
    by_cases h1 : cstringOf b.data 0 b.payload = cstr ":reset"
    · rw [if_pos (k1.mpr h1), if_pos h1]
    · have n1 : ¬ strcmpEq (Function.update b.data b.payload 0) 0 (cstr ":reset") = true :=
        fun hc => h1 (k1.mp hc)
      rw [if_neg n1, if_neg h1]
      by_cases h2 : cstringOf b.data 0 b.payload = cstr ":pause"
      · rw [if_pos (k2.mpr h2), if_pos h2]
      · have n2 : ¬ strcmpEq (Function.update b.data b.payload 0) 0 (cstr ":pause") = true :=
          fun hc => h2 (k2.mp hc)
        rw [if_neg n2, if_neg h2]
        by_cases h3 : cstringOf b.data 0 b.payload = cstr ":shutdown"
        · rw [if_pos (k3.mpr h3), if_pos h3]
        · have n3 : ¬ strcmpEq (Function.update b.data b.payload 0) 0 (cstr ":shutdown")
              = true := fun hc => h3 (k3.mp hc)
          rw [if_neg n3, if_neg h3]
  · have hg2 : b.payload ≤ 1 ∨ b.payload > 128 := by omega
    rw [if_pos hg2, if_neg hg]

/-- C5 as stated fails: a relay buffer of payload length 7 holding `:reset` followed by a
NUL byte does not hold exactly the bytes `:reset`, yet the reset action is posted. -/
theorem proc_mech_exact_bytes_counterexample :
    ¬ ((ExecTerminalMech demoConsts (mailboxOf (cstr ":reset" ++ [0]))).2
          = [resetAction demoConsts] ↔
        (1 < (mailboxOf (cstr ":reset" ++ [0])).payload ∧
          (mailboxOf (cstr ":reset" ++ [0])).payload ≤ 128 ∧
          payloadBytes (mailboxOf (cstr ":reset" ++ [0])) = cstr ":reset")) := by
  decide

/-- C5, amended: for a relay buffer of payload length `n`, let `s` be the payload bytes
before the first NUL byte among them (all `n` bytes when none is NUL). Mechanical
dispatch posts the reset action iff `1 < n ≤ 128` and `s` is `:reset`, the pause action
iff `1 < n ≤ 128` and `s` is `:pause`, the shutdown action iff `1 < n ≤ 128` and `s` is
`:shutdown`, and posts nothing at all for every other payload. -/
theorem proc_mech_dispatch (C : Consts) (b : sSharedMMapBuffer_R1) :
    ((ExecTerminalMech C b).2 = [resetAction C] ↔
        1 < b.payload ∧ b.payload ≤ 128 ∧ cstringOf b.data 0 b.payload = cstr ":reset") ∧
      ((ExecTerminalMech C b).2 = [pauseAction C] ↔
        1 < b.payload ∧ b.payload ≤ 128 ∧ cstringOf b.data 0 b.payload = cstr ":pause") ∧
      ((ExecTerminalMech C b).2 = [shutdownAction] ↔
        1 < b.payload ∧ b.payload ≤ 128 ∧ cstringOf b.data 0 b.payload = cstr ":shutdown") ∧
      (¬ (1 < b.payload ∧ b.payload ≤ 128 ∧
            (cstringOf b.data 0 b.payload = cstr ":reset" ∨
              cstringOf b.data 0 b.payload = cstr ":pause" ∨
              cstringOf b.data 0 b.payload = cstr ":shutdown")) →
        (ExecTerminalMech C b).2 = []) := by
  have hrp : cstr ":reset" ≠ cstr ":pause" := by decide
  have hrs : cstr ":reset" ≠ cstr ":shutdown" := by decide
  have hps : cstr ":pause" ≠ cstr ":shutdown" := by decide
  have arp : resetAction C ≠ pauseAction C := by simp [resetAction, pauseAction]
  have ars : resetAction C ≠ shutdownAction := by simp [resetAction, shutdownAction]
  have aps : pauseAction C ≠ shutdownAction := by simp [pauseAction, shutdownAction]
  have single : ∀ x y : HostEvent, x ≠ y → ¬ [x] = [y] :=
    fun x y hxy h => hxy (List.cons.inj h).1
  have empty : ∀ x : HostEvent, ¬ ([] : List HostEvent) = [x] := fun x h => by simp at h
  rw [proc_mech_posted C b]
  by_cases hg : 1 < b.payload ∧ b.payload ≤ 128
  · rw [if_pos hg]
    by_cases h1 : cstringOf b.data 0 b.payload = cstr ":reset"
    · have h2 : ¬ cstringOf b.data 0 b.payload = cstr ":pause" := by rw [h1]; exact hrp
      have h3 : ¬ cstringOf b.data 0 b.payload = cstr ":shutdown" := by rw [h1]; exact hrs
      rw [if_pos h1]
      exact ⟨⟨fun _ => ⟨hg.1, hg.2, h1⟩, fun _ => rfl⟩,
        ⟨fun h => absurd h (single _ _ arp), fun h => absurd h.2.2 h2⟩,
        ⟨fun h => absurd h (single _ _ ars), fun h => absurd h.2.2 h3⟩,
        fun hn => absurd ⟨hg.1, hg.2, Or.inl h1⟩ hn⟩
    · rw [if_neg h1]
      by_cases h2 : cstringOf b.data 0 b.payload = cstr ":pause"
      · have h3 : ¬ cstringOf b.data 0 b.payload = cstr ":shutdown" := by rw [h2]; exact hps
        rw [if_pos h2]
        exact ⟨⟨fun h => absurd h (single _ _ arp.symm), fun h => absurd h.2.2 h1⟩,
          ⟨fun _ => ⟨hg.1, hg.2, h2⟩, fun _ => rfl⟩,
          ⟨fun h => absurd h (single _ _ aps), fun h => absurd h.2.2 h3⟩,
          fun hn => absurd ⟨hg.1, hg.2, Or.inr (Or.inl h2)⟩ hn⟩
      · rw [if_neg h2]
        by_cases h3 : cstringOf b.data 0 b.payload = cstr ":shutdown"
        · rw [if_pos h3]
          exact ⟨⟨fun h => absurd h (single _ _ ars.symm), fun h => absurd h.2.2 h1⟩,
            ⟨fun h => absurd h (single _ _ aps.symm), fun h => absurd h.2.2 h2⟩,
            ⟨fun _ => ⟨hg.1, hg.2, h3⟩, fun _ => rfl⟩,
            fun hn => absurd ⟨hg.1, hg.2, Or.inr (Or.inr h3)⟩ hn⟩
        · rw [if_neg h3]
          exact ⟨⟨fun h => absurd h (empty _), fun h => absurd h.2.2 h1⟩,
            ⟨fun h => absurd h (empty _), fun h => absurd h.2.2 h2⟩,
            ⟨fun h => absurd h (empty _), fun h => absurd h.2.2 h3⟩,
            fun _ => rfl⟩
  · rw [if_neg hg]
    exact ⟨⟨fun h => absurd h (empty _), fun h => absurd ⟨h.1, h.2.1⟩ hg⟩,
      ⟨fun h => absurd h (empty _), fun h => absurd ⟨h.1, h.2.1⟩ hg⟩,
      ⟨fun h => absurd h (empty _), fun h => absurd ⟨h.1, h.2.1⟩ hg⟩,
      fun _ => rfl⟩

theorem proc_mech_dispatch_witness :
    (ExecTerminalMech demoConsts (mailboxOf (cstr ":r"))).2 = [] :=
  (proc_mech_dispatch demoConsts (mailboxOf (cstr ":r"))).2.2.2 (by decide)

/-- The NUL-cut string only depends on the `n` bytes it is cut from. -/
theorem cstringOf_congr (d1 d2 : Nat → Nat) :
    ∀ (n i : Nat), (∀ j, j < n → d1 (i + j) = d2 (i + j)) →
      cstringOf d1 i n = cstringOf d2 i n := by
  intro n
  induction n with
  | zero => intro i _; rfl
  | succ k ih =>
    intro i h
    have h0 : d1 i = d2 i := by simpa using h 0 (Nat.succ_pos k)
    have hrest : cstringOf d1 (i + 1) k = cstringOf d2 (i + 1) k := by
      apply ih
      intro j hj
      have := h (j + 1) (by omega)
      have e : i + (j + 1) = i + 1 + j := by omega
      rwa [e] at this
    simp only [cstringOf, h0, hrest]

/-! ## The exchange cycle -/

/-- The terminal part of the locked block of `Out` does not depend on the frame and peek
parts that run before it. -/
theorem outLocked_terminal (C : Consts) (flags px py : Nat) (stack : Nat → Nat)
    (w h : Nat) (pf : Option (Nat → Nat)) (mem : Nat → Nat) (g : Statics) :
    (outLocked C flags px py stack w h pf mem g).2 =
        (ExecTerminal (outTerminal stack g)).procbuf ∧
      (outLocked C flags px py stack w h pf mem g).1.shm.buf_recv =
        (ExecTerminal (outTerminal stack g)).inbuf ∧
      (outLocked C flags px py stack w h pf mem g).1.shm.buf_tohost =
        (ExecTerminal (outTerminal stack g)).outbuf ∧
      (outLocked C flags px py stack w h pf mem g).1.g_p_shared_memory
        = g.g_p_shared_memory :=
  ⟨rfl, rfl, rfl, rfl⟩

/-- An `Out` call on a mapped region that acquires the mutex: the messages it posts and
the mailboxes it leaves are those of one `ExecTerminal` cycle followed by the dispatch
of the relay buffer. -/
theorem Out_acquired (C : Consts) (max_cpf : Int) (stack : Nat → Nat)
    (w h : Nat) (r : ℚ) (wm : Bool) (pf : Option (Nat → Nat)) (mem : Nat → Nat)
    (g : Statics) (hm : g.g_p_shared_memory = true) :
    (Out C max_cpf true stack w h r wm pf mem g).2 =
        (if (ExecTerminal (outTerminal stack g)).procbuf.payload ≠ 0 then
          (ExecTerminalMech C (ExecTerminal (outTerminal stack g)).procbuf).2
        else []) ∧
      (Out C max_cpf true stack w h r wm pf mem g).1.shm.buf_recv =
        (ExecTerminal (outTerminal stack g)).inbuf ∧
      (Out C max_cpf true stack w h r wm pf mem g).1.shm.buf_tohost =
        (ExecTerminal (outTerminal stack g)).outbuf ∧
      (Out C max_cpf true stack w h r wm pf mem g).1.g_p_shared_memory = true := by
  have hne : ¬ (g.g_p_shared_memory = false) := by rw [hm]; decide
  obtain ⟨l1, l2, l3, l4⟩ := outLocked_terminal C
    (buildFlags C g.g_bEnableTrackOnly wm max_cpf) (integerRatio r).1 (integerRatio r).2
    stack w h pf mem g
  unfold Out
  rw [if_neg hne]
  simp only [if_true]
  by_cases hp : (ExecTerminal (outTerminal stack g)).procbuf.payload ≠ 0
  · rw [if_pos (by rw [l1]; exact hp), if_pos hp]
    exact ⟨congrArg (fun b => (ExecTerminalMech C b).2) l1, l2, l3, l4.trans hm⟩
  · rw [if_neg (by rw [l1]; exact hp), if_neg hp]
    exact ⟨rfl, l2, l3, l4.trans hm⟩

/-- The call `AllocRAM(size)` succeeds when the operating system grants the mapping and
the view and the system name fits its field. -/
theorem AllocRAM_success (C : Consts) (hC : SYSTEM_NAME.length < C.SYSTEM_MAXLEN)
    (os_mmap : Nat) (hos : os_mmap ≠ 0) (m0 : sSharedMemoryMap_R4) (size : Nat)
    (g0 : Statics) :
    ∃ g1, AllocRAM C os_mmap (some m0) size g0 = some (g1, some C.MEMORY_MAP_CORE_SIZE) ∧
      g1.g_p_shared_memory = true ∧ g1.g_membase_size = size ∧ g1.shm.ram_size = size ∧
      g1.shm.version = PROTOCOL_VER := by
  simp only [AllocRAM, create_shared_memory, shared_memory_init, strcpy_s, hos, hC,
    ne_eq, not_false_eq_true, if_true, not_true_eq_false, if_false, InitTerminal]
  exact ⟨_, rfl, rfl, rfl, rfl, rfl⟩

/-- C6: after `AllocRAM(65536)` has mapped and initialised the region, let the remote
side put the 6 bytes `:pause` (payload length 6) into the inbound mailbox, the outbound
payload length being 0. One `Out` call that acquires the mutex, whatever its other
arguments, posts exactly one message, the pause action, and leaves both payload lengths
0; the `Out` call that follows posts nothing. -/
theorem Out_pause_scenario (C : Consts) (hC : SYSTEM_NAME.length < C.SYSTEM_MAXLEN)
    (os_mmap : Nat) (hos : os_mmap ≠ 0) (m0 : sSharedMemoryMap_R4) (g0 : Statics)
    (inbound outbound : sSharedMMapBuffer_R1)
    (hin : inbound.payload = 6) (hbytes : ∀ i, i < 6 → inbound.data i = (cstr ":pause").getD i 0)
    (hout : outbound.payload = 0)
    (max_cpf : Int) (stack : Nat → Nat) (w h : Nat) (r : ℚ) (wm : Bool)
    (pf : Option (Nat → Nat)) (mem : Nat → Nat)
    (max_cpf2 : Int) (wait_ok2 : Bool) (stack2 : Nat → Nat) (w2 h2 : Nat) (r2 : ℚ)
    (wm2 : Bool) (pf2 : Option (Nat → Nat)) (mem2 : Nat → Nat) :
    ∃ g1 membase, AllocRAM C os_mmap (some m0) 65536 g0 = some (g1, some membase) ∧
      g1.shm.ram_size = 65536 ∧
      (Out C max_cpf true stack w h r wm pf mem
          (remoteWritesMailboxes inbound outbound g1)).2 = [pauseAction C] ∧
      (Out C max_cpf true stack w h r wm pf mem
          (remoteWritesMailboxes inbound outbound g1)).1.shm.buf_recv.payload = 0 ∧
      (Out C max_cpf true stack w h r wm pf mem
          (remoteWritesMailboxes inbound outbound g1)).1.shm.buf_tohost.payload = 0 ∧
      (Out C max_cpf2 wait_ok2 stack2 w2 h2 r2 wm2 pf2 mem2
          (Out C max_cpf true stack w h r wm pf mem
            (remoteWritesMailboxes inbound outbound g1)).1).2 = [] := by
  obtain ⟨g1, hA, hmap, _, hram, _⟩ := AllocRAM_success C hC os_mmap hos m0 65536 g0
  refine ⟨g1, C.MEMORY_MAP_CORE_SIZE, hA, hram, ?_⟩
  have hmapped : (remoteWritesMailboxes inbound outbound g1).g_p_shared_memory = true := hmap
  obtain ⟨o1, o2, o3, o4⟩ := Out_acquired C max_cpf stack w h r wm pf mem
    (remoteWritesMailboxes inbound outbound g1) hmapped
  have hfirst : inbound.data 0 = ':'.toNat := by
    rw [hbytes 0 (by decide)]; decide
  have hin0 : (outTerminal stack (remoteWritesMailboxes inbound outbound g1)).inbuf.payload
      ≠ 0 := by
    show inbound.payload ≠ 0
    rw [hin]; decide
  have hE := ExecTerminal_command
    (outTerminal stack (remoteWritesMailboxes inbound outbound g1)) hin0 hfirst hout
  have e1 : (ExecTerminal (outTerminal stack
      (remoteWritesMailboxes inbound outbound g1))).inbuf.payload = 0 := by rw [hE]
  have e2 : (ExecTerminal (outTerminal stack
      (remoteWritesMailboxes inbound outbound g1))).procbuf.payload = 6 := by
    rw [hE]; exact hin
  have e3 : ∀ i, i < 6 → (ExecTerminal (outTerminal stack
      (remoteWritesMailboxes inbound outbound g1))).procbuf.data i = inbound.data i := by
    intro i hi
    rw [hE]
    show memcpy stack inbound.data inbound.payload i = inbound.data i
    have hlt : i < inbound.payload := by rw [hin]; exact hi
    simp only [memcpy, if_pos hlt]
  have e4 : (ExecTerminal (outTerminal stack
      (remoteWritesMailboxes inbound outbound g1))).outbuf = outbound := by rw [hE]; rfl
  have hcs : cstringOf (ExecTerminal (outTerminal stack
      (remoteWritesMailboxes inbound outbound g1))).procbuf.data 0 6 = cstr ":pause" := by
    rw [cstringOf_congr _ (fun i => (cstr ":pause").getD i 0) 6 0]
    · decide
    · intro j hj
      rw [Nat.zero_add, e3 j hj]
      exact hbytes j hj
  have hposted : (ExecTerminalMech C (ExecTerminal (outTerminal stack
      (remoteWritesMailboxes inbound outbound g1))).procbuf).2 = [pauseAction C] := by
    rw [proc_mech_posted, e2, hcs, if_pos (by decide), if_neg (by decide), if_pos rfl]
  refine ⟨?_, ?_, ?_, ?_⟩
  · rw [o1, e2, if_pos (by decide)]
    exact hposted
  · rw [o2]; exact e1
  · rw [o3, e4]; exact hout
  · cases wait_ok2 with
    | false => simp [Out]
    | true =>
      obtain ⟨q1, _, _, _⟩ := Out_acquired C max_cpf2 stack2 w2 h2 r2 wm2 pf2 mem2
        (Out C max_cpf true stack w h r wm pf mem
          (remoteWritesMailboxes inbound outbound g1)).1 o4
      rw [q1]
      have hzero : (outTerminal stack2 (Out C max_cpf true stack w h r wm pf mem
          (remoteWritesMailboxes inbound outbound g1)).1).inbuf.payload = 0 := by
        show (Out C max_cpf true stack w h r wm pf mem
          (remoteWritesMailboxes inbound outbound g1)).1.shm.buf_recv.payload = 0
        rw [o2]; exact e1
      rw [ExecTerminal_idle _ (Or.inr hzero)]
      simp [outTerminal]

theorem Out_pause_scenario_witness :
    ∃ g1 membase,
      AllocRAM demoConsts 2 (some blankMap) 65536 startStatics = some (g1, some membase) ∧
      g1.shm.ram_size = 65536 ∧
      (Out demoConsts 1 true (fun _ => 0xCC) 256 192 1 false (some (fun _ => 0)) (fun _ => 0)
          (remoteWritesMailboxes (mailboxOf (cstr ":pause")) (mailboxOf []) g1)).2
        = [pauseAction demoConsts] ∧
      (Out demoConsts 1 true (fun _ => 0xCC) 256 192 1 false (some (fun _ => 0)) (fun _ => 0)
          (remoteWritesMailboxes (mailboxOf (cstr ":pause")) (mailboxOf []) g1)
        ).1.shm.buf_recv.payload = 0 ∧
      (Out demoConsts 1 true (fun _ => 0xCC) 256 192 1 false (some (fun _ => 0)) (fun _ => 0)
          (remoteWritesMailboxes (mailboxOf (cstr ":pause")) (mailboxOf []) g1)
        ).1.shm.buf_tohost.payload = 0 ∧
      (Out demoConsts 1 true (fun _ => 0xCC) 0 0 1 false none (fun _ => 0)
          (Out demoConsts 1 true (fun _ => 0xCC) 256 192 1 false (some (fun _ => 0))
            (fun _ => 0)
            (remoteWritesMailboxes (mailboxOf (cstr ":pause")) (mailboxOf []) g1)).1).2 = [] :=
  Out_pause_scenario demoConsts (by decide) 2 (by decide) blankMap startStatics
    (mailboxOf (cstr ":pause")) (mailboxOf []) (by decide) (by decide) (by decide)
    1 (fun _ => 0xCC) 256 192 1 false (some (fun _ => 0)) (fun _ => 0)
    1 true (fun _ => 0xCC) 0 0 1 false none (fun _ => 0)

/-- C7: with the region mapped, track-only off and `ready = 1` in the shared input, the
first call of `In` returns 1, hands the caller the whole shared input as it was (mouse
delta, buttons, key bitmap and all), and leaves the shared `mouse_dx`, `mouse_dy` and
`ready` at 0 with the shared key bitmap and mouse buttons unchanged; a second call right
after it returns 0 and leaves the caller's input as it is. -/
theorem In_consumes_once (g : Statics) (p_input p_input2 : sSharedMMapInput_R2)
    (p_audio p_audio2 : sSharedMMapAudio_R1)
    (hm : g.g_p_shared_memory = true) (ht : g.g_bEnableTrackOnly = false)
    (hr : g.shm.input.ready = 1) :
    (In g p_input p_audio).ready = 1 ∧
      (In g p_input p_audio).p_input = g.shm.input ∧
      (In g p_input p_audio).g.shm.input.mouse_dx = 0 ∧
      (In g p_input p_audio).g.shm.input.mouse_dy = 0 ∧
      (In g p_input p_audio).g.shm.input.ready = 0 ∧
      (In g p_input p_audio).g.shm.input.keyb_state = g.shm.input.keyb_state ∧
      (In g p_input p_audio).g.shm.input.mouse_btn = g.shm.input.mouse_btn ∧
      (In (In g p_input p_audio).g p_input2 p_audio2).ready = 0 ∧
      (In (In g p_input p_audio).g p_input2 p_audio2).p_input = p_input2 := by
  have hr0 : g.shm.input.ready ≠ 0 := by rw [hr]; decide
  simp [In, hm, ht, hr0]

theorem In_consumes_once_witness :
    (In (remoteWritesInput readyInput ⟨100, 100⟩ mappedStatics) zeroInput ⟨50, 50⟩).ready = 1 ∧
      (In (remoteWritesInput readyInput ⟨100, 100⟩ mappedStatics) zeroInput ⟨50, 50⟩).p_input
        = readyInput :=
  have h := In_consumes_once (remoteWritesInput readyInput ⟨100, 100⟩ mappedStatics)
    zeroInput zeroInput ⟨50, 50⟩ ⟨50, 50⟩ (by decide) (by decide) (by decide)
  ⟨h.1, h.2.1⟩

/-- C9: with the region mapped and track-only off, `In` sets the caller's left master
volume to the shared value exactly when that value is at most 100 and leaves it
unchanged otherwise; the right channel is decided the same way on its own value; the
shared audio fields are not modified. -/
theorem In_merges_volume (g : Statics) (p_input : sSharedMMapInput_R2)
    (p_audio : sSharedMMapAudio_R1)
    (hm : g.g_p_shared_memory = true) (ht : g.g_bEnableTrackOnly = false) :
    (In g p_input p_audio).p_audio.master_vol_l =
        (if g.shm.audio.master_vol_l ≤ 100 then g.shm.audio.master_vol_l
          else p_audio.master_vol_l) ∧
      (In g p_input p_audio).p_audio.master_vol_r =
        (if g.shm.audio.master_vol_r ≤ 100 then g.shm.audio.master_vol_r
          else p_audio.master_vol_r) ∧
      (In g p_input p_audio).g.shm.audio = g.shm.audio := by
  by_cases hr : g.shm.input.ready = 0 <;>
  by_cases hl : g.shm.audio.master_vol_l ≤ 100 <;>
  by_cases hrr : g.shm.audio.master_vol_r ≤ 100 <;>
  simp [In, hm, ht, hr, hl, hrr]

theorem In_merges_volume_witness :
    (In (remoteWritesInput readyInput ⟨30, 200⟩ mappedStatics) zeroInput ⟨50, 60⟩
        ).p_audio.master_vol_l = 30 ∧
      (In (remoteWritesInput readyInput ⟨30, 200⟩ mappedStatics) zeroInput ⟨50, 60⟩
        ).p_audio.master_vol_r = 60 :=
  have h := In_merges_volume (remoteWritesInput readyInput ⟨30, 200⟩ mappedStatics)
    zeroInput ⟨50, 60⟩ (by decide) (by decide)
  ⟨h.1, h.2.1⟩

/-- C10: when the region is not mapped, or the bounded wait for the mutex does not
succeed, `Out` leaves the statics, and with them every field of the shared region,
unchanged and posts no message. -/
theorem Out_skipped (C : Consts) (max_cpf : Int) (wait_ok : Bool) (stack : Nat → Nat)
    (frame_width frame_height : Nat) (source_ratio : ℚ) (want_mouse : Bool)
    (p_frame : Option (Nat → Nat)) (p_sysmem : Nat → Nat) (g : Statics)
    (h : g.g_p_shared_memory = false ∨ wait_ok = false) :
    (Out C max_cpf wait_ok stack frame_width frame_height source_ratio want_mouse p_frame
        p_sysmem g).1 = g ∧
      (Out C max_cpf wait_ok stack frame_width frame_height source_ratio want_mouse p_frame
        p_sysmem g).1.shm = g.shm ∧
      (Out C max_cpf wait_ok stack frame_width frame_height source_ratio want_mouse p_frame
        p_sysmem g).2 = [] := by
  have hO : Out C max_cpf wait_ok stack frame_width frame_height source_ratio want_mouse
      p_frame p_sysmem g = (g, []) := by
    unfold Out
    by_cases hm : g.g_p_shared_memory = false
    · rw [if_pos hm]
    · have hw : wait_ok = false := by
        cases h with
        | inl h1 => exact absurd h1 hm
        | inr h2 => exact h2
      rw [if_neg hm, hw]
      rfl
  rw [hO]
  exact ⟨rfl, rfl, rfl⟩

theorem Out_skipped_witness :
    (Out demoConsts 1 false (fun _ => 0xCC) 256 192 1 false (some (fun _ => 7)) (fun _ => 0)
        (remoteWritesMailboxes (mailboxOf (cstr ":pause")) (mailboxOf []) mappedStatics)).2
      = [] :=
  (Out_skipped demoConsts 1 false (fun _ => 0xCC) 256 192 1 false (some (fun _ => 7))
    (fun _ => 0)
    (remoteWritesMailboxes (mailboxOf (cstr ":pause")) (mailboxOf []) mappedStatics)
    (Or.inr rfl)).2.2

end GameLink

namespace RemoteControlManager

open GameLink

/-- C8: with the region mapped and track-only on, whatever the shared input holds, `In`
returns 0, hands the caller an all-zero input, leaves the caller's audio volumes alone
and does not change the statics (the shared region among them); and `getInput` posts no
message. -/
theorem In_track_only (C : Consts) (hasFocus : Bool) (tick : Nat) (s : Globals)
    (p_input : sSharedMMapInput_R2) (p_audio : sSharedMMapAudio_R1)
    (hm : s.gl.g_p_shared_memory = true) (ht : s.gl.g_bEnableTrackOnly = true) :
    (In s.gl p_input p_audio).ready = 0 ∧
      ((In s.gl p_input p_audio).p_input.mouse_dx = 0 ∧
        (In s.gl p_input p_audio).p_input.mouse_dy = 0 ∧
        (In s.gl p_input p_audio).p_input.ready = 0 ∧
        (In s.gl p_input p_audio).p_input.mouse_btn = 0 ∧
        ∀ i, (In s.gl p_input p_audio).p_input.keyb_state i = 0) ∧
      (In s.gl p_input p_audio).p_audio = p_audio ∧
      (In s.gl p_input p_audio).g = s.gl ∧
      (In s.gl p_input p_audio).g.shm = s.gl.shm ∧
      (getInput C hasFocus tick s).2 = [] := by
  have hIn : ∀ pi pa, In s.gl pi pa =
      { g := s.gl, p_input := zeroInput, p_audio := pa, ready := 0 } := by
    intro pi pa
    simp [In, hm, ht]
  refine ⟨by rw [hIn], ?_, by rw [hIn], by rw [hIn], by rw [hIn], ?_⟩
  · rw [hIn]
    exact ⟨rfl, rfl, rfl, rfl, fun _ => rfl⟩
  · unfold getInput
    by_cases he : s.gl.g_bEnableGamelink = false
    · rw [if_pos he]
    · rw [if_neg he]
      cases hasFocus with
      | true => rfl
      | false =>
        simp only [Bool.false_eq_true, if_false]
        rw [hIn]
        rfl

theorem In_track_only_witness :
    (getInput demoConsts false 1000 trackOnlyGlobals).2 = [] :=
  (In_track_only demoConsts false 1000 trackOnlyGlobals zeroInput ⟨50, 50⟩
    (by decide) (by decide)).2.2.2.2.2

end RemoteControlManager

namespace GameLink

/-! ## Rounding of doubles -/

/-- Rounding to nearest does not go below the integer part. -/
theorem floor_le_roundHalfEven (q : ℚ) : ⌊q⌋ ≤ roundHalfEven q := by
  unfold roundHalfEven
  have hfl : Rat.floor q = ⌊q⌋ := rfl
  simp only [hfl]
  split_ifs <;> omega

/-- Rounding to nearest does not pass an integer above the value. -/
theorem roundHalfEven_le (q : ℚ) (k : Int) (h : q ≤ k) : roundHalfEven q ≤ k := by
  have hfl : Rat.floor q = ⌊q⌋ := rfl
  have hf : ⌊q⌋ ≤ k := by
    exact_mod_cast (Int.floor_le q).trans h
  rcases lt_or_eq_of_le hf with hlt | heq
  · have := (show roundHalfEven q ≤ ⌊q⌋ + 1 by
      unfold roundHalfEven
      simp only [hfl]
      split_ifs <;> omega)
    omega
  · have hq : q = (⌊q⌋ : ℚ) := by
      apply le_antisymm
      · rw [heq]; exact h
      · exact Int.floor_le q
    unfold roundHalfEven
    simp only [hfl]
    rw [if_pos (by rw [← hq]; norm_num)]
    omega

/-- Rounding to nearest does not pass an integer below the value. -/
theorem le_roundHalfEven (q : ℚ) (k : Int) (h : (k : ℚ) ≤ q) : k ≤ roundHalfEven q :=
  (Int.le_floor.mpr h).trans (floor_le_roundHalfEven q)

/-- An integer is its own rounding. -/
theorem roundHalfEven_intCast (k : Int) : roundHalfEven (k : ℚ) = k :=
  le_antisymm (roundHalfEven_le _ k le_rfl) (le_roundHalfEven _ k le_rfl)

/-- The binary exponent of a positive rational lying between two powers of two. -/
theorem log_eq_of_bounds (x : ℚ) (e : Int) (h1 : (2 : ℚ) ^ e ≤ x) (h2 : x < (2 : ℚ) ^ (e + 1)) :
    Int.log 2 x = e := by
  have hx : 0 < x := lt_of_lt_of_le (by positivity) h1
  have a : e ≤ Int.log 2 x := (Int.zpow_le_iff_le_log (by norm_num) hx).mp (by exact_mod_cast h1)
  have b : Int.log 2 x < e + 1 :=
    (Int.lt_zpow_iff_log_lt (by norm_num) hx).mp (by exact_mod_cast h2)
  omega

/-- The rounding of a positive value of binary exponent `e` in the normal range. -/
theorem roundDouble_eq (x : ℚ) (e : Int) (h1 : (2 : ℚ) ^ e ≤ x) (h2 : x < (2 : ℚ) ^ (e + 1))
    (he : -1022 ≤ e) :
    roundDouble x = roundHalfEven (x / 2 ^ (e - 52)) * 2 ^ (e - 52) := by
  have hx : 0 < x := lt_of_lt_of_le (by positivity) h1
  unfold roundDouble
  rw [if_neg hx.ne', abs_of_pos hx, log_eq_of_bounds x e h1 h2, max_eq_left he]

/-- Rounding to a `double` does not cross a value of the grid of spacing `2 ^ (e - 52)`
on which the doubles of binary exponent `e` lie. -/
theorem roundDouble_grid (x : ℚ) (e : Int) (h1 : (2 : ℚ) ^ e ≤ x)
    (h2 : x < (2 : ℚ) ^ (e + 1)) (he : -1022 ≤ e) (k : Int) :
    ((k : ℚ) * 2 ^ (e - 52) ≤ x → (k : ℚ) * 2 ^ (e - 52) ≤ roundDouble x) ∧
      (x ≤ (k : ℚ) * 2 ^ (e - 52) → roundDouble x ≤ (k : ℚ) * 2 ^ (e - 52)) := by
  have hu : (0 : ℚ) < 2 ^ (e - 52) := by positivity
  rw [roundDouble_eq x e h1 h2 he]
  constructor
  · intro h
    have hk : (k : ℚ) ≤ x / 2 ^ (e - 52) := (le_div_iff₀ hu).mpr h
    have := le_roundHalfEven _ k hk
    exact mul_le_mul_of_nonneg_right (by exact_mod_cast this) hu.le
  · intro h
    have hk : x / 2 ^ (e - 52) ≤ (k : ℚ) := (div_le_iff₀ hu).mpr h
    have := roundHalfEven_le _ k hk
    exact mul_le_mul_of_nonneg_right (by exact_mod_cast this) hu.le

/-- A value on the grid of its binary exponent is a `double`. -/
theorem roundDouble_exact (x : ℚ) (e : Int) (h1 : (2 : ℚ) ^ e ≤ x)
    (h2 : x < (2 : ℚ) ^ (e + 1)) (he : -1022 ≤ e) (k : Int)
    (hk : x = (k : ℚ) * 2 ^ (e - 52)) : roundDouble x = x := by
  obtain ⟨a, b⟩ := roundDouble_grid x e h1 h2 he k
  exact le_antisymm (hk ▸ b hk.le) (hk ▸ a hk.ge)

/-- The 16-bit conversion of a value in the range of `UINT16` is its integer part. -/
theorem toUINT16_of_small (x : ℚ) (h0 : 0 ≤ x) (h1 : x < 65536) :
    toUINT16 x = ⌊x⌋.toNat := by
  have hfl : Rat.floor x = ⌊x⌋ := rfl
  have h3 : ⌊x⌋ < 65536 := by
    rw [Int.floor_lt]
    push_cast
    exact h1
  have h4 : 0 ≤ ⌊x⌋ := Int.floor_nonneg.mpr h0
  unfold toUINT16
  simp only [if_pos h0, hfl]
  rw [if_pos (by constructor <;> omega)]
  congr 1
  omega

/-- A value strictly above the midpoint of two consecutive integers rounds up. -/
theorem roundHalfEven_up (q : ℚ) (n : Int) (h1 : (n : ℚ) + 1 / 2 < q) (h2 : q < (n : ℚ) + 1) :
    roundHalfEven q = n + 1 := by
  have hfl : Rat.floor q = n := by
    show ⌊q⌋ = n
    rw [Int.floor_eq_iff]
    constructor <;> linarith
  unfold roundHalfEven
  simp only [hfl]
  rw [if_neg (by linarith), if_pos (by linarith)]

/-- A multiple of a coarser spacing lies on every finer grid. -/
theorem grid_of_coarser (e e' : Int) (h : e ≤ e') (N : Int) :
    ∃ k : Int, (N : ℚ) * 2 ^ (e' - 52) = (k : ℚ) * 2 ^ (e - 52) := by
  obtain ⟨m, hm⟩ : ∃ m : Nat, e' = e + m := ⟨(e' - e).toNat, by omega⟩
  refine ⟨N * 2 ^ m, ?_⟩
  subst hm
  have h2 : (2 : ℚ) ≠ 0 := by norm_num
  rw [show e + (m : Int) - 52 = (e - 52) + (m : Int) by ring, zpow_add₀ h2, zpow_natCast]
  push_cast
  ring

/-- Rounding to a `double` does not cross an integer, for a binary exponent up to 52. -/
theorem roundDouble_int_bounds (x : ℚ) (e : Int) (h1 : (2 : ℚ) ^ e ≤ x)
    (h2 : x < (2 : ℚ) ^ (e + 1)) (he : -1022 ≤ e) (he2 : e ≤ 52) (N : Int) :
    ((N : ℚ) ≤ x → (N : ℚ) ≤ roundDouble x) ∧ (x ≤ (N : ℚ) → roundDouble x ≤ (N : ℚ)) := by
  obtain ⟨k, hk⟩ := grid_of_coarser e 52 he2 N
  have hN : (N : ℚ) = (k : ℚ) * 2 ^ (e - 52) := by
    rw [← hk]; norm_num
  rw [hN]
  exact roundDouble_grid x e h1 h2 he k

/-- The product of a `double` that is at least 1 with `4096.0` is exact. -/
theorem roundDouble_mul_4096 (r : ℚ) (hd : isDouble r) (h1 : 1 ≤ r) :
    roundDouble (r * 4096) = r * 4096 := by
  have hr : 0 < r := by linarith
  have a := Int.zpow_log_le_self (R := ℚ) (b := 2) (by norm_num) hr
  have b := Int.lt_zpow_succ_log_self (R := ℚ) (b := 2) (by norm_num) r
  have he : 0 ≤ Int.log 2 r :=
    (Int.zpow_le_iff_le_log (R := ℚ) (b := 2) (by norm_num) hr).mp (by simpa using h1)
  generalize Int.log 2 r = e at a b he
  have a1 : (2 : ℚ) ^ e ≤ r := by exact_mod_cast a
  have b1 : r < (2 : ℚ) ^ (e + 1) := by exact_mod_cast b
  have h2 : (2 : ℚ) ≠ 0 := by norm_num
  have hrd : roundDouble r = r := hd
  rw [roundDouble_eq r e a1 b1 (by omega)] at hrd
  have hpow : ∀ z : Int, (2 : ℚ) ^ (z + 12) = 2 ^ z * 4096 := by
    intro z
    rw [zpow_add₀ h2]
    norm_num
  apply roundDouble_exact (r * 4096) (e + 12) _ _ (by omega) (roundHalfEven (r / 2 ^ (e - 52)))
  · rw [show e + 12 - 52 = (e - 52) + 12 by ring, hpow]
    rw [← mul_assoc, hrd]
  · rw [hpow]; nlinarith
  · rw [show e + 12 + 1 = (e + 1) + 12 by ring, hpow]; nlinarith

/-- A `double` above `1/16` and below 1 is at least one spacing above `1/16`. -/
theorem double_above_sixteenth (r : ℚ) (hd : isDouble r) (h1 : 1 / 16 < r) (h2 : r < 1) :
    (2 ^ 52 + 1 : ℚ) * 2 ^ (-4 - 52 : Int) ≤ r := by
  have hr : 0 < r := by linarith
  have a := Int.zpow_log_le_self (R := ℚ) (b := 2) (by norm_num) hr
  have b := Int.lt_zpow_succ_log_self (R := ℚ) (b := 2) (by norm_num) r
  have he : -4 ≤ Int.log 2 r :=
    (Int.zpow_le_iff_le_log (R := ℚ) (b := 2) (by norm_num) hr).mp (by norm_num; linarith)
  generalize Int.log 2 r = e at a b he
  have a1 : (2 : ℚ) ^ e ≤ r := by exact_mod_cast a
  have b1 : r < (2 : ℚ) ^ (e + 1) := by exact_mod_cast b
  have hrd : roundDouble r = r := hd
  rw [roundDouble_eq r e a1 b1 (by omega)] at hrd
  obtain ⟨k, hk⟩ := grid_of_coarser (-4) e he (roundHalfEven (r / 2 ^ (e - 52)))
  rw [hrd] at hk
  have hu : (0 : ℚ) < 2 ^ (-4 - 52 : Int) := by positivity
  have hk1 : (2 ^ 52 : ℚ) < k := by
    have : (2 ^ 52 : ℚ) * 2 ^ (-4 - 52 : Int) < (k : ℚ) * 2 ^ (-4 - 52 : Int) := by
      rw [← hk]
      have : (2 ^ 52 : ℚ) * 2 ^ (-4 - 52 : Int) = 1 / 16 := by norm_num
      rw [this]; exact h1
    exact lt_of_mul_lt_mul_right this hu.le
  have hk2 : (2 ^ 52 + 1 : ℚ) ≤ k := by
    have : (2 ^ 52 : Int) < k := by exact_mod_cast hk1
    have : (2 ^ 52 + 1 : Int) ≤ k := by omega
    exact_mod_cast this
  rw [hk]
  exact mul_le_mul_of_nonneg_right hk2 hu.le

/-- The `double` quotient `4096.0 / r` for a `double` between `1/16` and 1: it lies in
`[4096, 65536)` and no integer lies between it and the exact quotient. -/
theorem roundDouble_quotient (r : ℚ) (hd : isDouble r) (h1 : 1 / 16 < r) (h2 : r < 1) :
    4096 ≤ roundDouble (4096 / r) ∧ roundDouble (4096 / r) < 65536 ∧
      ⌊4096 / r⌋ ≤ ⌊roundDouble (4096 / r)⌋ ∧
      ⌊roundDouble (4096 / r)⌋ ≤ ⌊4096 / r⌋ + 1 := by
  have hr : 0 < r := by linarith
  have hq1 : (4096 : ℚ) < 4096 / r := by
    rw [lt_div_iff₀ hr]; nlinarith
  have hq2 : 4096 / r < (65536 : ℚ) := by
    rw [div_lt_iff₀ hr]; linarith
  have hq : (0 : ℚ) < 4096 / r := by linarith
  have a := Int.zpow_log_le_self (R := ℚ) (b := 2) (by norm_num) hq
  have b := Int.lt_zpow_succ_log_self (R := ℚ) (b := 2) (by norm_num) (4096 / r)
  have he : 12 ≤ Int.log 2 (4096 / r) :=
    (Int.zpow_le_iff_le_log (R := ℚ) (b := 2) (by norm_num) hq).mp (by norm_num; linarith)
  have he2 : Int.log 2 (4096 / r) < 16 :=
    (Int.lt_zpow_iff_log_lt (R := ℚ) (b := 2) (by norm_num) hq).mp (by norm_num; linarith)
  generalize Int.log 2 (4096 / r) = e at a b he he2
  have a1 : (2 : ℚ) ^ e ≤ 4096 / r := by exact_mod_cast a
  have b1 : 4096 / r < (2 : ℚ) ^ (e + 1) := by exact_mod_cast b
  have hint := roundDouble_int_bounds (4096 / r) e a1 b1 (by omega) (by omega)
  have hlow : (4096 : ℚ) ≤ roundDouble (4096 / r) := by
    have := (hint 4096).1 (by push_cast; linarith)
    exact_mod_cast this
  have hup : roundDouble (4096 / r) < 65536 := by
    obtain ⟨k, hk⟩ := grid_of_coarser e 15 (by omega) (2 ^ 53 - 1)
    have hM : ((2 ^ 53 - 1 : Int) : ℚ) * 2 ^ (15 - 52 : Int) < 65536 := by norm_num
    have hr2 := double_above_sixteenth r hd h1 h2
    have hqM : 4096 / r ≤ ((2 ^ 53 - 1 : Int) : ℚ) * 2 ^ (15 - 52 : Int) := by
      rw [div_le_iff₀ hr]
      have hMpos : (0 : ℚ) ≤ ((2 ^ 53 - 1 : Int) : ℚ) * 2 ^ (15 - 52 : Int) := by norm_num
      calc (4096 : ℚ) ≤ ((2 ^ 53 - 1 : Int) : ℚ) * 2 ^ (15 - 52 : Int)
            * ((2 ^ 52 + 1 : ℚ) * 2 ^ (-4 - 52 : Int)) := by norm_num
        _ ≤ ((2 ^ 53 - 1 : Int) : ℚ) * 2 ^ (15 - 52 : Int) * r :=
            mul_le_mul_of_nonneg_left hr2 hMpos
    rw [hk] at hqM hM
    exact lt_of_le_of_lt ((roundDouble_grid (4096 / r) e a1 b1 (by omega) k).2 hqM) hM
  refine ⟨hlow, hup, ?_, ?_⟩
  · apply Int.le_floor.mpr
    exact (hint ⌊4096 / r⌋).1 (Int.floor_le _)
  · have hle : roundDouble (4096 / r) ≤ ((⌊4096 / r⌋ + 1 : Int) : ℚ) :=
      (hint (⌊4096 / r⌋ + 1)).2 (by push_cast; exact (Int.lt_floor_add_one _).le)
    have : ⌊roundDouble (4096 / r)⌋ ≤ ⌊((⌊4096 / r⌋ + 1 : Int) : ℚ)⌋ := Int.floor_mono hle
    rwa [Int.floor_intCast] at this

/-- The literal `0.8` is a `double`, and its quotient rounds up to the integer 5120. -/
theorem double_0_8_quotient :
    isDouble double_0_8 ∧ roundDouble (4096 / double_0_8) = 5120 ∧
      ⌊4096 / double_0_8⌋ = 5119 := by
  refine ⟨?_, ?_, ?_⟩
  · exact roundDouble_exact double_0_8 (-1) (by norm_num [double_0_8])
      (by norm_num [double_0_8]) (by norm_num) 7205759403792794 (by norm_num [double_0_8])
  · rw [roundDouble_eq (4096 / double_0_8) 12 (by norm_num [double_0_8])
      (by norm_num [double_0_8]) (by norm_num),
      roundHalfEven_up _ 5629499534213119 (by norm_num [double_0_8])
        (by norm_num [double_0_8])]
    norm_num
  · rw [Int.floor_eq_iff]
    constructor <;> norm_num [double_0_8]

/-- The conversion and the rounding at the three sample ratios and at `3/2`. -/
theorem integerRatio_samples :
    integerRatio 1 = (4096, 4096) ∧ integerRatio 2 = (4096, 8192) ∧
      integerRatio (1 / 2) = (8192, 4096) ∧ isDouble (3 / 2) := by
  have h4096 : roundDouble 4096 = 4096 :=
    roundDouble_exact 4096 12 (by norm_num) (by norm_num) (by norm_num) (2 ^ 52)
      (by norm_num)
  have h8192 : roundDouble 8192 = 8192 :=
    roundDouble_exact 8192 13 (by norm_num) (by norm_num) (by norm_num) (2 ^ 52)
      (by norm_num)
  have f4096 : toUINT16 4096 = 4096 := by
    rw [toUINT16_of_small 4096 (by norm_num) (by norm_num)]
    have : ⌊(4096 : ℚ)⌋ = 4096 := by exact_mod_cast Int.floor_intCast (4096 : Int)
    rw [this]; rfl
  have f8192 : toUINT16 8192 = 8192 := by
    rw [toUINT16_of_small 8192 (by norm_num) (by norm_num)]
    have : ⌊(8192 : ℚ)⌋ = 8192 := by exact_mod_cast Int.floor_intCast (8192 : Int)
    rw [this]; rfl
  refine ⟨?_, ?_, ?_, ?_⟩
  · unfold integerRatio
    rw [if_pos (by norm_num), show (1 : ℚ) * 4096 = 4096 by norm_num, h4096, f4096]
  · unfold integerRatio
    rw [if_pos (by norm_num), show (2 : ℚ) * 4096 = 8192 by norm_num, h8192, f8192]
  · unfold integerRatio
    rw [if_neg (by norm_num), show (4096 : ℚ) / (1 / 2) = 8192 by norm_num, h8192, f8192]
  · exact roundDouble_exact (3 / 2) 0 (by norm_num) (by norm_num) (by norm_num)
      (3 * 2 ^ 51) (by norm_num)

/-- The encoding of the `double` that `0.8` denotes. -/
theorem integerRatio_double_0_8 : integerRatio double_0_8 = (5120, 4096) := by
  unfold integerRatio
  rw [if_neg (by norm_num [double_0_8]), double_0_8_quotient.2.1,
    toUINT16_of_small 5120 (by norm_num) (by norm_num)]
  have : ⌊(5120 : ℚ)⌋ = 5120 := by exact_mod_cast Int.floor_intCast (5120 : Int)
  rw [this]; rfl

/-! ## Frames -/

/-- The statics an `Out` call leaves behind. -/
theorem Out_fst (C : Consts) (max_cpf : Int) (wait_ok : Bool) (stack : Nat → Nat)
    (w h : Nat) (r : ℚ) (wm : Bool) (pf : Option (Nat → Nat)) (mem : Nat → Nat)
    (g : Statics) :
    (Out C max_cpf wait_ok stack w h r wm pf mem g).1 =
      if g.g_p_shared_memory = true ∧ wait_ok = true then
        (outLocked C (buildFlags C g.g_bEnableTrackOnly wm max_cpf) (integerRatio r).1
          (integerRatio r).2 stack w h pf mem g).1
      else g := by
  unfold Out
  cases hm : g.g_p_shared_memory <;> cases wait_ok <;> simp
  split <;> rfl

/-- The frame descriptor an `Out` call leaves behind. -/
theorem Out_frame (C : Consts) (max_cpf : Int) (wait_ok : Bool) (stack : Nat → Nat)
    (w h : Nat) (r : ℚ) (wm : Bool) (pf : Option (Nat → Nat)) (mem : Nat → Nat)
    (g : Statics) :
    (Out C max_cpf wait_ok stack w h r wm pf mem g).1.shm.frame =
      if g.g_p_shared_memory = true ∧ wait_ok = true then
        outFrame C g.g_bEnableTrackOnly w h (integerRatio r).1 (integerRatio r).2 pf
          g.shm.frame
      else g.shm.frame := by
  rw [Out_fst]
  by_cases hc : g.g_p_shared_memory = true ∧ wait_ok = true
  · rw [if_pos hc, if_pos hc]; rfl
  · rw [if_neg hc, if_neg hc]

/-- C11 as stated fails: a 2000 x 192 frame exceeds `MAX_WIDTH`, its pixel data is not
copied (the shared pixel buffer stays as it was), yet the call increments the frame
sequence number. -/
theorem Out_seq_dropped_frame_counterexample :
    demoConsts.MAX_WIDTH < 2000 ∧
      (Out demoConsts 1 true (fun _ => 0) 2000 192 1 false (some (fun _ => 0x55))
          (fun _ => 0) liveStatics).1.shm.frame.buffer = liveStatics.shm.frame.buffer ∧
      liveStatics.shm.frame.seq = 7 ∧
      (Out demoConsts 1 true (fun _ => 0) 2000 192 1 false (some (fun _ => 0x55))
          (fun _ => 0) liveStatics).1.shm.frame.seq = 8 := by
  refine ⟨by decide, ?_, rfl, ?_⟩
  · rw [Out_frame]
    rfl
  · rw [Out_frame]
    rfl

/-- C11, amended: an `Out` call increments the frame sequence number, by exactly 1
modulo `2 ^ SEQ_BITS`, exactly when it runs on a mapped region, acquires the mutex, is
outside track-only mode and is given a non-null frame, whether or not the pixel data of
that frame is copied; every other `Out` call leaves the sequence number unchanged. -/
theorem Out_seq (C : Consts) (max_cpf : Int) (wait_ok : Bool) (stack : Nat → Nat)
    (frame_width frame_height : Nat) (source_ratio : ℚ) (want_mouse : Bool)
    (p_frame : Option (Nat → Nat)) (p_sysmem : Nat → Nat) (g : Statics) :
    (Out C max_cpf wait_ok stack frame_width frame_height source_ratio want_mouse p_frame
        p_sysmem g).1.shm.frame.seq =
      if g.g_p_shared_memory = true ∧ wait_ok = true ∧ g.g_bEnableTrackOnly = false ∧
          p_frame.isSome = true then
        (g.shm.frame.seq + 1) % 2 ^ C.SEQ_BITS
      else g.shm.frame.seq := by
  rw [Out_frame]
  cases hm : g.g_p_shared_memory <;> cases wait_ok <;> cases ht : g.g_bEnableTrackOnly <;>
    cases p_frame <;> simp [outFrame, publishFrame]
  split <;> rfl

/-- C12: an `Out` call that acquires the mutex on a mapped region outside track-only
mode with a non-null frame. If the width and the height are within `MAX_WIDTH` and
`MAX_HEIGHT`, the first `width * height * 4` bytes of the shared frame buffer are the
supplied pixel data and width, height, format 1 and the aspect ratio are written, the
ratio as the pair `integerRatio` computes with the rounding of `double`; if the width or
the height exceeds its maximum, no byte of the shared pixel buffer changes. The header
constants are such that the byte count of a frame of maximal size fits an `int`. -/
theorem Out_publishes_frame (C : Consts) (hC : C.MAX_WIDTH * C.MAX_HEIGHT * 4 < 2 ^ 31)
    (max_cpf : Int) (stack : Nat → Nat)
    (frame_width frame_height : Nat) (source_ratio : ℚ) (want_mouse : Bool)
    (pixels : Nat → Nat) (p_sysmem : Nat → Nat) (g : Statics)
    (hm : g.g_p_shared_memory = true) (ht : g.g_bEnableTrackOnly = false) :
    (frame_width ≤ C.MAX_WIDTH ∧ frame_height ≤ C.MAX_HEIGHT →
        (∀ i, i < frame_width * frame_height * 4 →
          (Out C max_cpf true stack frame_width frame_height source_ratio want_mouse
            (some pixels) p_sysmem g).1.shm.frame.buffer i = pixels i) ∧
        (Out C max_cpf true stack frame_width frame_height source_ratio want_mouse
          (some pixels) p_sysmem g).1.shm.frame.width = frame_width ∧
        (Out C max_cpf true stack frame_width frame_height source_ratio want_mouse
          (some pixels) p_sysmem g).1.shm.frame.height = frame_height ∧
        (Out C max_cpf true stack frame_width frame_height source_ratio want_mouse
          (some pixels) p_sysmem g).1.shm.frame.image_fmt = 1 ∧
        (Out C max_cpf true stack frame_width frame_height source_ratio want_mouse
          (some pixels) p_sysmem g).1.shm.frame.par_x = (integerRatio source_ratio).1 ∧
        (Out C max_cpf true stack frame_width frame_height source_ratio want_mouse
          (some pixels) p_sysmem g).1.shm.frame.par_y = (integerRatio source_ratio).2) ∧
      (C.MAX_WIDTH < frame_width ∨ C.MAX_HEIGHT < frame_height →
        (Out C max_cpf true stack frame_width frame_height source_ratio want_mouse
          (some pixels) p_sysmem g).1.shm.frame.buffer = g.shm.frame.buffer) := by
  have hF : (Out C max_cpf true stack frame_width frame_height source_ratio want_mouse
      (some pixels) p_sysmem g).1.shm.frame =
      publishFrame C frame_width frame_height (integerRatio source_ratio).1
        (integerRatio source_ratio).2 pixels g.shm.frame := by
    rw [Out_frame, if_pos ⟨hm, rfl⟩, ht]
    rfl
  rw [hF]
  constructor
  · intro hfit
    have hsmall : frame_width * frame_height * 4 < 2 ^ 32 := by
      have h1 : frame_width * frame_height ≤ C.MAX_WIDTH * C.MAX_HEIGHT :=
        Nat.mul_le_mul hfit.1 hfit.2
      omega
    unfold publishFrame
    simp only [if_pos hfit, Nat.mod_eq_of_lt hsmall]
    refine ⟨fun i hi => ?_, trivial, trivial, trivial, trivial, trivial⟩
    simp only [memcpy, if_pos hi]
  · intro hbig
    have hno : ¬ (frame_width ≤ C.MAX_WIDTH ∧ frame_height ≤ C.MAX_HEIGHT) := by omega
    unfold publishFrame
    simp only [if_neg hno]

theorem Out_publishes_frame_witness :
    (Out demoConsts 1 true (fun _ => 0) 256 192 1 false (some (fun i => i % 251))
        (fun _ => 0) liveStatics).1.shm.frame.buffer 1000 = 1000 % 251 ∧
      (Out demoConsts 1 true (fun _ => 0) 2000 192 1 false (some (fun i => i % 251))
        (fun _ => 0) liveStatics).1.shm.frame.buffer = liveStatics.shm.frame.buffer ∧
      (Out demoConsts 1 true (fun _ => 0) 1 1 double_0_8 false (some (fun i => i % 251))
        (fun _ => 0) liveStatics).1.shm.frame.par_x = 5120 :=
  ⟨((Out_publishes_frame demoConsts (by decide) 1 (fun _ => 0) 256 192 1 false
      (fun i => i % 251) (fun _ => 0) liveStatics (by decide) (by decide)).1
      (by decide)).1 1000 (by decide),
    (Out_publishes_frame demoConsts (by decide) 1 (fun _ => 0) 2000 192 1 false
      (fun i => i % 251) (fun _ => 0) liveStatics (by decide) (by decide)).2
      (Or.inl (by decide)),
    (((Out_publishes_frame demoConsts (by decide) 1 (fun _ => 0) 1 1 double_0_8 false
      (fun i => i % 251) (fun _ => 0) liveStatics (by decide) (by decide)).1
      (by decide)).2.2.2.2.1).trans (congrArg Prod.fst integerRatio_double_0_8)⟩

/-! ## Pixel aspect ratio -/

/-- C13 as stated fails: for the `double` that `0.8` denotes, the `double` quotient
`4096.0 / 0.8` rounds up to 5120, so `par_x` is 5120, whereas `trunc(4096 / r)` is 5119.
And for the ratio 16 no 16-bit value is `trunc(16 * 4096) = 65536`. -/
theorem integerRatio_rounding_counterexample :
    isDouble double_0_8 ∧ 0 < double_0_8 ∧ double_0_8 < 1 ∧
      integerRatio double_0_8 = (5120, 4096) ∧
      integerRatio double_0_8 ≠ (⌊4096 / double_0_8⌋.toNat, 4096) ∧
      (∀ par_y : Nat, par_y < 2 ^ 16 → par_y ≠ ⌊(16 : ℚ) * 4096⌋.toNat) := by
  obtain ⟨hd, _, hfl⟩ := double_0_8_quotient
  have hval := integerRatio_double_0_8
  have h16 : ⌊(16 : ℚ) * 4096⌋ = 65536 := by
    rw [Int.floor_eq_iff]
    constructor <;> norm_num
  refine ⟨hd, by norm_num [double_0_8], by norm_num [double_0_8], hval, ?_, ?_⟩
  · rw [hval, hfl]
    decide
  · intro par_y hlt
    rw [h16]
    have : (65536 : Int).toNat = 65536 := rfl
    omega

/-- C13, amended: for a `double` ratio `r`, the encoding maps `1 ≤ r < 16` to
`(4096, trunc(r * 4096))`, and `1/16 < r < 1` to `(trunc(q), 4096)` where `q` is the
`double` quotient `4096.0 / r`, that is `4096 / r` rounded to the nearest `double`:
`trunc(q)` is `trunc(4096 / r)` or one more, and it is `trunc(4096 / r)` whenever
`4096 / r` is itself a `double`. In particular 1 gives `(4096, 4096)`, 2 gives
`(4096, 8192)` and 1/2 gives `(8192, 4096)`. -/
theorem integerRatio_encoding (r : ℚ) (hd : isDouble r) :
    (1 ≤ r → r < 16 → integerRatio r = (4096, ⌊r * 4096⌋.toNat)) ∧
      (1 / 16 < r → r < 1 →
        integerRatio r = (⌊roundDouble (4096 / r)⌋.toNat, 4096) ∧
        ⌊4096 / r⌋ ≤ ⌊roundDouble (4096 / r)⌋ ∧
        ⌊roundDouble (4096 / r)⌋ ≤ ⌊4096 / r⌋ + 1 ∧
        (isDouble (4096 / r) → integerRatio r = (⌊4096 / r⌋.toNat, 4096))) ∧
      integerRatio 1 = (4096, 4096) ∧ integerRatio 2 = (4096, 8192) ∧
      integerRatio (1 / 2) = (8192, 4096) := by
  obtain ⟨s1, s2, s3, _⟩ := integerRatio_samples
  refine ⟨fun h1 h2 => ?_, fun h1 h2 => ?_, s1, s2, s3⟩
  · unfold integerRatio
    rw [if_pos h1, roundDouble_mul_4096 r hd h1,
      toUINT16_of_small (r * 4096) (by linarith) (by linarith)]
  · obtain ⟨hlow, hup, hb1, hb2⟩ := roundDouble_quotient r hd h1 h2
    have hval : integerRatio r = (⌊roundDouble (4096 / r)⌋.toNat, 4096) := by
      unfold integerRatio
      rw [if_neg (by linarith), toUINT16_of_small _ (by linarith) hup]
    refine ⟨hval, hb1, hb2, fun hq => ?_⟩
    have hq2 : roundDouble (4096 / r) = 4096 / r := hq
    rw [hval, hq2]

theorem integerRatio_encoding_witness :
    integerRatio (3 / 2) = (4096, ⌊(3 / 2 : ℚ) * 4096⌋.toNat) ∧
      integerRatio double_0_8 = (⌊roundDouble (4096 / double_0_8)⌋.toNat, 4096) :=
  ⟨(integerRatio_encoding (3 / 2) integerRatio_samples.2.2.2).1 (by norm_num) (by norm_num),
    ((integerRatio_encoding double_0_8 double_0_8_quotient.1).2.1
      (by norm_num [double_0_8]) (by norm_num [double_0_8])).1⟩

/-! ## Region life cycle -/

/-- C18: whatever the statics, `Term` leaves the region pointer, the mapping handles and
the mutex handle cleared and the recorded RAM size 0; if the region was mapped, its
version field has been set to 0; and a second `Term` changes nothing more. -/
theorem Term_clears (g : Statics) :
    (Term g).g_p_shared_memory = false ∧ (Term g).g_mmap_handle = 0 ∧
      (Term g).g_mmapcomp_handle = 0 ∧ (Term g).g_mutex_handle = 0 ∧
      (Term g).g_membase_size = 0 ∧
      (g.g_p_shared_memory = true → (Term g).shm.version = 0) ∧
      Term (Term g) = Term g := by
  cases hp : g.g_p_shared_memory <;>
  by_cases h1 : g.g_mmap_handle = 0 <;>
  by_cases h2 : g.g_mmapcomp_handle = 0 <;>
  by_cases h3 : g.g_mutex_handle = 0 <;>
  simp [Term, destroy_shared_memory, destroy_mutex, hp, h1, h2, h3]

theorem Term_clears_witness :
    (Term liveStatics).shm.version = 0 ∧ Term (Term liveStatics) = Term liveStatics :=
  have h := Term_clears liveStatics
  ⟨h.2.2.2.2.2.1 (by decide), h.2.2.2.2.2.2⟩

/-- What `shared_memory_init` returns when the system name fits its field. -/
theorem shared_memory_init_eq (C : Consts) (hC : SYSTEM_NAME.length < C.SYSTEM_MAXLEN)
    (g : Statics) :
    ∃ system, shared_memory_init C g = some { g with shm :=
      { g.shm with
        version := PROTOCOL_VER
        flags := 0
        system := system
        program := memset g.shm.program 0 C.PROGRAM_MAXLEN
        program_hash := Function.update (Function.update (Function.update
          (Function.update g.shm.program_hash 0 0) 1 0) 2 0) 3 0
        input :=
          { g.shm.input with
            mouse_dx := 0
            mouse_dy := 0
            mouse_btn := 0
            keyb_state := fun i => if i < 8 then 0 else g.shm.input.keyb_state i }
        peek :=
          { addr_count := 0
            addr := memset g.shm.peek.addr 0 C.PEEK_LIMIT
            data := memset g.shm.peek.data 0 C.PEEK_LIMIT }
        frame :=
          { seq := 0
            image_fmt := 0
            width := 0
            height := 0
            par_x := 1
            par_y := 1
            buffer := memset g.shm.frame.buffer 0 C.MAX_PAYLOAD }
        audio := { master_vol_l := 100, master_vol_r := 100 }
        ram_size := g.g_membase_size } } := by
  simp only [shared_memory_init, strcpy_s, hC, if_true]
  exact ⟨_, rfl⟩

/-- C19: whatever the mapped region held before, after `shared_memory_init` the version
is 4, the flags are 0, the frame is at rest (format 0, sequence 0, width 0, height 0,
pixel buffer all zero), the audio volumes are 100 and 100, the peek count is 0 with all
peek addresses and data zero, the program name and the four hash words are zero, mouse
delta, buttons and key bitmap are zero, and `ram_size` is the recorded RAM size, which
is the size given to `AllocRAM`. The system name is assumed to fit its field. -/
theorem shared_memory_init_rest_state (C : Consts)
    (hC : SYSTEM_NAME.length < C.SYSTEM_MAXLEN) (g : Statics)
    (os_mmap : Nat) (hos : os_mmap ≠ 0) (m0 : sSharedMemoryMap_R4) (R : Nat) (g0 : Statics) :
    (∃ g1, shared_memory_init C g = some g1 ∧
      g1.shm.version = 4 ∧ g1.shm.flags = 0 ∧
      g1.shm.frame.image_fmt = 0 ∧ g1.shm.frame.seq = 0 ∧ g1.shm.frame.width = 0 ∧
      g1.shm.frame.height = 0 ∧ (∀ i, i < C.MAX_PAYLOAD → g1.shm.frame.buffer i = 0) ∧
      g1.shm.audio.master_vol_l = 100 ∧ g1.shm.audio.master_vol_r = 100 ∧
      g1.shm.peek.addr_count = 0 ∧
      (∀ i, i < C.PEEK_LIMIT → g1.shm.peek.addr i = 0 ∧ g1.shm.peek.data i = 0) ∧
      (∀ i, i < C.PROGRAM_MAXLEN → g1.shm.program i = 0) ∧
      (∀ i, i < 4 → g1.shm.program_hash i = 0) ∧
      g1.shm.input.mouse_dx = 0 ∧ g1.shm.input.mouse_dy = 0 ∧ g1.shm.input.mouse_btn = 0 ∧
      (∀ i, i < 8 → g1.shm.input.keyb_state i = 0) ∧
      g1.shm.ram_size = g.g_membase_size) ∧
    (∃ g2, AllocRAM C os_mmap (some m0) R g0 = some (g2, some C.MEMORY_MAP_CORE_SIZE) ∧
      g2.shm.ram_size = R) := by
  constructor
  · obtain ⟨system, hI⟩ := shared_memory_init_eq C hC g
    refine ⟨_, hI, rfl, rfl, rfl, rfl, rfl, rfl, ?_, rfl, rfl, rfl, ?_, ?_, ?_, rfl, rfl, rfl,
      ?_, rfl⟩
    · intro i hi
      show memset g.shm.frame.buffer 0 C.MAX_PAYLOAD i = 0
      simp only [memset, if_pos hi]
    · intro i hi
      constructor
      · show memset g.shm.peek.addr 0 C.PEEK_LIMIT i = 0
        simp only [memset, if_pos hi]
      · show memset g.shm.peek.data 0 C.PEEK_LIMIT i = 0
        simp only [memset, if_pos hi]
    · intro i hi
      show memset g.shm.program 0 C.PROGRAM_MAXLEN i = 0
      simp only [memset, if_pos hi]
    · intro i hi
      show Function.update (Function.update (Function.update
        (Function.update g.shm.program_hash 0 0) 1 0) 2 0) 3 0 i = 0
      have h4 : i = 0 ∨ i = 1 ∨ i = 2 ∨ i = 3 := by omega
      rcases h4 with h | h | h | h <;> subst h <;> simp [Function.update]
    · intro i hi
      show (if i < 8 then 0 else g.shm.input.keyb_state i) = 0
      rw [if_pos hi]
  · obtain ⟨g2, hA, _, _, hram, _⟩ := AllocRAM_success C hC os_mmap hos m0 R g0
    exact ⟨g2, hA, hram⟩

theorem shared_memory_init_rest_state_witness :
    (∃ g1, shared_memory_init demoConsts liveStatics = some g1 ∧ g1.shm.frame.seq = 0) ∧
      (∃ g2, AllocRAM demoConsts 2 (some staleMap) 65536 startStatics
          = some (g2, some demoConsts.MEMORY_MAP_CORE_SIZE) ∧ g2.shm.ram_size = 65536) :=
  have h := shared_memory_init_rest_state demoConsts (by decide) liveStatics 2 (by decide)
    staleMap 65536 startStatics
  ⟨(let ⟨g1, h1, _, _, _, hseq, _⟩ := h.1; ⟨g1, h1, hseq⟩), h.2⟩

/-- What a successful `AllocRAM` leaves of the previous content of the region: the
`ready` flag of the input block and both command mailboxes. -/
theorem AllocRAM_keeps (C : Consts) (hC : SYSTEM_NAME.length < C.SYSTEM_MAXLEN)
    (os_mmap : Nat) (hos : os_mmap ≠ 0) (m0 : sSharedMemoryMap_R4) (size : Nat)
    (g0 : Statics) :
    ∃ g1, AllocRAM C os_mmap (some m0) size g0 = some (g1, some C.MEMORY_MAP_CORE_SIZE) ∧
      g1.g_p_shared_memory = true ∧ g1.g_bEnableTrackOnly = g0.g_bEnableTrackOnly ∧
      g1.shm.input.ready = m0.input.ready ∧ g1.shm.buf_recv = m0.buf_recv ∧
      g1.shm.buf_tohost = m0.buf_tohost := by
  simp only [AllocRAM, create_shared_memory, shared_memory_init, strcpy_s, hos, hC,
    ne_eq, not_false_eq_true, if_true, not_true_eq_false, if_false, InitTerminal]
  exact ⟨_, rfl, rfl, rfl, rfl, rfl, rfl⟩

/-- An `Out` call that acquires the mutex on a mapped region whose inbound mailbox holds
the 6 bytes `:pause` while the outbound mailbox is empty posts the pause action. -/
theorem Out_posts_pause (C : Consts) (max_cpf : Int) (stack : Nat → Nat)
    (w h : Nat) (r : ℚ) (wm : Bool) (pf : Option (Nat → Nat)) (mem : Nat → Nat)
    (g : Statics) (hm : g.g_p_shared_memory = true)
    (hin : g.shm.buf_recv.payload = 6)
    (hbytes : ∀ i, i < 6 → g.shm.buf_recv.data i = (cstr ":pause").getD i 0)
    (hout : g.shm.buf_tohost.payload = 0) :
    (Out C max_cpf true stack w h r wm pf mem g).2 = [pauseAction C] := by
  obtain ⟨o1, _, _, _⟩ := Out_acquired C max_cpf stack w h r wm pf mem g hm
  have hfirst : (outTerminal stack g).inbuf.data 0 = ':'.toNat := by
    show g.shm.buf_recv.data 0 = ':'.toNat
    rw [hbytes 0 (by decide)]; decide
  have hin0 : (outTerminal stack g).inbuf.payload ≠ 0 := by
    show g.shm.buf_recv.payload ≠ 0
    rw [hin]; decide
  have hE := ExecTerminal_command (outTerminal stack g) hin0 hfirst hout
  have e2 : (ExecTerminal (outTerminal stack g)).procbuf.payload = 6 := by
    rw [hE]; exact hin
  have e3 : ∀ i, i < 6 →
      (ExecTerminal (outTerminal stack g)).procbuf.data i = g.shm.buf_recv.data i := by
    intro i hi
    rw [hE]
    show memcpy stack g.shm.buf_recv.data g.shm.buf_recv.payload i = g.shm.buf_recv.data i
    have hlt : i < g.shm.buf_recv.payload := by rw [hin]; exact hi
    simp only [memcpy, if_pos hlt]
  have hcs : cstringOf (ExecTerminal (outTerminal stack g)).procbuf.data 0 6
      = cstr ":pause" := by
    rw [cstringOf_congr _ (fun i => (cstr ":pause").getD i 0) 6 0]
    · decide
    · intro j hj
      rw [Nat.zero_add, e3 j hj]
      exact hbytes j hj
  rw [o1, e2, if_pos (by decide), proc_mech_posted, e2, hcs, if_pos (by decide),
    if_neg (by decide), if_pos rfl]

/-- C20, evaluated on the code: `shared_memory_init` and `InitTerminal` write neither the
`ready` flag of the input block nor the payload lengths of the two command mailboxes.
When the view that `AllocRAM` maps already holds `ready = 1` and a `:pause` command in
the inbound mailbox (outbound empty), both survive the initialisation, the first `In`
reports input and the first `Out` that acquires the mutex posts the pause action. -/
theorem AllocRAM_stale_command (C : Consts) (hC : SYSTEM_NAME.length < C.SYSTEM_MAXLEN)
    (os_mmap : Nat) (hos : os_mmap ≠ 0) (m0 : sSharedMemoryMap_R4) (size : Nat)
    (g0 : Statics) (hto : g0.g_bEnableTrackOnly = false)
    (hready : m0.input.ready = 1) (hin : m0.buf_recv.payload = 6)
    (hbytes : ∀ i, i < 6 → m0.buf_recv.data i = (cstr ":pause").getD i 0)
    (hout : m0.buf_tohost.payload = 0)
    (p_input : sSharedMMapInput_R2) (p_audio : sSharedMMapAudio_R1)
    (max_cpf : Int) (stack : Nat → Nat) (w h : Nat) (r : ℚ) (wm : Bool)
    (pf : Option (Nat → Nat)) (mem : Nat → Nat) :
    ∃ g1, AllocRAM C os_mmap (some m0) size g0 = some (g1, some C.MEMORY_MAP_CORE_SIZE) ∧
      g1.shm.input.ready = 1 ∧ g1.shm.buf_recv.payload = 6 ∧
      (In g1 p_input p_audio).ready = 1 ∧
      (Out C max_cpf true stack w h r wm pf mem g1).2 = [pauseAction C] := by
  obtain ⟨g1, hA, hmap, htrack, hr, hrecv, hhost⟩ :=
    AllocRAM_keeps C hC os_mmap hos m0 size g0
  refine ⟨g1, hA, by rw [hr, hready], by rw [hrecv, hin], ?_, ?_⟩
  · have hr0 : g1.shm.input.ready ≠ 0 := by rw [hr, hready]; decide
    have ht : g1.g_bEnableTrackOnly = false := by rw [htrack, hto]
    simp [In, hmap, ht, hr0]
  · exact Out_posts_pause C max_cpf stack w h r wm pf mem g1 hmap (by rw [hrecv, hin])
      (by rw [hrecv]; exact hbytes) (by rw [hhost, hout])

theorem AllocRAM_stale_command_witness :
    ∃ g1, AllocRAM demoConsts 2 (some staleMap) 65536 startStatics
        = some (g1, some demoConsts.MEMORY_MAP_CORE_SIZE) ∧
      g1.shm.input.ready = 1 ∧ g1.shm.buf_recv.payload = 6 ∧
      (In g1 zeroInput ⟨100, 100⟩).ready = 1 ∧
      (Out demoConsts 1 true (fun _ => 0) 0 0 1 false none (fun _ => 0) g1).2
        = [pauseAction demoConsts] :=
  AllocRAM_stale_command demoConsts (by decide) 2 (by decide) staleMap 65536 startStatics
    (by decide) (by decide) (by decide) (by decide) (by decide) zeroInput ⟨100, 100⟩
    1 (fun _ => 0) 0 0 1 false none (fun _ => 0)

end GameLink

namespace RemoteControlManager

open GameLink

/-! ## Input reconciliation -/

/-- The mask test of the loop body reads the bit of that index. -/
theorem mask_test (key bit : Nat) (hbit : bit < 32) :
    ((key &&& (1 <<< bit) % 2 ^ 32) != 0) = key.testBit bit := by
  have hpow : (1 <<< bit) % 2 ^ 32 = 2 ^ bit := by
    rw [Nat.one_shiftLeft]
    exact Nat.mod_eq_of_lt (Nat.pow_lt_pow_right (by decide) hbit)
  rw [hpow]
  cases hb : key.testBit bit with
  | false =>
    have hz : key &&& 2 ^ bit = 0 := by
      apply Nat.eq_of_testBit_eq
      intro i
      rw [Nat.testBit_and, Nat.zero_testBit, Nat.testBit_two_pow]
      by_cases hi : bit = i
      · subst hi; simp [hb]
      · simp [hi]
    simp [hz]
  | true =>
    have hne : key &&& 2 ^ bit ≠ 0 := by
      intro hz
      have h1 : (key &&& 2 ^ bit).testBit bit = true := by
        rw [Nat.testBit_and, hb, Nat.testBit_two_pow_self]; rfl
      rw [hz, Nat.zero_testBit] at h1
      exact Bool.false_ne_true h1
    simp [hne]

/-- The loop body of `getInput` in closed form: it rewrites the time stamp of its own
scancode and appends the messages of that key. -/
theorem keyBody_eq (C : Consts) (excl : List Nat) (t old key blk bit : Nat) (k : KeyLoop)
    (hblk : blk < 8) (hbit : bit < 32) :
    keyBody C excl t old key blk bit k =
      { repeat_last_tick := Function.update k.repeat_last_tick (blk * 32 + bit)
          (keyTick C t (old.testBit bit) (key.testBit bit)
            (k.repeat_last_tick (blk * 32 + bit)))
        posted := k.posted ++ keyPosted C excl t (blk * 32 + bit) (old.testBit bit)
          (key.testBit bit) (k.repeat_last_tick (blk * 32 + bit)) } := by
  have hs : (blk * 32 + bit) % 256 = blk * 32 + bit := by omega
  have hE : ∀ last : Nat, (((t : Int) - (last : Int)) % 2 ^ 64).toNat = elapsedTicks t last :=
    fun _ => rfl
  unfold keyBody
  simp only [hs, mask_test _ _ hbit, hE]
  cases hpd : old.testBit bit <;> cases hcd : key.testBit bit <;>
    by_cases hel : elapsedTicks t (k.repeat_last_tick (blk * 32 + bit)) < C.kMinRepeatInterval <;>
    by_cases hex : (aDIKtoVK[blk * 32 + bit]?.getD 0) ∈ excl <;>
    simp [keyTick, keyPosted, keyAccepted, keyMessage, hel, hex, Function.update_eq_self]

/-- A loop over scancodes whose body rewrites the time stamp of its own scancode only and
appends messages that depend on that time stamp only. -/
theorem keyFold_spec (N : Nat) (tick : Nat → Nat → Nat) (msgs : Nat → Nat → List HostEvent)
    (step : Nat → KeyLoop → KeyLoop)
    (hstep : ∀ s, s < N → ∀ k : KeyLoop, step s k =
      { repeat_last_tick := Function.update k.repeat_last_tick s (tick s (k.repeat_last_tick s))
        posted := k.posted ++ msgs s (k.repeat_last_tick s) }) :
    ∀ n, n ≤ N → ∀ k : KeyLoop, (List.range n).foldl (fun k s => step s k) k =
      { repeat_last_tick := fun s =>
          if s < n then tick s (k.repeat_last_tick s) else k.repeat_last_tick s
        posted := k.posted ++ (List.range n).flatMap (fun s => msgs s (k.repeat_last_tick s)) } := by
  intro n
  induction n with
  | zero =>
    intro _ k
    simp
  | succ n ih =>
    intro hn k
    rw [List.range_succ, List.foldl_append, ih (by omega) k]
    simp only [List.foldl_cons, List.foldl_nil]
    rw [hstep n (by omega)]
    simp only [lt_self_iff_false, if_false, List.flatMap_append, List.flatMap_cons,
      List.flatMap_nil, List.append_nil, List.append_assoc, KeyLoop.mk.injEq, and_true]
    funext s
    by_cases hs : s = n
    · subst hs
      simp
    · rw [Function.update_noteq hs]
      by_cases h1 : s < n
      · have h2 : s < n + 1 := by omega
        simp [h1, h2]
      · have h2 : ¬ s < n + 1 := by omega
        simp [h1, h2]

/-- Two nested counting loops visit the pairs in the order of the combined index. -/
theorem nested_fold (σ : Type) (f : Nat → Nat → σ → σ) (n : Nat) :
    ∀ (m : Nat) (k : σ),
      (List.range m).foldl (fun k i => (List.range n).foldl (fun k j => f i j k) k) k =
        (List.range (m * n)).foldl (fun k s => f (s / n) (s % n) k) k := by
  intro m
  induction m with
  | zero => intro k; simp
  | succ m ih =>
    intro k
    have hsplit : (m + 1) * n = m * n + n := by ring
    rw [List.range_succ, List.foldl_append, ih k, hsplit, List.range_add, List.foldl_append,
      List.foldl_map]
    simp only [List.foldl_cons, List.foldl_nil]
    apply List.foldl_ext
    intro a j hj
    have hjn : j < n := List.mem_range.mp hj
    have hn : 0 < n := by omega
    have hdiv : (m * n + j) / n = m := by
      rw [Nat.add_comm, Nat.add_mul_div_right _ _ hn, Nat.div_eq_of_lt hjn, Nat.zero_add]
    have hmod : (m * n + j) % n = j := by
      rw [Nat.add_comm, Nat.add_mul_mod_self_right, Nat.mod_eq_of_lt hjn]
    rw [hdiv, hmod]

/-- The key loops of `getInput` in closed form: every scancode below 256 gets its time
stamp rewritten and its messages appended, in increasing order of scancode. -/
theorem keyLoops_spec (C : Consts) (excl : List Nat) (t : Nat)
    (prev cur : sSharedMMapInput_R2) (k : KeyLoop) :
    keyLoops C excl t prev cur k =
      { repeat_last_tick := fun s =>
          if s < 256 then keyTick C t (keyBit prev s) (keyBit cur s) (k.repeat_last_tick s)
          else k.repeat_last_tick s
        posted := k.posted ++ (List.range 256).flatMap (fun s =>
          keyPosted C excl t s (keyBit prev s) (keyBit cur s) (k.repeat_last_tick s)) } := by
  have hflat := nested_fold KeyLoop
    (fun blk bit k => keyBody C excl t (prev.keyb_state blk) (cur.keyb_state blk) blk bit k)
    32 8 k
  have hstep : ∀ s, s < 256 → ∀ k : KeyLoop,
      keyBody C excl t (prev.keyb_state (s / 32)) (cur.keyb_state (s / 32)) (s / 32) (s % 32) k =
        { repeat_last_tick := Function.update k.repeat_last_tick s
            (keyTick C t (keyBit prev s) (keyBit cur s) (k.repeat_last_tick s))
          posted := k.posted ++ keyPosted C excl t s (keyBit prev s) (keyBit cur s)
            (k.repeat_last_tick s) } := by
    intro s hs k
    have h1 : s / 32 < 8 := by omega
    have h2 : s % 32 < 32 := by omega
    have h3 : s / 32 * 32 + s % 32 = s := by omega
    rw [keyBody_eq C excl t _ _ _ _ k h1 h2, h3]
    rfl
  have hfold := keyFold_spec 256
    (fun s last => keyTick C t (keyBit prev s) (keyBit cur s) last)
    (fun s last => keyPosted C excl t s (keyBit prev s) (keyBit cur s) last)
    (fun s k => keyBody C excl t (prev.keyb_state (s / 32)) (cur.keyb_state (s / 32))
      (s / 32) (s % 32) k)
    hstep 256 (Nat.le_refl _) k
  unfold keyLoops
  exact hflat.trans hfold

/-- What `In` returns when there is new input to hand out. -/
theorem In_ready_eq (g : Statics) (p_input : sSharedMMapInput_R2)
    (p_audio : sSharedMMapAudio_R1) (hm : g.g_p_shared_memory = true)
    (ht : g.g_bEnableTrackOnly = false) (hr : g.shm.input.ready ≠ 0) :
    ∃ a, In g p_input p_audio =
      { g := { g with shm := { g.shm with input :=
            { g.shm.input with mouse_dx := 0, mouse_dy := 0, ready := 0 } } }
        p_input := g.shm.input
        p_audio := a
        ready := 1 } := by
  simp only [In, hm, ht, hr, ne_eq, not_false_eq_true, if_true, Bool.false_eq_true, if_false]
  exact ⟨_, rfl⟩

/-- A pass of `getInput` that applies new input, in closed form: the messages posted are
an optional volume notification followed by the messages of the 256 keys in increasing
order of scancode; the snapshot of the previous input becomes the input just read. -/
theorem getInput_pass (C : Consts) (t : Nat) (s : Globals)
    (hen : s.gl.g_bEnableGamelink = true) (hm : s.gl.g_p_shared_memory = true)
    (ht : s.gl.g_bEnableTrackOnly = false) (hr : s.gl.shm.input.ready ≠ 0) :
    (∃ vol, (vol = [] ∨ vol = [HostEvent.SetSoundVolumes]) ∧
      (getInput C false t s).2 = vol ++ (List.range 256).flatMap (fun sc =>
        keyPosted C s.exclusionSet t sc (keyBit s.g_gamelink.input_prev sc)
          (keyBit s.gl.shm.input sc) (s.g_gamelink.repeat_last_tick sc))) ∧
      (getInput C false t s).1.g_gamelink.input_prev = s.gl.shm.input ∧
      (getInput C false t s).1.g_gamelink.input = s.gl.shm.input ∧
      (getInput C false t s).1.g_gamelink.repeat_last_tick = (fun sc =>
        if sc < 256 then
          keyTick C t (keyBit s.g_gamelink.input_prev sc) (keyBit s.gl.shm.input sc)
            (s.g_gamelink.repeat_last_tick sc)
        else s.g_gamelink.repeat_last_tick sc) ∧
      (getInput C false t s).1.exclusionSet = s.exclusionSet ∧
      (getInput C false t s).1.gl.g_bEnableGamelink = true ∧
      (getInput C false t s).1.gl.g_p_shared_memory = true ∧
      (getInput C false t s).1.gl.g_bEnableTrackOnly = false := by
  obtain ⟨a, hIn⟩ := In_ready_eq s.gl s.g_gamelink.input s.g_gamelink.audio hm ht hr
  have hen2 : ¬ (s.gl.g_bEnableGamelink = false) := by rw [hen]; decide
  unfold getInput
  rw [if_neg hen2]
  simp only [Bool.false_eq_true, if_false, hIn, one_ne_zero, keyLoops_spec]
  by_cases hv : s.max_volume = (a.master_vol_l : Int)
  · simp only [hv, ne_eq, not_true_eq_false, if_false]
    exact ⟨⟨[], Or.inl rfl, rfl⟩, trivial, trivial, trivial, trivial, hen, hm, ht⟩
  · simp only [hv, ne_eq, not_false_eq_true, if_true]
    exact ⟨⟨[HostEvent.SetSoundVolumes], Or.inr rfl, rfl⟩, trivial, trivial, trivial, trivial,
      hen, hm, ht⟩

/-- The scancode can be read back from bits 16 to 23 of the `lParam` the loop body
builds. -/
theorem scancode_field (s e p u : Nat) (hs : s < 256) (he : e ≤ 1) (hp : p ≤ 1) :
    ((1 ||| (s <<< 16) ||| (e <<< 24) ||| (p <<< 30) ||| (u <<< 31)) >>> 16) % 256 = s := by
  have h1 : 1 ||| (s <<< 16) = 2 ^ 16 * s + 1 := by
    rw [Nat.lor_comm, Nat.shiftLeft_eq, Nat.mul_comm,
      ← Nat.mul_add_lt_is_or (by decide : 1 < 2 ^ 16)]
  have b1 : 2 ^ 16 * s + 1 < 2 ^ 24 := by omega
  have h2 : (2 ^ 16 * s + 1) ||| (e <<< 24) = 2 ^ 24 * e + (2 ^ 16 * s + 1) := by
    rw [Nat.lor_comm, Nat.shiftLeft_eq, Nat.mul_comm, ← Nat.mul_add_lt_is_or b1]
  have b2 : 2 ^ 24 * e + (2 ^ 16 * s + 1) < 2 ^ 30 := by omega
  have h3 : (2 ^ 24 * e + (2 ^ 16 * s + 1)) ||| (p <<< 30)
      = 2 ^ 30 * p + (2 ^ 24 * e + (2 ^ 16 * s + 1)) := by
    rw [Nat.lor_comm, Nat.shiftLeft_eq, Nat.mul_comm, ← Nat.mul_add_lt_is_or b2]
  have b3 : 2 ^ 30 * p + (2 ^ 24 * e + (2 ^ 16 * s + 1)) < 2 ^ 31 := by omega
  have h4 : (2 ^ 30 * p + (2 ^ 24 * e + (2 ^ 16 * s + 1))) ||| (u <<< 31)
      = 2 ^ 31 * u + (2 ^ 30 * p + (2 ^ 24 * e + (2 ^ 16 * s + 1))) := by
    rw [Nat.lor_comm, Nat.shiftLeft_eq, Nat.mul_comm, ← Nat.mul_add_lt_is_or b3]
  rw [h1, h2, h3, h4, Nat.shiftRight_eq_div_pow]
  omega

/-- Every message posted for a key carries the scancode of that key. -/
theorem keyPosted_scancode (C : Consts) (excl : List Nat) (t s : Nat) (pd cd : Bool)
    (last : Nat) (hs : s < 256) :
    ∀ e ∈ keyPosted C excl t s pd cd last, scancodeOf e = some s := by
  intro e he
  unfold keyPosted at he
  split at he
  · rw [List.mem_singleton] at he
    rw [he]
    unfold keyMessage scancodeOf
    have hf := scancode_field s (if s > 0x7F then 1 else 0) (if pd = true then 1 else 0)
      (if (!cd) = true then 1 else 0) hs (by split <;> omega) (by split <;> omega)
    simp only [hf]
  · exact absurd he (List.not_mem_nil e)

/-- Picking one scancode out of a list that is grouped by scancode. -/
theorem flatMap_pick (X : List HostEvent) (k : Nat) :
    ∀ n, (List.range n).flatMap (fun s => if s = k then X else []) =
      if k < n then X else [] := by
  intro n
  induction n with
  | zero => simp
  | succ n ih =>
    rw [List.range_succ, List.flatMap_append, ih]
    by_cases h1 : k < n
    · have h2 : k < n + 1 := by omega
      have h3 : ¬ n = k := by omega
      simp [h1, h2, h3]
    · by_cases h4 : n = k
      · subst h4
        simp
      · have h2 : ¬ k < n + 1 := by omega
        simp [h1, h2, h4]

/-- The messages of key `k` among those of a pass are the ones posted for `k`. -/
theorem eventsOfKey_pass (vol : List HostEvent) (seg : Nat → List HostEvent) (k : Nat)
    (hk : k < 256) (hvol : vol = [] ∨ vol = [HostEvent.SetSoundVolumes])
    (hseg : ∀ s, s < 256 → ∀ e ∈ seg s, scancodeOf e = some s) :
    eventsOfKey k (vol ++ (List.range 256).flatMap seg) = seg k := by
  have hv : vol.filter (fun e => scancodeOf e == some k) = [] := by
    cases hvol with
    | inl h => rw [h]; rfl
    | inr h => rw [h]; rfl
  have hfilter : ∀ s ∈ List.range 256,
      (seg s).filter (fun e => scancodeOf e == some k) = if s = k then seg k else [] := by
    intro s hmem
    have hs : s < 256 := List.mem_range.mp hmem
    by_cases hsk : s = k
    · subst hsk
      rw [if_pos rfl, List.filter_eq_self]
      intro e he
      rw [hseg s hs e he]
      exact beq_self_eq_true _
    · rw [if_neg hsk, List.filter_eq_nil_iff]
      intro e he
      rw [hseg s hs e he]
      simp [hsk]
  unfold eventsOfKey
  rw [List.filter_append, hv, List.nil_append, List.filter_flatMap,
    List.flatMap_congr hfilter, flatMap_pick, if_pos hk]

/-- The messages of key `k` among those posted by a pass of `getInput` that applies new
input. -/
theorem eventsOfKey_getInput (C : Consts) (t : Nat) (s : Globals) (k : Nat) (hk : k < 256)
    (hen : s.gl.g_bEnableGamelink = true) (hm : s.gl.g_p_shared_memory = true)
    (ht : s.gl.g_bEnableTrackOnly = false) (hr : s.gl.shm.input.ready ≠ 0) :
    eventsOfKey k (getInput C false t s).2 =
      keyPosted C s.exclusionSet t k (keyBit s.g_gamelink.input_prev k)
        (keyBit s.gl.shm.input k) (s.g_gamelink.repeat_last_tick k) := by
  obtain ⟨⟨vol, hvol, hposted⟩, _⟩ := getInput_pass C t s hen hm ht hr
  rw [hposted]
  exact eventsOfKey_pass vol _ k hk hvol
    (fun sc hsc => keyPosted_scancode C s.exclusionSet t sc _ _ _ hsc)

/-- A call of `getInput` that does not apply new input posts nothing. -/
theorem getInput_idle (C : Consts) (hasFocus : Bool) (t : Nat) (s : Globals)
    (h : ¬ (s.gl.g_bEnableGamelink = true ∧ hasFocus = false ∧
      s.gl.g_p_shared_memory = true ∧ s.gl.g_bEnableTrackOnly = false ∧
      s.gl.shm.input.ready ≠ 0)) :
    (getInput C hasFocus t s).2 = [] := by
  unfold getInput
  cases hen : s.gl.g_bEnableGamelink with
  | false => simp
  | true =>
    cases hasFocus with
    | true => simp
    | false =>
      have hready : (In s.gl s.g_gamelink.input s.g_gamelink.audio).ready = 0 := by
        cases hm : s.gl.g_p_shared_memory with
        | false => simp [In, hm]
        | true =>
          cases ht : s.gl.g_bEnableTrackOnly with
          | true => simp [In, hm, ht]
          | false =>
            have hr : s.gl.shm.input.ready = 0 := by
              by_contra hne
              exact h ⟨hen, rfl, hm, ht, hne⟩
            simp [In, hm, ht, hr]
      simp [hready]

/-- Nothing is posted for a key whose translated code is on the exclusion list. -/
theorem keyPosted_excluded (C : Consts) (excl : List Nat) (t k : Nat) (pd cd : Bool)
    (last : Nat) (hex : aDIKtoVK.getD k 0 ∈ excl) : keyPosted C excl t k pd cd last = [] := by
  have hc : excl.contains (aDIKtoVK.getD k 0) = true := List.elem_eq_true_of_mem hex
  unfold keyPosted
  rw [hc, Bool.not_true, Bool.and_false]
  rfl

/-- Nothing is posted for a key the loop body skips. -/
theorem keyPosted_skipped (C : Consts) (excl : List Nat) (t k : Nat) (pd cd : Bool)
    (last : Nat) (hacc : keyAccepted C t pd cd last = false) :
    keyPosted C excl t k pd cd last = [] := by
  unfold keyPosted
  rw [hacc, Bool.false_and]
  rfl

/-- The message of a key is posted when the loop body lets it through and its translated
code is not on the exclusion list. -/
theorem keyPosted_accepted (C : Consts) (excl : List Nat) (t k : Nat) (pd cd : Bool)
    (last : Nat) (hacc : keyAccepted C t pd cd last = true)
    (hex : aDIKtoVK.getD k 0 ∉ excl) :
    keyPosted C excl t k pd cd last = [keyMessage k pd cd] := by
  have hc : excl.contains (aDIKtoVK.getD k 0) = false := by
    cases hcon : excl.contains (aDIKtoVK.getD k 0) with
    | false => rfl
    | true => exact absurd (List.mem_of_elem_eq_true hcon) hex
  unfold keyPosted
  rw [hacc, hc]
  rfl

/-- C15 as stated fails: the key of scancode 1 is up before and down now, but its
translated code `0x1B` is on the exclusion list and no message is posted for it. -/
theorem excluded_press_counterexample :
    keyBit escapeGlobals.g_gamelink.input_prev 1 = false ∧
      keyBit escapeGlobals.gl.shm.input 1 = true ∧
      eventsOfKey 1 (getInput demoConsts false 1000 escapeGlobals).2 = [] := by
  refine ⟨by decide, by decide, ?_⟩
  rw [eventsOfKey_getInput demoConsts 1000 escapeGlobals 1 (by decide) (by decide)
    (by decide) (by decide) (by decide)]
  decide

/-- C15, amended: in a pass of `getInput` that applies new input, the messages posted
are an optional volume notification followed by the messages of the scancodes 0 to 255
in increasing order. For a scancode `k` whose translated code `aDIKtoVK[k]` is on the
exclusion list nothing is posted. Otherwise, with the bit of `k` in the previous and the
current bitmap: 0 and 0 gives no message; 0 and 1 exactly one key-down message; 1 and 0
exactly one key-up message; 1 and 1 at most one message, a key-down; every message
carries the code `aDIKtoVK[k]`. Afterwards the previous snapshot is the current one. -/
theorem getInput_key_events (C : Consts) (t : Nat) (s : Globals)
    (hen : s.gl.g_bEnableGamelink = true) (hm : s.gl.g_p_shared_memory = true)
    (ht : s.gl.g_bEnableTrackOnly = false) (hr : s.gl.shm.input.ready ≠ 0) :
    (∃ vol, (vol = [] ∨ vol = [HostEvent.SetSoundVolumes]) ∧
      (getInput C false t s).2 = vol ++ (List.range 256).flatMap (fun k =>
        eventsOfKey k (getInput C false t s).2)) ∧
    (∀ k, k < 256 →
      (aDIKtoVK.getD k 0 ∈ s.exclusionSet → eventsOfKey k (getInput C false t s).2 = []) ∧
      (keyBit s.g_gamelink.input_prev k = false → keyBit s.gl.shm.input k = false →
        eventsOfKey k (getInput C false t s).2 = []) ∧
      (aDIKtoVK.getD k 0 ∉ s.exclusionSet →
        keyBit s.g_gamelink.input_prev k = false → keyBit s.gl.shm.input k = true →
        ∃ lParam, eventsOfKey k (getInput C false t s).2 =
          [HostEvent.PostMessageW WinMsg.WM_KEYDOWN (aDIKtoVK.getD k 0) lParam]) ∧
      (aDIKtoVK.getD k 0 ∉ s.exclusionSet →
        keyBit s.g_gamelink.input_prev k = true → keyBit s.gl.shm.input k = false →
        ∃ lParam, eventsOfKey k (getInput C false t s).2 =
          [HostEvent.PostMessageW WinMsg.WM_KEYUP (aDIKtoVK.getD k 0) lParam]) ∧
      (keyBit s.g_gamelink.input_prev k = true → keyBit s.gl.shm.input k = true →
        eventsOfKey k (getInput C false t s).2 = [] ∨
        ∃ lParam, eventsOfKey k (getInput C false t s).2 =
          [HostEvent.PostMessageW WinMsg.WM_KEYDOWN (aDIKtoVK.getD k 0) lParam])) ∧
    (getInput C false t s).1.g_gamelink.input_prev = s.gl.shm.input ∧
    (getInput C false t s).1.g_gamelink.input_prev = (getInput C false t s).1.g_gamelink.input := by
  obtain ⟨⟨vol, hvol, hposted⟩, hprev, hcur, _⟩ := getInput_pass C t s hen hm ht hr
  refine ⟨⟨vol, hvol, ?_⟩, fun k hk => ?_, hprev, by rw [hprev, hcur]⟩
  · have hcongr : ∀ k ∈ List.range 256,
        keyPosted C s.exclusionSet t k (keyBit s.g_gamelink.input_prev k)
          (keyBit s.gl.shm.input k) (s.g_gamelink.repeat_last_tick k) =
        eventsOfKey k (getInput C false t s).2 := by
      intro k hmem
      exact (eventsOfKey_getInput C t s k (List.mem_range.mp hmem) hen hm ht hr).symm
    rw [← List.flatMap_congr hcongr]
    exact hposted
  · rw [eventsOfKey_getInput C t s k hk hen hm ht hr]
    refine ⟨fun hex => keyPosted_excluded C _ t k _ _ _ hex, fun hp hc => ?_,
      fun hex hp hc => ?_, fun hex hp hc => ?_, fun hp hc => ?_⟩
    · rw [hp, hc]
      exact keyPosted_skipped C _ t k false false _ rfl
    · rw [hp, hc, keyPosted_accepted C _ t k false true _ rfl hex]
      exact ⟨_, rfl⟩
    · rw [hp, hc, keyPosted_accepted C _ t k true false _ rfl hex]
      exact ⟨_, rfl⟩
    · rw [hp, hc]
      unfold keyPosted
      split
      · exact Or.inr ⟨_, rfl⟩
      · exact Or.inl rfl

theorem getInput_key_events_witness :
    ∃ lParam, eventsOfKey 1 (getInput demoConsts false 1000 pressGlobals).2 =
      [HostEvent.PostMessageW WinMsg.WM_KEYDOWN (aDIKtoVK.getD 1 0) lParam] :=
  ((getInput_key_events demoConsts 1000 pressGlobals (by decide) (by decide) (by decide)
    (by decide)).2.1 1 (by decide)).2.2.1 (by decide) (by decide) (by decide)

/-- A message among those posted for a key is the message of that key, the loop body let
the key through, and its translated code is not on the exclusion list. -/
theorem keyPosted_mem (C : Consts) (excl : List Nat) (t k : Nat) (pd cd : Bool)
    (last : Nat) (e : HostEvent) (he : e ∈ keyPosted C excl t k pd cd last) :
    e = keyMessage k pd cd ∧ keyAccepted C t pd cd last = true ∧
      aDIKtoVK.getD k 0 ∉ excl := by
  unfold keyPosted at he
  split at he
  · rename_i hguard
    rw [Bool.and_eq_true] at hguard
    refine ⟨List.mem_singleton.mp he, hguard.1, fun hmem => ?_⟩
    have hc : excl.contains (aDIKtoVK.getD k 0) = true := List.elem_eq_true_of_mem hmem
    rw [hc] at hguard
    exact Bool.false_ne_true hguard.2
  · exact absurd he (List.not_mem_nil e)

/-- Members of the set built by the insertion loop of `setKeypressExclusionList`. -/
theorem mem_insert_loop (list : Nat → Nat) (x : Nat) :
    ∀ (n : Nat) (acc : List Nat),
      x ∈ (List.range n).foldl (fun set i => set.insert (list i)) acc ↔
        x ∈ acc ∨ ∃ i, i < n ∧ list i = x := by
  intro n
  induction n with
  | zero =>
    intro acc
    simp
  | succ n ih =>
    intro acc
    rw [List.range_succ, List.foldl_append]
    simp only [List.foldl_cons, List.foldl_nil, List.mem_insert_iff, ih]
    constructor
    · intro h
      rcases h with h | h | ⟨i, hi, hx⟩
      · exact Or.inr ⟨n, Nat.lt_succ_self n, h.symm⟩
      · exact Or.inl h
      · exact Or.inr ⟨i, Nat.lt_succ_of_lt hi, hx⟩
    · intro h
      rcases h with h | ⟨i, hi, hx⟩
      · exact Or.inr (Or.inl h)
      · by_cases hin : i = n
        · subst hin
          exact Or.inl hx.symm
        · exact Or.inr (Or.inr ⟨i, by omega, hx⟩)

/-- C16: after `setKeypressExclusionList` the exclusion set holds exactly the first
`length` entries of the list given, whatever it held before. Whatever the key bitmaps,
no message that `getInput` posts carries a code of that set; and in a pass that applies
new input, every key that the loop body lets through and whose translated code is not
in the set has its message posted. -/
theorem exclusion_list_respected (C : Consts) (list : Nat → Nat) (length : Nat)
    (s0 : Globals) (hasFocus : Bool) (t : Nat) :
    (∀ x, x ∈ (setKeypressExclusionList list length s0).exclusionSet ↔
        ∃ i, i < length ∧ list i = x) ∧
      (∀ msg wParam lParam,
        HostEvent.PostMessageW msg wParam lParam ∈
            (getInput C hasFocus t (setKeypressExclusionList list length s0)).2 →
          wParam ∉ (setKeypressExclusionList list length s0).exclusionSet) ∧
      (s0.gl.g_bEnableGamelink = true → s0.gl.g_p_shared_memory = true →
        s0.gl.g_bEnableTrackOnly = false → s0.gl.shm.input.ready ≠ 0 →
        ∀ k, k < 256 →
          aDIKtoVK.getD k 0 ∉ (setKeypressExclusionList list length s0).exclusionSet →
          keyAccepted C t (keyBit s0.g_gamelink.input_prev k) (keyBit s0.gl.shm.input k)
            (s0.g_gamelink.repeat_last_tick k) = true →
          eventsOfKey k (getInput C false t (setKeypressExclusionList list length s0)).2 =
            [keyMessage k (keyBit s0.g_gamelink.input_prev k) (keyBit s0.gl.shm.input k)]) := by
  refine ⟨fun x => ?_, fun msg wParam lParam hmem => ?_, fun hen hm ht hr k hk hex hacc => ?_⟩
  · have h := mem_insert_loop list x length []
    simp only [List.not_mem_nil, false_or] at h
    exact h
  · by_cases hpass : (setKeypressExclusionList list length s0).gl.g_bEnableGamelink = true ∧
        hasFocus = false ∧
        (setKeypressExclusionList list length s0).gl.g_p_shared_memory = true ∧
        (setKeypressExclusionList list length s0).gl.g_bEnableTrackOnly = false ∧
        (setKeypressExclusionList list length s0).gl.shm.input.ready ≠ 0
    · obtain ⟨hen, hf, hm, ht, hr⟩ := hpass
      subst hf
      obtain ⟨⟨vol, hvol, hposted⟩, _⟩ :=
        getInput_pass C t (setKeypressExclusionList list length s0) hen hm ht hr
      rw [hposted, List.mem_append] at hmem
      cases hmem with
      | inl hv =>
        cases hvol with
        | inl h0 => rw [h0] at hv; exact absurd hv (List.not_mem_nil _)
        | inr h1 =>
          rw [h1, List.mem_singleton] at hv
          exact HostEvent.noConfusion hv
      | inr hk =>
        rw [List.mem_flatMap] at hk
        obtain ⟨sc, _, hsc⟩ := hk
        obtain ⟨heq, _, hnot⟩ := keyPosted_mem C _ t sc _ _ _ _ hsc
        unfold keyMessage at heq
        injection heq with _ hw _
        rw [hw]
        exact hnot
    · rw [getInput_idle C hasFocus t _ hpass] at hmem
      exact absurd hmem (List.not_mem_nil _)
  · rw [eventsOfKey_getInput C t (setKeypressExclusionList list length s0) k hk hen hm ht hr]
    exact keyPosted_accepted C _ t k _ _ _ hacc hex

theorem exclusion_list_respected_witness :
    eventsOfKey 1 (getInput demoConsts false 1000
        (setKeypressExclusionList (fun _ => 0x70) 3 escapeGlobals)).2 =
      [keyMessage 1 (keyBit escapeGlobals.g_gamelink.input_prev 1)
        (keyBit escapeGlobals.gl.shm.input 1)] :=
  (exclusion_list_respected demoConsts (fun _ => 0x70) 3 escapeGlobals false 1000).2.2
    (by decide) (by decide) (by decide) (by decide) 1 (by decide) (by decide) (by decide)

/-- The tick difference of the loop body is the plain difference when the time stamp is
not ahead of the tick count. -/
theorem elapsedTicks_of_le (t last : Nat) (hle : last ≤ t) (ht : t < 2 ^ 64) :
    elapsedTicks t last = t - last := by
  unfold elapsedTicks
  omega

/-- The tick difference of the loop body never exceeds the plain difference. -/
theorem elapsedTicks_le (t last : Nat) (hle : last ≤ t) : elapsedTicks t last ≤ t - last := by
  unfold elapsedTicks
  omega

/-- One host tick with new remote input, seen from one key. -/
theorem poll_key (C : Consts) (t : Nat) (inp : sSharedMMapInput_R2) (s : Globals) (k : Nat)
    (hk : k < 256) (hlive : remoteControlActive s) (hr : inp.ready ≠ 0) :
    eventsOfKey k (poll C t inp s).2 =
        keyPosted C s.exclusionSet t k (keyBit s.g_gamelink.input_prev k) (keyBit inp k)
          (s.g_gamelink.repeat_last_tick k) ∧
      (poll C t inp s).1.g_gamelink.input_prev = inp ∧
      (poll C t inp s).1.g_gamelink.repeat_last_tick k =
        keyTick C t (keyBit s.g_gamelink.input_prev k) (keyBit inp k)
          (s.g_gamelink.repeat_last_tick k) ∧
      (poll C t inp s).1.exclusionSet = s.exclusionSet ∧
      remoteControlActive (poll C t inp s).1 := by
  obtain ⟨hen, hm, ht⟩ := hlive
  obtain ⟨_, hprev, _, hrlt, hexcl, hen2, hm2, ht2⟩ := getInput_pass C t
    { s with gl := { s.gl with shm := { s.gl.shm with input := inp } } } hen hm ht hr
  refine ⟨?_, hprev, ?_, hexcl, ⟨hen2, hm2, ht2⟩⟩
  · exact eventsOfKey_getInput C t
      { s with gl := { s.gl with shm := { s.gl.shm with input := inp } } } k hk hen hm ht hr
  · unfold poll
    rw [hrlt]
    simp only [if_pos hk]

/-- While a key stays down over a run of ticks that do not precede `t1`, its time stamp
is either still `t1` or has been reset to 0 by an accepted repeat. -/
theorem polls_held (C : Consts) (k : Nat) (hk : k < 256) (t1 : Nat) :
    ∀ (held : List (Nat × sSharedMMapInput_R2)) (s : Globals) (W : Prop),
      remoteControlActive s → aDIKtoVK.getD k 0 ∉ s.exclusionSet →
      keyBit s.g_gamelink.input_prev k = true →
      (s.g_gamelink.repeat_last_tick k = t1 ∨ (s.g_gamelink.repeat_last_tick k = 0 ∧ W)) →
      (∀ p ∈ held, p.2.ready = 1 ∧ keyBit p.2 k = true ∧ t1 ≤ p.1) →
      remoteControlActive (polls C held s) ∧
        aDIKtoVK.getD k 0 ∉ (polls C held s).exclusionSet ∧
        keyBit (polls C held s).g_gamelink.input_prev k = true ∧
        ((polls C held s).g_gamelink.repeat_last_tick k = t1 ∨
          ((polls C held s).g_gamelink.repeat_last_tick k = 0 ∧
            (W ∨ ∃ p ∈ held, C.kMinRepeatInterval ≤ p.1 - t1))) := by
  intro held
  induction held with
  | nil =>
    intro s W hlive hex hprev hrlt _
    refine ⟨hlive, hex, hprev, ?_⟩
    cases hrlt with
    | inl h => exact Or.inl h
    | inr h => exact Or.inr ⟨h.1, Or.inl h.2⟩
  | cons p rest ih =>
    intro s W hlive hex hprev hrlt hheld
    obtain ⟨hpr, hpd, hpt⟩ := hheld p (List.mem_cons_self p rest)
    have hr0 : p.2.ready ≠ 0 := by rw [hpr]; decide
    obtain ⟨_, q2, q3, q4, q5⟩ := poll_key C p.1 p.2 s k hk hlive hr0
    rw [hprev, hpd] at q3
    have hstate : (poll C p.1 p.2 s).1.g_gamelink.repeat_last_tick k = t1 ∨
        ((poll C p.1 p.2 s).1.g_gamelink.repeat_last_tick k = 0 ∧
          (W ∨ C.kMinRepeatInterval ≤ p.1 - t1)) := by
      rw [q3]
      unfold keyTick
      cases hacc : keyAccepted C p.1 true true (s.g_gamelink.repeat_last_tick k) with
      | false =>
        simp only [Bool.false_eq_true, if_false]
        cases hrlt with
        | inl h => exact Or.inl h
        | inr h => exact Or.inr ⟨h.1, Or.inl h.2⟩
      | true =>
        simp only [if_true, Bool.not_true, Bool.false_eq_true, if_false]
        cases hrlt with
        | inl h =>
          refine Or.inr ⟨trivial, Or.inr ?_⟩
          rw [h] at hacc
          have hnlt : ¬ elapsedTicks p.1 t1 < C.kMinRepeatInterval := by
            intro hlt
            simp [keyAccepted, hlt] at hacc
          have hle := elapsedTicks_le p.1 t1 hpt
          omega
        | inr h => exact Or.inr ⟨trivial, Or.inl h.2⟩
    have hnext := ih (poll C p.1 p.2 s).1 (W ∨ C.kMinRepeatInterval ≤ p.1 - t1) q5
      (by rw [q4]; exact hex) (by rw [q2]; exact hpd) hstate
      (fun q hq => hheld q (List.mem_cons_of_mem p hq))
    obtain ⟨n1, n2, n3, n4⟩ := hnext
    refine ⟨n1, n2, n3, ?_⟩
    cases n4 with
    | inl h => exact Or.inl h
    | inr h =>
      refine Or.inr ⟨h.1, ?_⟩
      rcases h.2 with (hw | hw) | ⟨q, hq, hqk⟩
      · exact Or.inl hw
      · exact Or.inr ⟨p, List.mem_cons_self p rest, hw⟩
      · exact Or.inr ⟨q, List.mem_cons_of_mem p hq, hqk⟩

/-- C14: a key `k` whose translated code is not excluded is up before tick 1, is pressed
at tick 1 (time `t1`), stays down over the ticks of `held` (each with new remote input,
at times not before `t1`) and over one more tick at a time `t` that none of the earlier
ticks exceeds. At tick 1 `getInput` posts one key-down message for `k` and records `t1`
as the time stamp of the key. At the further held tick it posts nothing for `k` when
`t - t1 < kMinRepeatInterval`, and posts one key-down message and sets the time stamp to
0 when `t - t1 ≥ kMinRepeatInterval`; this holds after every run `held`, hence at every
held tick of a run with non-decreasing times, so that once the interval has elapsed each
held tick posts a key-down message. At a tick where the bit is clear again it posts
exactly one key-up message for `k`. -/
theorem key_repeat_suppression (C : Consts) (s : Globals) (k : Nat) (hk : k < 256)
    (hlive : remoteControlActive s)
    (hexcl : aDIKtoVK.getD k 0 ∉ s.exclusionSet)
    (hup : keyBit s.g_gamelink.input_prev k = false)
    (t1 : Nat) (inp1 : sSharedMMapInput_R2) (ht1 : t1 < 2 ^ 32)
    (hr1 : inp1.ready = 1) (hd1 : keyBit inp1 k = true)
    (held : List (Nat × sSharedMMapInput_R2))
    (hheld : ∀ p ∈ held, p.2.ready = 1 ∧ keyBit p.2 k = true ∧ t1 ≤ p.1) :
    (∃ lParam, eventsOfKey k (poll C t1 inp1 s).2 =
        [HostEvent.PostMessageW WinMsg.WM_KEYDOWN (aDIKtoVK.getD k 0) lParam]) ∧
      (poll C t1 inp1 s).1.g_gamelink.repeat_last_tick k = t1 ∧
      (∀ t inp, t < 2 ^ 32 → inp.ready = 1 → keyBit inp k = true → t1 ≤ t →
        (∀ p ∈ held, p.1 ≤ t) →
        (t - t1 < C.kMinRepeatInterval →
          eventsOfKey k (poll C t inp (polls C held (poll C t1 inp1 s).1)).2 = []) ∧
        (C.kMinRepeatInterval ≤ t - t1 →
          (∃ lParam, eventsOfKey k (poll C t inp (polls C held (poll C t1 inp1 s).1)).2 =
            [HostEvent.PostMessageW WinMsg.WM_KEYDOWN (aDIKtoVK.getD k 0) lParam]) ∧
          (poll C t inp (polls C held (poll C t1 inp1 s).1)).1.g_gamelink.repeat_last_tick k
            = 0)) ∧
      (∀ t inp, inp.ready = 1 → keyBit inp k = false →
        ∃ lParam, eventsOfKey k (poll C t inp (polls C held (poll C t1 inp1 s).1)).2 =
          [HostEvent.PostMessageW WinMsg.WM_KEYUP (aDIKtoVK.getD k 0) lParam]) := by
  have hr10 : inp1.ready ≠ 0 := by rw [hr1]; decide
  obtain ⟨p1, p2, p3, p4, p5⟩ := poll_key C t1 inp1 s k hk hlive hr10
  rw [hup, hd1] at p1 p3
  have hstamp : (poll C t1 inp1 s).1.g_gamelink.repeat_last_tick k = t1 := by
    rw [p3]
    show t1 % 2 ^ 32 = t1
    exact Nat.mod_eq_of_lt ht1
  obtain ⟨n1, n2, n3, n4⟩ := polls_held C k hk t1 held (poll C t1 inp1 s).1 False p5
    (by rw [p4]; exact hexcl) (by rw [p2]; exact hd1) (Or.inl hstamp) hheld
  refine ⟨?_, hstamp, fun t inp htb hr hd hle hmax => ?_, fun t inp hr hd => ?_⟩
  · rw [p1, keyPosted_accepted C _ t1 k false true _ rfl hexcl]
    exact ⟨_, rfl⟩
  · have hr0 : inp.ready ≠ 0 := by rw [hr]; decide
    obtain ⟨q1, _, q3, _, _⟩ := poll_key C t inp (polls C held (poll C t1 inp1 s).1) k hk n1 hr0
    rw [n3, hd] at q1 q3
    have ht64 : t < 2 ^ 64 := by omega
    constructor
    · intro hshort
      rw [q1]
      apply keyPosted_skipped
      cases n4 with
      | inl h =>
        rw [h]
        have he := elapsedTicks_of_le t t1 hle ht64
        simp [keyAccepted, he, hshort]
      | inr h =>
        rcases h.2 with hf | ⟨p, hp, hpk⟩
        · exact absurd hf id
        · have := hmax p hp
          omega
    · intro hlong
      have hacc : keyAccepted C t true true
          ((polls C held (poll C t1 inp1 s).1).g_gamelink.repeat_last_tick k) = true := by
        cases n4 with
        | inl h =>
          rw [h]
          have he := elapsedTicks_of_le t t1 hle ht64
          simp [keyAccepted, he, hlong]
        | inr h =>
          rw [h.1]
          have he := elapsedTicks_of_le t 0 (Nat.zero_le t) ht64
          have hbig : C.kMinRepeatInterval ≤ t := by omega
          simp [keyAccepted, he, hbig]
      constructor
      · rw [q1, keyPosted_accepted C _ t k true true _ hacc n2]
        exact ⟨_, rfl⟩
      · rw [q3]
        unfold keyTick
        rw [hacc]
        rfl
  · have hr0 : inp.ready ≠ 0 := by rw [hr]; decide
    obtain ⟨q1, _, _, _, _⟩ := poll_key C t inp (polls C held (poll C t1 inp1 s).1) k hk n1 hr0
    rw [n3, hd] at q1
    rw [q1, keyPosted_accepted C _ t k true false _ rfl n2]
    exact ⟨_, rfl⟩

theorem key_repeat_suppression_witness :
    ∃ lParam, eventsOfKey 1 (poll demoConsts 1500 releasedInput
        (polls demoConsts [(1100, readyInput), (1450, readyInput)]
          (poll demoConsts 1000 readyInput pressGlobals).1)).2 =
      [HostEvent.PostMessageW WinMsg.WM_KEYUP (aDIKtoVK.getD 1 0) lParam] :=
  (key_repeat_suppression demoConsts pressGlobals 1 (by decide)
    ⟨by decide, by decide, by decide⟩ (by decide) (by decide) 1000 readyInput (by decide)
    (by decide) (by decide) [(1100, readyInput), (1450, readyInput)] (by decide)).2.2.2
    1500 releasedInput (by decide) (by decide)

end RemoteControlManager

namespace GameLink

/-! ## Program identity -/

/-- A string without NUL is its own C string. -/
theorem c_str_of_no_nul (s : List Nat) (h : ∀ b ∈ s, b ≠ 0) : c_str s = s := by
  unfold c_str
  rw [List.takeWhile_eq_self_iff]
  intro b hb
  simpa using h b hb

/-- C21, evaluated on the code: `SetProgramInfo` cuts the name to `sizeof(program)`
characters, not one less, before `strcpy_s` copies it with its terminator. On a mapped
region a name without NUL of at least `PROGRAM_MAXLEN` characters is rejected by
`strcpy_s` (there is no result: the invalid-parameter handler runs) instead of being
stored truncated; a name without NUL that is shorter is stored whole with its
terminator and the hash tuple is set; on an unmapped region nothing changes. -/
theorem SetProgramInfo_truncation (C : Consts) (name : List Nat) (i1 i2 i3 i4 : Nat)
    (g : Statics) (hnul : ∀ b ∈ name, b ≠ 0) :
    (g.g_p_shared_memory = true → C.PROGRAM_MAXLEN ≤ name.length →
        SetProgramInfo C name i1 i2 i3 i4 g = none) ∧
      (g.g_p_shared_memory = true → name.length < C.PROGRAM_MAXLEN →
        ∃ g1, SetProgramInfo C name i1 i2 i3 i4 g = some g1 ∧
          bytesOf g1.shm.program name.length = name ∧
          g1.shm.program name.length = 0 ∧
          g1.shm.program_hash 0 = i1 ∧ g1.shm.program_hash 1 = i2 ∧
          g1.shm.program_hash 2 = i3 ∧ g1.shm.program_hash 3 = i4) ∧
      (g.g_p_shared_memory = false → SetProgramInfo C name i1 i2 i3 i4 g = some g) := by
  refine ⟨fun hm hlong => ?_, fun hm hshort => ?_, fun hm => ?_⟩
  · have htake : ∀ b ∈ name.take C.PROGRAM_MAXLEN, b ≠ 0 :=
      fun b hb => hnul b (List.mem_of_mem_take hb)
    have hlen : (name.take C.PROGRAM_MAXLEN).length = C.PROGRAM_MAXLEN := by
      rw [List.length_take]
      exact Nat.min_eq_left hlong
    have hno : ¬ (name.take C.PROGRAM_MAXLEN).length < C.PROGRAM_MAXLEN := by omega
    simp only [SetProgramInfo, hm, if_true, c_str_of_no_nul _ htake, strcpy_s, hno, if_false]
  · have htake : name.take C.PROGRAM_MAXLEN = name := List.take_of_length_le (by omega)
    simp only [SetProgramInfo, hm, if_true, htake, c_str_of_no_nul _ hnul, strcpy_s, hshort]
    refine ⟨_, rfl, ?_, ?_, rfl, rfl, rfl, rfl⟩
    · apply List.ext_getElem
      · simp [bytesOf]
      · intro i h1 h2
        simp only [bytesOf, List.getElem_map, List.getElem_range]
        simp [h2, List.getD_eq_getElem?_getD, List.getElem?_eq_getElem h2]
    · simp
  · simp [SetProgramInfo, hm]

theorem SetProgramInfo_truncation_witness :
    SetProgramInfo demoConsts (List.replicate 260 65) 0 0 0 7 liveStatics = none :=
  (SetProgramInfo_truncation demoConsts (List.replicate 260 65) 0 0 0 7 liveStatics
    (fun b hb => by rw [List.eq_of_mem_replicate hb]; decide)).1 rfl
    (by rw [List.length_replicate]; decide)


/-! ## Flags and the peek patch -/

/-- The version and flags an `Out` call stores when it acquires the mutex. -/
theorem Out_version_flags (C : Consts) (max_cpf : Int) (stack : Nat → Nat)
    (w h : Nat) (r : ℚ) (wm : Bool) (pf : Option (Nat → Nat)) (mem : Nat → Nat)
    (g : Statics) (hm : g.g_p_shared_memory = true) :
    (Out C max_cpf true stack w h r wm pf mem g).1.shm.version = PROTOCOL_VER ∧
      (Out C max_cpf true stack w h r wm pf mem g).1.shm.flags =
        buildFlags C g.g_bEnableTrackOnly wm max_cpf := by
  rw [Out_fst, if_pos ⟨hm, rfl⟩]
  exact ⟨rfl, rfl⟩

/-- C22: an `Out` call on a mapped region that acquires the mutex stores the protocol
version, and a flags byte that is the `no frame` flag in track-only mode, else the
`want keyboard` flag joined by the `want mouse` flag iff `want_mouse`, in both modes
joined by the `paused` flag iff `max_cpf` is 0. The four flags being the bits `a`, `b`,
`c`, `d` (keyboard, mouse, no frame, paused), bit `i` of the stored byte is set exactly
when `i` is the bit of one of the flags that apply; no other bit is set. -/
theorem Out_flags (C : Consts) (a b c d : Nat)
    (ha : C.FLAG_WANT_KEYB = 2 ^ a) (hb : C.FLAG_WANT_MOUSE = 2 ^ b)
    (hc : C.FLAG_NO_FRAME = 2 ^ c) (hd : C.FLAG_PAUSED = 2 ^ d)
    (max_cpf : Int) (stack : Nat → Nat)
    (frame_width frame_height : Nat) (source_ratio : ℚ) (want_mouse : Bool)
    (p_frame : Option (Nat → Nat)) (p_sysmem : Nat → Nat) (g : Statics)
    (hm : g.g_p_shared_memory = true) :
    (Out C max_cpf true stack frame_width frame_height source_ratio want_mouse p_frame
        p_sysmem g).1.shm.version = PROTOCOL_VER ∧
      (Out C max_cpf true stack frame_width frame_height source_ratio want_mouse p_frame
        p_sysmem g).1.shm.flags =
        (if g.g_bEnableTrackOnly = true then C.FLAG_NO_FRAME
          else if want_mouse = true then C.FLAG_WANT_KEYB ||| C.FLAG_WANT_MOUSE
          else C.FLAG_WANT_KEYB) ||| (if max_cpf = 0 then C.FLAG_PAUSED else 0) ∧
      (∀ i, (Out C max_cpf true stack frame_width frame_height source_ratio want_mouse
          p_frame p_sysmem g).1.shm.flags.testBit i = true ↔
        (i = c ∧ g.g_bEnableTrackOnly = true) ∨
          (i = a ∧ g.g_bEnableTrackOnly = false) ∨
          (i = b ∧ g.g_bEnableTrackOnly = false ∧ want_mouse = true) ∨
          (i = d ∧ max_cpf = 0)) := by
  obtain ⟨hv, hf⟩ := Out_version_flags C max_cpf stack frame_width frame_height source_ratio
    want_mouse p_frame p_sysmem g hm
  rw [hf]
  refine ⟨hv, ?_, fun i => ?_⟩
  · unfold buildFlags
    by_cases h0 : max_cpf = 0
    · subst h0
      cases g.g_bEnableTrackOnly <;> cases want_mouse <;>
        simp only [if_true, if_false, Bool.false_eq_true]
    · have h0s : ¬ (0 : Int) = max_cpf := fun hz => h0 hz.symm
      cases g.g_bEnableTrackOnly <;> cases want_mouse <;>
        simp only [h0, h0s, if_true, if_false, Bool.false_eq_true, Nat.or_zero]
  · unfold buildFlags
    rw [ha, hb, hc, hd]
    by_cases h0 : max_cpf = 0
    · subst h0
      cases g.g_bEnableTrackOnly <;> cases want_mouse <;>
        simp only [if_true, if_false, Bool.false_eq_true, Nat.testBit_or,
          Nat.testBit_two_pow, Bool.or_eq_true, decide_eq_true_eq, and_true, and_false,
          or_false, false_or, Bool.true_eq_false, eq_self_iff_true, true_and, false_and] <;>
        omega
    · have h0s : ¬ (0 : Int) = max_cpf := fun hz => h0 hz.symm
      cases g.g_bEnableTrackOnly <;> cases want_mouse <;>
        simp only [h0, h0s, if_true, if_false, Bool.false_eq_true, Nat.testBit_or,
          Nat.testBit_two_pow, Bool.or_eq_true, decide_eq_true_eq, and_true, and_false,
          or_false, false_or, Bool.true_eq_false, eq_self_iff_true, true_and, false_and] <;>
        omega

theorem Out_flags_witness :
    (Out demoConsts 0 true (fun _ => 0) 256 192 1 true none (fun _ => 0)
        liveStatics).1.shm.flags.testBit 3 = true ↔
      (3 = 2 ∧ liveStatics.g_bEnableTrackOnly = true) ∨
        (3 = 0 ∧ liveStatics.g_bEnableTrackOnly = false) ∨
        (3 = 1 ∧ liveStatics.g_bEnableTrackOnly = false ∧ true = true) ∨
        (3 = 3 ∧ (0 : Int) = 0) :=
  (Out_flags demoConsts 0 1 2 3 (by decide) (by decide) (by decide) (by decide) 0
    (fun _ => 0) 256 192 1 true none (fun _ => 0) liveStatics (by decide)).2.2 3

/-- C23: when the fourth hash word is `0x503359be`, `UpdatePeekInfo` answers every
request `i < min(addr_count, PEEK_LIMIT)` for address `0x1a009` with a byte that is,
modulo 256, `x - y + (rows - 1)` when `slant` is 0, `x + y` when `slant` is 4, and `x`
for every other `slant`, where `x`, `y`, `slant`, `rows` are the memory bytes at
`0x1a009`, `0x1a007`, `0x1a833`, `0x1a82d`; every other request keeps the plain peek
value; and when the hash word is another one every request has the plain peek value. -/
theorem UpdatePeekInfo_patch (C : Consts) (g_membase_size : Nat) (program_hash : Nat → Nat)
    (peek : sSharedMMapPeek_R2) (p_sysmem : Nat → Nat) (i : Nat)
    (hi : i < min peek.addr_count C.PEEK_LIMIT) :
    (program_hash 3 = 0x503359be → peek.addr i = 0x1a009 →
        (p_sysmem 0x1a833 = 0 →
          ((UpdatePeekInfo C g_membase_size program_hash peek p_sysmem).data i : Int) % 256 =
            ((p_sysmem 0x1a009 : Int) - (p_sysmem 0x1a007 : Int)
              + ((p_sysmem 0x1a82d : Int) - 1)) % 256) ∧
        (p_sysmem 0x1a833 = 4 →
          (UpdatePeekInfo C g_membase_size program_hash peek p_sysmem).data i % 256 =
            (p_sysmem 0x1a009 + p_sysmem 0x1a007) % 256) ∧
        (p_sysmem 0x1a833 ≠ 0 → p_sysmem 0x1a833 ≠ 4 →
          (UpdatePeekInfo C g_membase_size program_hash peek p_sysmem).data i =
            p_sysmem 0x1a009)) ∧
      (program_hash 3 ≠ 0x503359be ∨ peek.addr i ≠ 0x1a009 →
        (UpdatePeekInfo C g_membase_size program_hash peek p_sysmem).data i =
          if peek.addr i < g_membase_size then p_sysmem (peek.addr i) else 0) := by
  have hs := (UpdatePeekInfo_spec C g_membase_size program_hash peek p_sysmem).2.2 i
  rw [if_pos (Nat.lt_min.mp hi)] at hs
  refine ⟨fun hh ha => ?_, fun hno => ?_⟩
  · rw [if_pos ⟨hh, ha⟩] at hs
    rw [hs]
    refine ⟨fun h0 => ?_, fun h4 => ?_, fun hn0 hn4 => ?_⟩
    · rw [h0]
      unfold slantXpos
      simp only []
      omega
    · rw [h4]
      unfold slantXpos
      simp
    · unfold slantXpos
      split
      · rename_i heq; exact absurd heq hn0
      · rfl
      · rename_i heq; exact absurd heq hn4
      · rfl
  · have hneg : ¬ (program_hash 3 = 0x503359be ∧ peek.addr i = 0x1a009) := by
      intro hboth
      cases hno with
      | inl h => exact h hboth.1
      | inr h => exact h hboth.2
    rw [if_neg hneg] at hs
    exact hs

theorem UpdatePeekInfo_patch_witness :
    (UpdatePeekInfo demoConsts 0x20000 roaHash twoPeeks slantMemory).data 0 % 256
      = (slantMemory 0x1a009 + slantMemory 0x1a007) % 256 :=
  ((UpdatePeekInfo_patch demoConsts 0x20000 roaHash twoPeeks slantMemory 0 (by decide)).1
    (by decide) (by decide)).2.1 (by decide)


/-! ## Messages that are not commands -/

/-- An `Out` call that finds the region unmapped or does not get the mutex does nothing. -/
theorem Out_skip_eq (C : Consts) (max_cpf : Int) (wait_ok : Bool) (stack : Nat → Nat)
    (w h : Nat) (r : ℚ) (wm : Bool) (pf : Option (Nat → Nat)) (mem : Nat → Nat)
    (g : Statics) (hskip : ¬ (g.g_p_shared_memory = true ∧ wait_ok = true)) :
    Out C max_cpf wait_ok stack w h r wm pf mem g = (g, []) := by
  unfold Out
  cases hm : g.g_p_shared_memory with
  | false => simp
  | true =>
    cases hw : wait_ok with
    | false => simp
    | true => exact absurd ⟨hm, hw⟩ hskip

/-- What `ExecTerminal` does with an inbound message that is not a command while the
outbound mailbox is free: it records the output pointer and touches no buffer. -/
theorem ExecTerminal_other (t : Terminal) (hin : t.inbuf.payload ≠ 0)
    (hfirst : t.inbuf.data 0 ≠ ':'.toNat) (hout : t.outbuf.payload = 0) :
    ExecTerminal t = { t with g_p_outbuf := true } := by
  have ho2 : ¬ t.outbuf.payload > 0 := by omega
  unfold ExecTerminal
  rw [if_neg hin, if_neg ho2]
  simp only [hfirst, if_false]

/-- One `Out` call on statics whose inbound mailbox holds a message that is not a
command, the outbound mailbox being free: nothing is posted and both mailboxes stay. -/
theorem outCall_other (C : Consts) (a : OutCall) (g : Statics)
    (hin : g.shm.buf_recv.payload ≠ 0) (hfirst : g.shm.buf_recv.data 0 ≠ ':'.toNat)
    (hout : g.shm.buf_tohost.payload = 0) :
    (outCall C a g).2 = [] ∧ (outCall C a g).1.shm.buf_recv = g.shm.buf_recv ∧
      (outCall C a g).1.shm.buf_tohost = g.shm.buf_tohost := by
  unfold outCall
  by_cases hrun : g.g_p_shared_memory = true ∧ a.wait_ok = true
  · obtain ⟨hm, hw⟩ := hrun
    rw [hw]
    obtain ⟨o1, o2, o3, _⟩ := Out_acquired C a.max_cpf a.stack a.frame_width a.frame_height
      a.source_ratio a.want_mouse a.p_frame a.p_sysmem g hm
    have hE := ExecTerminal_other (outTerminal a.stack g) hin hfirst hout
    rw [o1, o2, o3, hE]
    exact ⟨rfl, rfl, rfl⟩
  · rw [Out_skip_eq C _ _ _ _ _ _ _ _ _ g hrun]
    exact ⟨rfl, rfl, rfl⟩

/-- C24: with an inbound message of nonzero length whose first byte is not `':'` and an
outbound mailbox of payload length 0, `ExecTerminal` leaves the inbound buffer (its
nonzero payload length included), the outbound buffer and the relay buffer unchanged;
and starting from statics with these mailboxes, any run of `Out` calls with no remote
write in between posts nothing and leaves both mailboxes as they are. -/
theorem ExecTerminal_ignores_other (C : Consts) (t : Terminal)
    (hin : t.inbuf.payload ≠ 0) (hfirst : t.inbuf.data 0 ≠ ':'.toNat)
    (hout : t.outbuf.payload = 0)
    (g : Statics) (hrecv : g.shm.buf_recv = t.inbuf) (hhost : g.shm.buf_tohost = t.outbuf)
    (calls : List OutCall) :
    (ExecTerminal t).inbuf = t.inbuf ∧ (ExecTerminal t).outbuf = t.outbuf ∧
      (ExecTerminal t).procbuf = t.procbuf ∧
      (outCycles C calls g).2 = [] ∧
      (outCycles C calls g).1.shm.buf_recv = t.inbuf ∧
      (outCycles C calls g).1.shm.buf_tohost = t.outbuf := by
  have hrun : ∀ (calls : List OutCall) (g : Statics), g.shm.buf_recv = t.inbuf →
      g.shm.buf_tohost = t.outbuf →
      (outCycles C calls g).2 = [] ∧ (outCycles C calls g).1.shm.buf_recv = t.inbuf ∧
        (outCycles C calls g).1.shm.buf_tohost = t.outbuf := by
    intro calls
    induction calls with
    | nil => intro g h1 h2; exact ⟨rfl, h1, h2⟩
    | cons a rest ih =>
      intro g h1 h2
      obtain ⟨c1, c2, c3⟩ := outCall_other C a g (by rw [h1]; exact hin)
        (by rw [h1]; exact hfirst) (by rw [h2]; exact hout)
      obtain ⟨i1, i2, i3⟩ := ih (outCall C a g).1 (c2.trans h1) (c3.trans h2)
      refine ⟨?_, i2, i3⟩
      show (outCall C a g).2 ++ (outCycles C rest (outCall C a g).1).2 = []
      rw [c1, i1]
      rfl
  rw [ExecTerminal_other t hin hfirst hout]
  exact ⟨rfl, rfl, rfl, hrun calls g hrecv hhost⟩

theorem ExecTerminal_ignores_other_witness :
    (outCycles demoConsts [plainCall, plainCall]
        (remoteWritesMailboxes chatTerminal.inbuf chatTerminal.outbuf liveStatics)).2 = [] :=
  (ExecTerminal_ignores_other demoConsts chatTerminal (by decide) (by decide) (by decide)
    (remoteWritesMailboxes chatTerminal.inbuf chatTerminal.outbuf liveStatics) rfl rfl
    [plainCall, plainCall]).2.2.2.1

end GameLink

namespace RemoteControlManager

open GameLink

/-- The function `In` reports no input when the shared `ready` flag is 0. -/
theorem In_not_ready (g : Statics) (p_input : sSharedMMapInput_R2)
    (p_audio : sSharedMMapAudio_R1) (hr : g.shm.input.ready = 0) :
    (In g p_input p_audio).ready = 0 := by
  unfold In
  cases g.g_p_shared_memory <;> cases g.g_bEnableTrackOnly <;> simp [hr]

/-- C25: when the shared `ready` flag is 0, or remote control is disabled, or the window
has the focus, a call of `getInput` posts nothing at all (no key message, no repeat, no
volume notification) and leaves the snapshot of the previous input, the time stamps of
the keys and the local volume `max_volume` unchanged. -/
theorem getInput_without_input (C : Consts) (hasFocus : Bool) (t : Nat) (s : Globals)
    (h : s.gl.shm.input.ready = 0 ∨ s.gl.g_bEnableGamelink = false ∨ hasFocus = true) :
    (getInput C hasFocus t s).2 = [] ∧
      (getInput C hasFocus t s).1.g_gamelink.input_prev = s.g_gamelink.input_prev ∧
      (getInput C hasFocus t s).1.g_gamelink.repeat_last_tick
        = s.g_gamelink.repeat_last_tick ∧
      (getInput C hasFocus t s).1.max_volume = s.max_volume := by
  unfold getInput
  cases hen : s.gl.g_bEnableGamelink with
  | false => simp
  | true =>
    cases hasFocus with
    | true => simp
    | false =>
      have hr : s.gl.shm.input.ready = 0 := by
        rcases h with h | h | h
        · exact h
        · rw [hen] at h; exact absurd h (by decide)
        · exact absurd h (by decide)
      have hready := In_not_ready s.gl s.g_gamelink.input s.g_gamelink.audio hr
      simp [hready]

theorem getInput_without_input_witness :
    (getInput demoConsts true 1000 pressGlobals).2 = [] :=
  (getInput_without_input demoConsts true 1000 pressGlobals (Or.inr (Or.inr rfl))).1


/-! ## Scanline reversal -/

/-- The state of the loop of `reverseScanlines` after `n` passes, started with `hiln` at
offset `h0`: source line `j` has gone to offset `h0 - j * linesize`, and nothing else of
the destination is touched. -/
theorem scanFold_spec (dst src : Int → Nat) (L : Nat) (h0 : Int) (n : Nat) :
    ((List.range n).foldl (scanlineBody src L) (dst, 0, h0)).2.1 = (n : Int) * L ∧
      ((List.range n).foldl (scanlineBody src L) (dst, 0, h0)).2.2 = h0 - (n : Int) * L ∧
      (∀ j k : Nat, j < n → k < L →
        ((List.range n).foldl (scanlineBody src L) (dst, 0, h0)).1 (h0 - (j : Int) * L + k)
          = src ((j : Int) * L + k)) ∧
      (∀ a : Int, a < h0 - (n : Int) * L + L ∨ h0 + L ≤ a →
        ((List.range n).foldl (scanlineBody src L) (dst, 0, h0)).1 a = dst a) := by
  induction n with
  | zero =>
    refine ⟨by simp, by simp, ?_, ?_⟩
    · intro j k hj; omega
    · intro a _; rfl
  | succ n ih =>
    obtain ⟨i1, i2, i3, i4⟩ := ih
    rw [List.range_succ, List.foldl_append, List.foldl_cons, List.foldl_nil]
    generalize (List.range n).foldl (scanlineBody src L) (dst, 0, h0) = st at i1 i2 i3 i4
    have hnL : (0 : Int) ≤ (n : Int) * L := by positivity
    refine ⟨?_, ?_, ?_, ?_⟩
    · show st.2.1 + (L : Int) = ((n + 1 : Nat) : Int) * L
      rw [i1]; push_cast; ring
    · show st.2.2 - (L : Int) = h0 - ((n + 1 : Nat) : Int) * L
      rw [i2]; push_cast; ring
    · intro j k hj hk
      show memcpyAt st.1 st.2.2 src st.2.1 L (h0 - (j : Int) * L + k) = src ((j : Int) * L + k)
      unfold memcpyAt
      rw [i1, i2]
      rcases Nat.lt_succ_iff_lt_or_eq.mp hj with hlt | heq
      · have hle : (j : Int) * L + L ≤ (n : Int) * L := by
          have h1 : (j + 1) * L ≤ n * L := Nat.mul_le_mul_right L hlt
          have h2 : (((j + 1) * L : Nat) : Int) ≤ ((n * L : Nat) : Int) := Int.ofNat_le.mpr h1
          push_cast at h2
          linarith
        rw [if_neg (by omega)]
        exact i3 j k hlt hk
      · subst heq
        rw [if_pos (by omega)]
        congr 1
        ring
    · intro a ha
      show memcpyAt st.1 st.2.2 src st.2.1 L a = dst a
      unfold memcpyAt
      rw [i2]
      have ha2 : a < h0 - (n : Int) * L ∨ h0 + L ≤ a := by
        rcases ha with h | h
        · left; push_cast at h; linarith
        · right; exact h
      rw [if_neg (by omega)]
      exact i4 a (by omega)

/-- With a line size and a height that fit 32 bits, `reverseScanlines` sends source line
`i` to destination line `height - 1 - i` and touches no other byte. -/
theorem reverseScanlines_spec (destination source : Int → Nat) (width height depth : Nat)
    (hline : width * depth < 2 ^ 32) (hh : height < 2 ^ 32) :
    (∀ i k : Nat, i < height → k < width * depth →
      reverseScanlines destination source width height depth
          (((height - 1 - i) * (width * depth) + k : Nat) : Int)
        = source ((i * (width * depth) + k : Nat) : Int)) ∧
      (∀ a : Int, a < 0 ∨ ((height * (width * depth) : Nat) : Int) ≤ a →
        reverseScanlines destination source width height depth a = destination a) := by
  rcases Nat.eq_zero_or_pos height with h0 | hpos
  · subst h0
    exact ⟨fun i k hi _ => absurd hi (Nat.not_lt_zero i), fun a _ => rfl⟩
  · have hL : (width * depth) % 2 ^ 32 = width * depth := Nat.mod_eq_of_lt hline
    have hH : (height + 2 ^ 32 - 1) % 2 ^ 32 = height - 1 := by omega
    have hprod : (height - 1) * (width * depth) < 2 ^ 64 := by
      have h1 : (height - 1) * (width * depth) < 2 ^ 32 * 2 ^ 32 :=
        Nat.mul_lt_mul'' (by omega) hline
      simpa using h1
    have hdef : reverseScanlines destination source width height depth
        = ((List.range height).foldl (scanlineBody source (width * depth))
            (destination, 0, (((height - 1) * (width * depth) : Nat) : Int))).1 := by
      unfold reverseScanlines
      simp only [hL, hH, Nat.mod_eq_of_lt hprod]
    obtain ⟨_, _, s3, s4⟩ := scanFold_spec destination source (width * depth)
      (((height - 1) * (width * depth) : Nat) : Int) height
    rw [hdef]
    refine ⟨?_, ?_⟩
    · intro i k hi hk
      have := s3 i k hi hk
      have haddr : ((((height - 1 - i) * (width * depth) + k : Nat)) : Int)
          = (((height - 1) * (width * depth) : Nat) : Int)
            - (i : Int) * ((width * depth : Nat) : Int) + (k : Int) := by
        obtain ⟨m, hm⟩ : ∃ m, height - 1 = m + i := ⟨height - 1 - i, by omega⟩
        have hm2 : height - 1 - i = m := by omega
        rw [hm2, hm]
        push_cast
        ring
      rw [haddr, this]
      congr 1
    · intro a ha
      apply s4 a
      have hsum : (((height - 1) * (width * depth) : Nat) : Int) + ((width * depth : Nat) : Int)
          = ((height * (width * depth) : Nat) : Int) := by
        obtain ⟨m, hm⟩ : ∃ m, height = m + 1 := ⟨height - 1, by omega⟩
        subst hm
        simp only [Nat.add_sub_cancel]
        push_cast
        ring
      have hmul : ((height * (width * depth) : Nat) : Int)
          = (height : Int) * ((width * depth : Nat) : Int) := Nat.cast_mul _ _
      rcases ha with h | h
      · left; linarith
      · right; linarith

/-- C27 as stated fails: with width `2^31` and depth 2 the 32-bit line size is 0, so a
one-line image is not copied at all; the destination keeps its byte at offset 0 (and
everywhere else) although the source line holds other bytes. -/
theorem reverseScanlines_wide_line_counterexample :
    2 ^ 31 < 2 ^ 32 ∧ 2 < 2 ^ 8 ∧
      reverseScanlines (fun _ => 0) (fun _ => 1) (2 ^ 31) 1 2
          (((1 - 1 - 0) * (2 ^ 31 * 2) + 0 : Nat) : Int)
        ≠ (fun _ => 1 : Int → Nat) ((0 * (2 ^ 31 * 2) + 0 : Nat) : Int) := by
  decide

/-- C27, amended: for every width, height and depth with `width * depth < 2^32` and
`height < 2^32`, `reverseScanlines` writes source line `i` to destination line
`height - 1 - i` for every `i < height`, the bytes of a line in the same order; it writes
nothing outside the `height * width * depth` bytes of the destination; reversing the
result again into any buffer gives back the bytes of the original image; and for height 0
it writes nothing, whatever width and depth are. -/
theorem reverseScanlines_rows (destination other source : Int → Nat)
    (width height depth : Nat) (hline : width * depth < 2 ^ 32) (hh : height < 2 ^ 32) :
    (∀ i k : Nat, i < height → k < width * depth →
      reverseScanlines destination source width height depth
          (((height - 1 - i) * (width * depth) + k : Nat) : Int)
        = source ((i * (width * depth) + k : Nat) : Int)) ∧
      (∀ a : Int, a < 0 ∨ ((height * (width * depth) : Nat) : Int) ≤ a →
        reverseScanlines destination source width height depth a = destination a) ∧
      (∀ i k : Nat, i < height → k < width * depth →
        reverseScanlines other (reverseScanlines destination source width height depth)
            width height depth ((i * (width * depth) + k : Nat) : Int)
          = source ((i * (width * depth) + k : Nat) : Int)) ∧
      (∀ w d : Nat, reverseScanlines destination source w 0 d = destination) := by
  obtain ⟨r1, r2⟩ := reverseScanlines_spec destination source width height depth hline hh
  obtain ⟨q1, _⟩ := reverseScanlines_spec other
    (reverseScanlines destination source width height depth) width height depth hline hh
  refine ⟨r1, r2, ?_, fun w d => rfl⟩
  intro i k hi hk
  have h1 := q1 (height - 1 - i) k (by omega) hk
  have h2 := r1 i k hi hk
  have hrow : height - 1 - (height - 1 - i) = i := by omega
  rw [hrow] at h1
  rw [h1, h2]

theorem reverseScanlines_rows_witness :
    reverseScanlines (fun _ => 0) (fun a => a.toNat) 2 3 4
        (((3 - 1 - 0) * (2 * 4) + 5 : Nat) : Int)
      = (fun a => a.toNat : Int → Nat) ((0 * (2 * 4) + 5 : Nat) : Int) :=
  (reverseScanlines_rows (fun _ => 0) (fun _ => 0) (fun a => a.toNat) 2 3 4
    (by decide) (by decide)).1 0 5 (by decide) (by decide)

end RemoteControlManager

namespace GameLink

/-- On a mapped region a name shorter than the `program` field is accepted: the hash
tuple is stored and the name ends with a NUL at the length of its C string. -/
theorem SetProgramInfo_identity (C : Consts) (name : List Nat) (i1 i2 i3 i4 : Nat)
    (g : Statics) (hm : g.g_p_shared_memory = true) (hshort : name.length < C.PROGRAM_MAXLEN) :
    ∃ g1, SetProgramInfo C name i1 i2 i3 i4 g = some g1 ∧
      g1.shm.program_hash 0 = i1 ∧ g1.shm.program_hash 1 = i2 ∧
      g1.shm.program_hash 2 = i3 ∧ g1.shm.program_hash 3 = i4 ∧
      g1.shm.program (c_str name).length = 0 := by
  have htake : name.take C.PROGRAM_MAXLEN = name := List.take_of_length_le (by omega)
  have hc : (c_str name).length < C.PROGRAM_MAXLEN :=
    lt_of_le_of_lt (List.takeWhile_sublist _).length_le hshort
  simp only [SetProgramInfo, hm, if_true, htake, strcpy_s, hc]
  exact ⟨_, rfl, rfl, rfl, rfl, rfl, by simp⟩

end GameLink

namespace RemoteControlManager

open GameLink

/-! ## CRC-32 and the identity of the loaded program -/

set_option maxRecDepth 100000 in
/-- The table holds, for each index, eight shift/xor steps applied to the index. -/
theorem crc_32_tab_eq : crc_32_tab = (List.range 256).map (fun i => bitwiseCrcStep^[8] i) := by
  decide

/-- The table has 256 entries. -/
theorem crc_32_tab_length : crc_32_tab.length = 256 := by
  rw [crc_32_tab_eq, List.length_map, List.length_range]

/-- Entry `i` of the table is eight shift/xor steps applied to `i`. -/
theorem crc_32_tab_get (i : Nat) (hi : i < 256) : crc_32_tab.getD i 0 = bitwiseCrcStep^[8] i := by
  rw [crc_32_tab_eq]
  rw [List.getD_eq_getElem _ _ (by simpa using hi)]
  simp

/-- A right shift distributes over xor. -/
theorem shiftRight_xor (a b n : Nat) : (a ^^^ b) >>> n = (a >>> n) ^^^ (b >>> n) := by
  apply Nat.eq_of_testBit_eq
  intro i
  simp [Nat.testBit_shiftRight, Nat.testBit_xor]

/-- The shift/xor step is linear over xor. -/
theorem bitwiseCrcStep_xor (a b : Nat) :
    bitwiseCrcStep (a ^^^ b) = bitwiseCrcStep a ^^^ bitwiseCrcStep b := by
  unfold bitwiseCrcStep
  rw [shiftRight_xor]
  by_cases ha : a % 2 = 1
  · by_cases hb : b % 2 = 1
    · have hab : ¬ (a ^^^ b) % 2 = 1 := by
        rw [Nat.xor_mod_two_eq_one]; exact fun h => h ⟨fun _ => hb, fun _ => ha⟩
      rw [if_pos ha, if_pos hb, if_neg hab]
      have : (a >>> 1 ^^^ 0xEDB88320) ^^^ (b >>> 1 ^^^ 0xEDB88320)
          = (a >>> 1 ^^^ b >>> 1) ^^^ (0xEDB88320 ^^^ 0xEDB88320) := by ac_rfl
      rw [this, Nat.xor_self, Nat.xor_zero]
    · have hab : (a ^^^ b) % 2 = 1 := by
        rw [Nat.xor_mod_two_eq_one]; exact fun h => hb (h.mp ha)
      rw [if_pos ha, if_neg hb, if_pos hab]
      ac_rfl
  · by_cases hb : b % 2 = 1
    · have hab : (a ^^^ b) % 2 = 1 := by
        rw [Nat.xor_mod_two_eq_one]; exact fun h => ha (h.mpr hb)
      rw [if_neg ha, if_pos hb, if_pos hab]
      ac_rfl
    · have hab : ¬ (a ^^^ b) % 2 = 1 := by
        rw [Nat.xor_mod_two_eq_one]; exact fun h => h ⟨fun h1 => absurd h1 ha, fun h1 => absurd h1 hb⟩
      rw [if_neg ha, if_neg hb, if_neg hab]

/-- Any number of shift/xor steps is linear over xor. -/
theorem bitwiseCrcStep_iterate_xor (n a b : Nat) :
    bitwiseCrcStep^[n] (a ^^^ b) = bitwiseCrcStep^[n] a ^^^ bitwiseCrcStep^[n] b := by
  induction n generalizing a b with
  | zero => rfl
  | succ n ih => rw [Function.iterate_succ_apply, Function.iterate_succ_apply,
      Function.iterate_succ_apply, bitwiseCrcStep_xor, ih]

/-- A step on an even value halves it. -/
theorem bitwiseCrcStep_double (y : Nat) : bitwiseCrcStep (2 * y) = y := by
  unfold bitwiseCrcStep
  rw [if_neg (by omega), Nat.shiftRight_eq_div_pow]
  omega

/-- On a multiple of `2^n`, `n` steps only shift. -/
theorem bitwiseCrcStep_iterate_shift (n y : Nat) : bitwiseCrcStep^[n] (2 ^ n * y) = y := by
  induction n generalizing y with
  | zero => simp
  | succ n ih =>
    rw [Function.iterate_succ_apply, pow_succ, show 2 ^ n * 2 * y = 2 * (2 ^ n * y) by ring,
      bitwiseCrcStep_double, ih]

/-- A value is the xor of its low byte and of the rest. -/
theorem split_low_byte (x : Nat) : x = (x % 2 ^ 8) ^^^ (2 ^ 8 * (x >>> 8)) := by
  apply Nat.eq_of_testBit_eq
  intro i
  rw [Nat.testBit_xor, Nat.testBit_mod_two_pow, Nat.testBit_mul_pow_two,
    Nat.testBit_shiftRight]
  by_cases hi : i < 8
  · have h8 : ¬ 8 ≤ i := by omega
    simp [hi, h8]
  · have : 8 + (i - 8) = i := by omega
    simp [hi, this]
    omega

/-- The table lookup of `UPDC32` is the bit-by-bit update for one byte. -/
theorem UPDC32_eq (octet crc : Nat) : UPDC32 octet crc = bitwiseCrcByte crc (octet % 256) := by
  unfold UPDC32 bitwiseCrcByte
  have hb : octet % 256 < 256 := Nat.mod_lt _ (by decide)
  generalize octet % 256 = b at hb
  have hmask : (crc ^^^ b) &&& 0xff = (crc ^^^ b) % 2 ^ 8 :=
    Nat.and_pow_two_sub_one_eq_mod (crc ^^^ b) 8
  have hhi : crc >>> 8 = (crc ^^^ b) >>> 8 := by
    rw [shiftRight_xor, Nat.shiftRight_eq_div_pow b 8, Nat.div_eq_of_lt hb, Nat.xor_zero]
  rw [hmask, crc_32_tab_get ((crc ^^^ b) % 2 ^ 8) (Nat.mod_lt _ (by decide)), hhi]
  conv_rhs => rw [split_low_byte (crc ^^^ b)]
  rw [bitwiseCrcStep_iterate_xor, bitwiseCrcStep_iterate_shift]

/-- The function `crc32buf` is the bit-by-bit CRC-32 of the bytes of the buffer. -/
theorem crc32buf_eq (buf : Nat → Nat) (len : Nat) :
    crc32buf buf len = bitwiseCrc32 ((List.range len).map (fun i => buf i % 256)) := by
  unfold crc32buf bitwiseCrc32
  rw [List.foldl_map]
  congr 1
  congr 1
  funext c i
  exact UPDC32_eq (buf i) c

/-- A step keeps a value below `2^32`. -/
theorem bitwiseCrcStep_lt (c : Nat) (hc : c < 2 ^ 32) : bitwiseCrcStep c < 2 ^ 32 := by
  have h1 : c >>> 1 < 2 ^ 32 := by rw [Nat.shiftRight_eq_div_pow]; omega
  unfold bitwiseCrcStep
  split
  · exact Nat.xor_lt_two_pow h1 (by decide)
  · exact h1

/-- Any number of steps keeps a value below `2^32`. -/
theorem bitwiseCrcStep_iterate_lt (n c : Nat) (hc : c < 2 ^ 32) : bitwiseCrcStep^[n] c < 2 ^ 32 := by
  induction n generalizing c with
  | zero => exact hc
  | succ n ih => rw [Function.iterate_succ_apply]; exact ih _ (bitwiseCrcStep_lt c hc)

/-- The macro `UPDC32` keeps the running value below `2^32`. -/
theorem UPDC32_lt (octet crc : Nat) (hc : crc < 2 ^ 32) : UPDC32 octet crc < 2 ^ 32 := by
  rw [UPDC32_eq]
  unfold bitwiseCrcByte
  exact bitwiseCrcStep_iterate_lt 8 _
    (Nat.xor_lt_two_pow hc (lt_trans (Nat.mod_lt _ (by decide)) (by decide)))

/-- The result of `crc32buf` fits 32 bits. -/
theorem crc32buf_lt (buf : Nat → Nat) (len : Nat) : crc32buf buf len < 2 ^ 32 := by
  have h : ∀ n, (List.range n).foldl (fun oldcrc32 i => UPDC32 (buf i) oldcrc32) 0xFFFFFFFF
      < 2 ^ 32 := by
    intro n
    induction n with
    | zero => show (0xFFFFFFFF : Nat) < 2 ^ 32; decide
    | succ n ih =>
      rw [List.range_succ, List.foldl_append, List.foldl_cons, List.foldl_nil]
      exact UPDC32_lt _ _ ih
  unfold crc32buf
  exact Nat.xor_lt_two_pow (h len) (by decide)

/-- C26: the table-driven `crc32buf` equals the bit-by-bit reflected CRC-32 (polynomial
`0xEDB88320`, initial value `0xFFFFFFFF`, final complement) of the bytes of the buffer,
and its value fits 32 bits; the table has 256 entries, each of them eight shift/xor
steps applied to its index; the empty input gives 0 and the ASCII digits `123456789`
give `0xCBF43926`. On a mapped region, for a length below the size of the `program`
field, `setLoadedProgram` publishes the identity `(0, 0, 0, crc32buf(name))` when the
length is not 0, and the all-zero identity with an empty name when it is 0. -/
theorem crc32buf_refines (C : Consts) (name : Nat → Nat) (length : Nat) (s : Globals)
    (hm : s.gl.g_p_shared_memory = true) (hcap : length < C.PROGRAM_MAXLEN) :
    crc32buf name length = bitwiseCrc32 ((List.range length).map (fun i => name i % 256)) ∧
      crc32buf name length < 2 ^ 32 ∧
      crc_32_tab.length = 256 ∧
      (∀ i, i < 256 → crc_32_tab.getD i 0 = bitwiseCrcStep^[8] i) ∧
      crc32buf name 0 = 0 ∧
      crc32buf checkBuffer 9 = 0xCBF43926 ∧
      (0 < length → ∃ s1, setLoadedProgram C name length s = some s1 ∧
        s1.gl.shm.program_hash 0 = 0 ∧ s1.gl.shm.program_hash 1 = 0 ∧
        s1.gl.shm.program_hash 2 = 0 ∧
        s1.gl.shm.program_hash 3 = crc32buf name length) ∧
      (length = 0 → ∃ s1, setLoadedProgram C name length s = some s1 ∧
        s1.gl.shm.program_hash 0 = 0 ∧ s1.gl.shm.program_hash 1 = 0 ∧
        s1.gl.shm.program_hash 2 = 0 ∧ s1.gl.shm.program_hash 3 = 0 ∧
        s1.gl.shm.program 0 = 0 ∧ s1.g_infoHdv.VolumeName = []) := by
  refine ⟨crc32buf_eq name length, crc32buf_lt name length, crc_32_tab_length,
    crc_32_tab_get, by simp [crc32buf],
    by decide, fun hpos => ?_, fun hzero => ?_⟩
  · have hlen : (bytesOf name length).length < C.PROGRAM_MAXLEN := by
      simpa [bytesOf] using hcap
    obtain ⟨g1, hg1, h0, h1, h2, h3, _⟩ := SetProgramInfo_identity C (bytesOf name length)
      0 0 0 (crc32buf name length) s.gl hm hlen
    simp only [setLoadedProgram, hpos, if_true, updateRunningProgramInfo, hg1, Option.map_some']
    exact ⟨_, rfl, h0, h1, h2, h3⟩
  · have hlen : ([] : List Nat).length < C.PROGRAM_MAXLEN := by
      simpa using (by omega : 0 < C.PROGRAM_MAXLEN)
    obtain ⟨g1, hg1, h0, h1, h2, h3, h4⟩ := SetProgramInfo_identity C [] 0 0 0 0 s.gl hm hlen
    have hnot : ¬ length > 0 := by omega
    simp only [setLoadedProgram, hnot, if_false, updateRunningProgramInfo, hg1,
      Option.map_some']
    exact ⟨_, rfl, h0, h1, h2, h3, h4, rfl⟩

theorem crc32buf_refines_witness :
    ∃ s1, setLoadedProgram demoConsts volumeBuffer 3 pressGlobals = some s1 ∧
      s1.gl.shm.program_hash 0 = 0 ∧ s1.gl.shm.program_hash 1 = 0 ∧
      s1.gl.shm.program_hash 2 = 0 ∧
      s1.gl.shm.program_hash 3 = crc32buf volumeBuffer 3 :=
  (crc32buf_refines demoConsts volumeBuffer 3 pressGlobals rfl (by decide)).2.2.2.2.2.2.1
    (by decide)

end RemoteControlManager
